import Mathlib

/-!
# Consensus-packet gossip overlay, dial scheduler and miner of quantum-coin-go

A shallow embedding of `consensus/proofofstake/PeerHandler.go` (the peer handler of
the relay overlay) and of the order in which its methods take their locks, of the
rebroadcast cache of `handler/handler_eth.go`, of the dial scheduler of `p2p/dial.go`,
of the proposal path and the task and result loops of `miner/worker.go`, of `Process`
of `core/state_processor.go`, of the context keys of
`consensus/proofofstake/context.go` and of the gas price of
`wasm/core/types/default_fee_tx.go`, together with theorems about routing, purge,
decoding, throttling, dialing, proposing, sealing and processing.

Conventions of the embedding

* A Go `map[K]V` is an association list (`GoMap K V`): a lookup returns the first
  binding of a key, an assignment overwrites that binding in place (or appends a
  new one), `delete` removes every binding of the key and `range` visits the
  bindings in list order (Go leaves the order unspecified: every statement below
  holds for every order).
* Every method that holds `peerLock` for its whole body is one atomic step
  `state → result`.  A `go f(...)` statement does not run `f`: it is recorded in
  the list of spawned tasks of the step (for the two broadcast methods, whose only
  `go` statement is the transport call, in the list `sends` of the result).
* `BroadcastLocalPacket` holds no lock across its two broadcasts: what the calls of
  other goroutines do to the handler between them is a parameter of its embedding.
* `int64` counters are integers wrapped into the 64-bit two's complement range;
  `uint64` block numbers and `len(...)` results are natural numbers.
* An index expression `b[i]` of Go is fallible (`List.get?`): an index out of range
  is the run-time panic of Go and is reported as the outcome `panics`.
* Declarations of the repository that are not part of the sources read here (the
  packet-type constants, `PACKET_PROTOCOL_START_BLOCK`, `packet.Hash()`, the rlp
  codec, the signer) are parameters, collected in `Env`.
-/

namespace QuantumCoin

/-- One Go `byte`. -/
abbrev Byte := Fin 256

/-- A Go `[]byte`; the nil slice and the empty slice are both `[]`. -/
abbrev Bytes := List Byte

/-- The 32-byte `common.Hash`. -/
abbrev Hash := List Byte

/-- The constant `ZERO_HASH`: thirty-two zero bytes. -/
def ZERO_HASH : Hash := List.replicate 32 0

/-- A Go map, as the list of its bindings. -/
abbrev GoMap (K V : Type) := List (K × V)

namespace GoMap

variable {K V : Type} [DecidableEq K]

/-- The map read `v, ok := m[k]`. -/
def lookup : GoMap K V → K → Option V
  | [], _ => none
  | (k', v) :: m, k => if k' = k then some v else lookup m k

/-- The presence test `_, ok := m[k]`. -/
def contains (m : GoMap K V) (k : K) : Bool := (lookup m k).isSome

/-- The map write `m[k] = v`. -/
def insert : GoMap K V → K → V → GoMap K V
  | [], k, v => [(k, v)]
  | (k', v') :: m, k, v => if k' = k then (k, v) :: m else (k', v') :: insert m k v

/-- The builtin `delete(m, k)`. -/
def erase (m : GoMap K V) (k : K) : GoMap K V := m.filter (fun e => !decide (e.1 = k))

/-- The keys visited by `for k := range m`. -/
def keys (m : GoMap K V) : List K := m.map Prod.fst

/-- The builtin `len(m)`. -/
def len (m : GoMap K V) : Nat := m.length

/-- A list of bindings is a Go map when no key is bound twice. -/
def WF (m : GoMap K V) : Prop := (keys m).Nodup

end GoMap

/-- Addition of two `int64` values, with the wrap-around of Go. -/
def int64Add (a b : Int) : Int :=
  (a + b + 9223372036854775808) % 18446744073709551616 - 9223372036854775808

/-- The struct `CapabilityDetails`: sent by a consensus relay to another node. -/
structure CapabilityDetails where
  IsConsensusRelay : Bool
  PeerId : String
deriving DecidableEq, Repr

/-- The struct `RequestConsensusSyncDetails`: sent by a node to a consensus relay. -/
structure RequestConsensusSyncDetails where
  IsConsensusRelay : Bool
  PeerId : String
deriving DecidableEq, Repr

/-- The struct `PeerDetails`; `capabilityDetails` is a pointer that may be nil. -/
structure PeerDetails where
  capabilityDetails : Option CapabilityDetails
  peerId : String
deriving DecidableEq, Repr

/-- The struct `eth.ConsensusPacket`. -/
structure ConsensusPacket where
  ParentHash : Hash
  ConsensusData : Bytes
  Signature : Bytes
deriving DecidableEq, Repr

/-- The struct `PacketSyncDetails`: the per-packet ledger. -/
structure PacketSyncDetails where
  incomingPeerMap : GoMap String Bool
  packet : ConsensusPacket
  sendPeerMap : GoMap String Bool
deriving DecidableEq, Repr

/-- The mutable fields of the struct `PeerHandler`. -/
structure PeerHandler where
  peerMap : GoMap String PeerDetails
  isConsensusRelay : Bool
  localPeerId : String
  consensusRelayMap : GoMap String Bool
  syncPeerMap : GoMap String Bool
  packetSyncMap : GoMap Hash PacketSyncDetails
  currentParentHash : Hash
  currentBlockNumber : Nat
  totalBlocks : Int
  packetsReceivedTotal : Int
  packetsReceivedFromRelayTotal : Int
  packetsSent : Int
  packetsSentToRelays : Int
  localPacketsSentToRelays : Int
  packetsReceivedTotalCurrentParentHash : Int
  packetsReceivedFromRelayTotalCurrentParentHash : Int
  packetsSentCurrentParentHash : Int
  packetsSentToRelaysCurrentParentHash : Int
  localPacketsSentToRelaysCurrentParentHash : Int
deriving DecidableEq, Repr

/-- The errors the handler returns. -/
inductive GoError where
  | InvalidPacketErr
  | signFnNotSet
  | codec (msg : String)
  | signer (msg : String)
  | transport (msg : String)
deriving DecidableEq, Repr

/-- The type `ConsensusPacketType` constants used by the handler; their values are
declared outside the sources read here. -/
structure PacketTypes where
  CONSENSUS_PACKET_TYPE_CAPABILITY : Byte
  CONSENSUS_PACKET_TYPE_SYNC : Byte
  CONSENSUS_PACKET_TYPE_PROPOSE_BLOCK : Byte
  CONSENSUS_PACKET_TYPE_COMMIT_BLOCK : Byte

/-- What the handler uses from the rest of the repository. -/
structure Env where
  /-- The method `packet.Hash()`. -/
  hash : ConsensusPacket → Hash
  /-- The packet-type constants. -/
  types : PacketTypes
  /-- The constant `PACKET_PROTOCOL_START_BLOCK`. -/
  PACKET_PROTOCOL_START_BLOCK : Nat
  /-- The function `rlp.EncodeToBytes` at `CapabilityDetails`. -/
  encodeCapability : CapabilityDetails → Except GoError Bytes
  /-- The function `rlp.DecodeBytes` at `CapabilityDetails`. -/
  decodeCapability : Bytes → Except GoError CapabilityDetails
  /-- The function `rlp.EncodeToBytes` at `RequestConsensusSyncDetails`. -/
  encodeSync : RequestConsensusSyncDetails → Except GoError Bytes
  /-- The function `rlp.DecodeBytes` at `RequestConsensusSyncDetails`. -/
  decodeSync : Bytes → Except GoError RequestConsensusSyncDetails
  /-- The field `signFn` applied to the handler's account and the proof-of-stake
  mime type; `none` is the nil function. -/
  signFn : Option (Bytes → Except GoError Bytes)
  /-- Whether the field `p2pHandler` is set (not nil). -/
  p2pHandlerSet : Bool
  /-- The value `getLatestBlockNumberFn()` returns. -/
  latestBlockNumber : Nat
  /-- The result of `p2pHandler.SendConsensusPacket`: nil or an error. -/
  transportSend : List String → ConsensusPacket → Option GoError

/-- The calls started by a `go` statement. -/
inductive Task where
  | SendCapabilityPacket (peerList : List String)
  | SendRequestConsensusSyncPacket (peerId : String)
  | ConnectAvailableConsensusRelay
  | HandleCapabilityPacket (d : CapabilityDetails) (fromPeerId : String)
  | HandleRequestConsensusSync (d : RequestConsensusSyncDetails) (fromPeerId : String)
  | BroadcastToSyncPeers (packet : ConsensusPacket) (fromPeerId : String)
  | BroadcastToConsensusRelays (packet : ConsensusPacket) (fromPeerId : String)
  | SendCapabilityToAllPeers
  | SendCapabilityToDeltaPeers
deriving DecidableEq, Repr

/-- The function `NewPeerHandler`. -/
def NewPeerHandler (isConsensusRelay : Bool) : PeerHandler :=
  { peerMap := [], isConsensusRelay := isConsensusRelay, localPeerId := "",
    consensusRelayMap := [], syncPeerMap := [], packetSyncMap := [],
    currentParentHash := ZERO_HASH, currentBlockNumber := 0,
    totalBlocks := 0, packetsReceivedTotal := 0, packetsReceivedFromRelayTotal := 0,
    packetsSent := 0, packetsSentToRelays := 0, localPacketsSentToRelays := 0,
    packetsReceivedTotalCurrentParentHash := 0,
    packetsReceivedFromRelayTotalCurrentParentHash := 0,
    packetsSentCurrentParentHash := 0, packetsSentToRelaysCurrentParentHash := 0,
    localPacketsSentToRelaysCurrentParentHash := 0 }

/-- The result of one broadcast call: the state after it, the lists handed to
`p2pHandler.SendConsensusPacket` and the returned count. -/
structure BroadcastResult where
  state : PeerHandler
  sends : List (List String × ConsensusPacket)
  count : Nat
deriving DecidableEq, Repr

/-- The lookup-or-create step at the head of both broadcast methods. -/
def lookupOrCreate (m : GoMap Hash PacketSyncDetails) (h : Hash) (packet : ConsensusPacket) :
    PacketSyncDetails :=
  match m.lookup h with
  | some d => d
  | none => { incomingPeerMap := [], packet := packet, sendPeerMap := [] }

/-- The loop `for k, _ := range p.consensusRelayMap` of `BroadcastToConsensusRelays`:
it returns the send map and the send list after visiting the given keys. -/
def relayLoop (incomingPeerMap : GoMap String Bool) :
    List String → GoMap String Bool → List String → GoMap String Bool × List String
  | [], sendPeerMap, sendList => (sendPeerMap, sendList)
  | k :: ks, sendPeerMap, sendList =>
    if sendPeerMap.contains k then relayLoop incomingPeerMap ks sendPeerMap sendList
    else if incomingPeerMap.contains k then relayLoop incomingPeerMap ks sendPeerMap sendList
    else relayLoop incomingPeerMap ks (sendPeerMap.insert k true) (sendList ++ [k])

/-- The loop `for peerId, _ := range p.syncPeerMap` of `BroadcastToSyncPeers`. -/
def syncLoop (fromPeerId : String) (incomingPeerMap : GoMap String Bool) :
    List String → GoMap String Bool → List String → GoMap String Bool × List String
  | [], sendPeerMap, sendPeerList => (sendPeerMap, sendPeerList)
  | peerId :: ks, sendPeerMap, sendPeerList =>
    if peerId = fromPeerId then syncLoop fromPeerId incomingPeerMap ks sendPeerMap sendPeerList
    else if sendPeerMap.contains peerId then
      syncLoop fromPeerId incomingPeerMap ks sendPeerMap sendPeerList
    else if incomingPeerMap.contains peerId then
      syncLoop fromPeerId incomingPeerMap ks sendPeerMap sendPeerList
    else syncLoop fromPeerId incomingPeerMap ks (sendPeerMap.insert peerId true)
      (sendPeerList ++ [peerId])

/-- The method `BroadcastToConsensusRelays`. -/
def BroadcastToConsensusRelays (env : Env) (p : PeerHandler) (packet : ConsensusPacket)
    (fromPeerId : String) : BroadcastResult :=
  let packetSyncDetails := lookupOrCreate p.packetSyncMap (env.hash packet) packet
  let incomingPeerMap := packetSyncDetails.incomingPeerMap.insert fromPeerId true
  let r := relayLoop incomingPeerMap p.consensusRelayMap.keys packetSyncDetails.sendPeerMap []
  let sendList := r.2
  let packetSyncDetails : PacketSyncDetails :=
    { packetSyncDetails with sendPeerMap := r.1, incomingPeerMap := incomingPeerMap }
  let p1 : PeerHandler :=
    { p with
      packetSyncMap := p.packetSyncMap.insert (env.hash packet) packetSyncDetails,
      packetsSentToRelaysCurrentParentHash :=
        int64Add p.packetsSentToRelaysCurrentParentHash sendList.length }
  let p2 : PeerHandler :=
    if fromPeerId = p.localPeerId then
      { p1 with
        localPacketsSentToRelaysCurrentParentHash :=
          int64Add p1.localPacketsSentToRelaysCurrentParentHash sendList.length }
    else p1
  { state := p2, sends := [(sendList, packet)], count := sendList.length }

/-- The method `GetCurrentParentHash`. -/
def GetCurrentParentHash (p : PeerHandler) : Hash := p.currentParentHash

/-- The method `BroadcastToSyncPeers`. -/
def BroadcastToSyncPeers (env : Env) (p : PeerHandler) (packet : ConsensusPacket)
    (fromPeerId : String) : BroadcastResult :=
  if packet.ParentHash ≠ GetCurrentParentHash p then
    { state := p, sends := [], count := 0 }
  else
    let packetSyncDetails := lookupOrCreate p.packetSyncMap (env.hash packet) packet
    let incomingPeerMap := packetSyncDetails.incomingPeerMap.insert fromPeerId true
    let r := syncLoop fromPeerId incomingPeerMap p.syncPeerMap.keys
      packetSyncDetails.sendPeerMap []
    let sendPeerList := r.2
    let packetSyncDetails : PacketSyncDetails :=
      { packetSyncDetails with incomingPeerMap := incomingPeerMap, sendPeerMap := r.1 }
    { state :=
        { p with
          packetSyncMap := p.packetSyncMap.insert (env.hash packet) packetSyncDetails,
          packetsSentCurrentParentHash :=
            int64Add p.packetsSentCurrentParentHash sendPeerList.length },
      sends := [(sendPeerList, packet)], count := sendPeerList.length }

/-- Whether `q` is a key of `incomingPeerMap` in the entry stored under the hash `h`. -/
def seenFromAt (p : PeerHandler) (h : Hash) (q : String) : Bool :=
  match p.packetSyncMap.lookup h with
  | some d => d.incomingPeerMap.contains q
  | none => false

/-- Whether `q` is a key of `sendPeerMap` in the entry stored under the hash `h`. -/
def sentToAt (p : PeerHandler) (h : Hash) (q : String) : Bool :=
  match p.packetSyncMap.lookup h with
  | some d => d.sendPeerMap.contains q
  | none => false

/-- The set `seen_from(p)`: the keys of `incomingPeerMap` of the packet's entry. -/
def seenFrom (env : Env) (p : PeerHandler) (packet : ConsensusPacket) (q : String) : Bool :=
  seenFromAt p (env.hash packet) q

/-- The set `sent_to(p)`: the keys of `sendPeerMap` of the packet's entry. -/
def sentTo (env : Env) (p : PeerHandler) (packet : ConsensusPacket) (q : String) : Bool :=
  sentToAt p (env.hash packet) q

/-- The result of a handler step: the state after it and the `go` calls it started. -/
structure StepResult where
  state : PeerHandler
  spawned : List Task
deriving DecidableEq, Repr

/-- The method `OnPeerConnected` (it always returns nil). -/
def OnPeerConnected (p : PeerHandler) (peerId : String) : StepResult :=
  let peerDetails : PeerDetails := { capabilityDetails := none, peerId := peerId }
  { state := { p with peerMap := p.peerMap.insert peerId peerDetails },
    spawned := if p.isConsensusRelay then [Task.SendCapabilityPacket [peerId]] else [] }

/-- The method `OnPeerDisconnected` (it always returns nil). -/
def OnPeerDisconnected (p : PeerHandler) (peerId : String) : StepResult :=
  let consensusRelayMap := p.consensusRelayMap.erase peerId
  { state := { p with peerMap := p.peerMap.erase peerId,
                      consensusRelayMap := consensusRelayMap,
                      syncPeerMap := p.syncPeerMap.erase peerId },
    spawned := if consensusRelayMap.len = 0 then [Task.ConnectAvailableConsensusRelay]
               else [] }

/-- The method `HandleCapabilityPacket`. -/
def HandleCapabilityPacket (p : PeerHandler) (capabilityDetails : CapabilityDetails)
    (fromPeerId : String) : StepResult :=
  if capabilityDetails.IsConsensusRelay = false ∨ fromPeerId ≠ capabilityDetails.PeerId then
    { state := p, spawned := [] }
  else
    let peerDetails : PeerDetails :=
      { peerId := capabilityDetails.PeerId, capabilityDetails := some capabilityDetails }
    { state := { p with peerMap := p.peerMap.insert capabilityDetails.PeerId peerDetails },
      spawned :=
        if p.isConsensusRelay ∨ p.consensusRelayMap.len = 0 then
          [Task.SendRequestConsensusSyncPacket capabilityDetails.PeerId]
        else [] }

/-- The method `HandleRequestConsensusSync`. -/
def HandleRequestConsensusSync (p : PeerHandler)
    (requestConsensusSyncDetails : RequestConsensusSyncDetails) (fromPeerId : String) :
    PeerHandler :=
  if fromPeerId ≠ requestConsensusSyncDetails.PeerId then p
  else { p with syncPeerMap := p.syncPeerMap.insert requestConsensusSyncDetails.PeerId true }

/-- The constant `MinConsensusNetworkProtocolVersion`. -/
def MinConsensusNetworkProtocolVersion : Byte := 5

/-- The constant `ConsensusNetworkProtocolVersion`. -/
def ConsensusNetworkProtocolVersion : Byte := 5

/-- The method `CreateConsensusPacket`. -/
def CreateConsensusPacket (env : Env) (data : Bytes) : Except GoError ConsensusPacket :=
  match env.signFn with
  | none => Except.error GoError.signFnNotSet
  | some signFn =>
    let dataToSign := ZERO_HASH ++ data
    match signFn dataToSign with
    | Except.error err => Except.error err
    | Except.ok signature =>
      Except.ok { ParentHash := ZERO_HASH, ConsensusData := data, Signature := signature }

/-- The result of a send method: the state after it, the calls of
`p2pHandler.SendConsensusPacket` it made and the returned error (nil is `none`). -/
structure SendResult where
  state : PeerHandler
  sent : List (List String × ConsensusPacket)
  err : Option GoError

/-- The method `SendCapabilityPacket`. -/
def SendCapabilityPacket (env : Env) (p : PeerHandler) (peerList : List String) : SendResult :=
  if env.p2pHandlerSet = false ∨ p.isConsensusRelay = false ∨
      env.latestBlockNumber < env.PACKET_PROTOCOL_START_BLOCK then
    { state := p, sent := [], err := none }
  else
    let capabilityDetails : CapabilityDetails :=
      { IsConsensusRelay := true, PeerId := p.localPeerId }
    match env.encodeCapability capabilityDetails with
    | Except.error err => { state := p, sent := [], err := some err }
    | Except.ok data =>
      let dataToSend : Bytes :=
        [ConsensusNetworkProtocolVersion] ++
          ([env.types.CONSENSUS_PACKET_TYPE_CAPABILITY] ++ data)
      match CreateConsensusPacket env dataToSend with
      | Except.error err => { state := p, sent := [], err := some err }
      | Except.ok packet =>
        match env.transportSend peerList packet with
        | some err => { state := p, sent := [(peerList, packet)], err := some err }
        | none => { state := p, sent := [(peerList, packet)], err := none }

/-- The method `SendRequestConsensusSyncPacket`. -/
def SendRequestConsensusSyncPacket (env : Env) (p : PeerHandler) (peerId : String) :
    SendResult :=
  if env.p2pHandlerSet = false ∨ env.latestBlockNumber < env.PACKET_PROTOCOL_START_BLOCK then
    { state := p, sent := [], err := none }
  else
    let consensusSyncDetails : RequestConsensusSyncDetails :=
      { IsConsensusRelay := p.isConsensusRelay, PeerId := p.localPeerId }
    match env.encodeSync consensusSyncDetails with
    | Except.error err => { state := p, sent := [], err := some err }
    | Except.ok data =>
      let dataToSend : Bytes :=
        [ConsensusNetworkProtocolVersion] ++ ([env.types.CONSENSUS_PACKET_TYPE_SYNC] ++ data)
      match CreateConsensusPacket env dataToSend with
      | Except.error err => { state := p, sent := [], err := some err }
      | Except.ok packet =>
        match env.transportSend [peerId] packet with
        | some err => { state := p, sent := [([peerId], packet)], err := some err }
        | none =>
          { state := { p with consensusRelayMap := p.consensusRelayMap.insert peerId true },
            sent := [([peerId], packet)], err := none }

/-- A run-time panic of Go. -/
inductive Panic where
  | indexOutOfRange (index length : Nat)
  | nilPointerDereference
deriving DecidableEq, Repr

/-- How a call of `HandleConsensusPacket` ends: it returns (with nil or an error),
or the goroutine panics. -/
inductive Outcome where
  | returns (state : PeerHandler) (spawned : List Task) (err : Option GoError)
  | panics (why : Panic)
deriving DecidableEq, Repr

/-- The method `HandleConsensusPacket`; a nil packet is `none`. -/
def HandleConsensusPacket (env : Env) (p : PeerHandler) (packet : Option ConsensusPacket)
    (fromPeerId : String) : Outcome :=
  match packet with
  | none => Outcome.returns p [] (some GoError.InvalidPacketErr)
  | some packet =>
    if packet.Signature.length = 0 ∨ packet.ConsensusData.length = 0 then
      Outcome.returns p [] (some GoError.InvalidPacketErr)
    else
      match packet.ConsensusData.get? 0 with
      | none => Outcome.panics (Panic.indexOutOfRange 0 packet.ConsensusData.length)
      | some first =>
        let startIndex : Nat := if first ≥ MinConsensusNetworkProtocolVersion then 2 else 1
        match packet.ConsensusData.get? (startIndex - 1) with
        | none =>
          Outcome.panics (Panic.indexOutOfRange (startIndex - 1) packet.ConsensusData.length)
        | some packetType =>
          if packetType = env.types.CONSENSUS_PACKET_TYPE_CAPABILITY then
            match env.decodeCapability (packet.ConsensusData.drop startIndex) with
            | Except.error err => Outcome.returns p [] (some err)
            | Except.ok capabilityDetails =>
              Outcome.returns p [Task.HandleCapabilityPacket capabilityDetails fromPeerId] none
          else if packetType = env.types.CONSENSUS_PACKET_TYPE_SYNC then
            match env.decodeSync (packet.ConsensusData.drop startIndex) with
            | Except.error err => Outcome.returns p [] (some err)
            | Except.ok requestConsensusSyncDetails =>
              Outcome.returns p
                [Task.HandleRequestConsensusSync requestConsensusSyncDetails fromPeerId] none
          else if packetType ≥ env.types.CONSENSUS_PACKET_TYPE_PROPOSE_BLOCK ∧
              packetType ≤ env.types.CONSENSUS_PACKET_TYPE_COMMIT_BLOCK then
            let p1 : PeerHandler :=
              { p with packetsReceivedTotalCurrentParentHash :=
                  int64Add p.packetsReceivedTotalCurrentParentHash 1 }
            let p2 : PeerHandler :=
              if p1.consensusRelayMap.lookup fromPeerId = some true then
                { p1 with packetsReceivedFromRelayTotalCurrentParentHash :=
                    int64Add p1.packetsReceivedFromRelayTotalCurrentParentHash 1 }
              else p1
            let spawned : List Task :=
              if p2.isConsensusRelay then
                [Task.BroadcastToSyncPeers packet fromPeerId] ++
                  (if p2.syncPeerMap.lookup fromPeerId = some true then
                    [Task.BroadcastToConsensusRelays packet fromPeerId]
                  else [])
              else []
            Outcome.returns p2 spawned none
          else
            Outcome.returns p [] none

/-- Whether a call of `HandleConsensusPacket` returned nil: the packet is accepted. -/
def Outcome.accepted : Outcome → Bool
  | Outcome.returns _ _ none => true
  | Outcome.returns _ _ (some _) => false
  | Outcome.panics _ => false

/-- The cleanup loop `for k, v := range p.packetSyncMap` of `SetCurrentParentHash`:
the bindings still to visit, and the map they are deleted from. -/
def purgeLoop (currentParentHash : Hash) :
    List (Hash × PacketSyncDetails) → GoMap Hash PacketSyncDetails →
      GoMap Hash PacketSyncDetails
  | [], m => m
  | (k, v) :: rest, m =>
    if v.packet.ParentHash = currentParentHash then purgeLoop currentParentHash rest m
    else purgeLoop currentParentHash rest (m.erase k)

/-- The method `SetCurrentParentHash` (its log lines are left out). -/
def SetCurrentParentHash (env : Env) (p : PeerHandler) (parentHash : Hash)
    (currentBlockNumber : Nat) : StepResult :=
  let p1 : PeerHandler :=
    { p with
      totalBlocks := int64Add p.totalBlocks 1,
      packetsReceivedTotal :=
        int64Add p.packetsReceivedTotal p.packetsReceivedTotalCurrentParentHash,
      packetsReceivedFromRelayTotal :=
        int64Add p.packetsReceivedFromRelayTotal
          p.packetsReceivedFromRelayTotalCurrentParentHash,
      packetsSent := int64Add p.packetsSent p.packetsSentCurrentParentHash,
      packetsSentToRelays :=
        int64Add p.packetsSentToRelays p.packetsSentToRelaysCurrentParentHash,
      localPacketsSentToRelays :=
        int64Add p.localPacketsSentToRelays p.localPacketsSentToRelaysCurrentParentHash }
  let p2 : PeerHandler :=
    { p1 with
      currentParentHash := parentHash,
      currentBlockNumber := currentBlockNumber,
      packetsReceivedTotalCurrentParentHash := 0,
      packetsReceivedFromRelayTotalCurrentParentHash := 0,
      packetsSentCurrentParentHash := 0,
      packetsSentToRelaysCurrentParentHash := 0,
      localPacketsSentToRelaysCurrentParentHash := 0 }
  let p3 : PeerHandler :=
    { p2 with packetSyncMap := purgeLoop p2.currentParentHash p2.packetSyncMap p2.packetSyncMap }
  { state := p3,
    spawned :=
      if p3.isConsensusRelay then
        if currentBlockNumber = env.PACKET_PROTOCOL_START_BLOCK then
          [Task.SendCapabilityToAllPeers]
        else if currentBlockNumber > env.PACKET_PROTOCOL_START_BLOCK then
          if p3.peerMap.len > p3.syncPeerMap.len ∧ currentBlockNumber % 128 = 0 then
            [Task.SendCapabilityToDeltaPeers]
          else []
        else []
      else [] }

/-! ## Runs of the handler -/

/-- The calls of a run of the handler: broadcasts of arbitrary packets, interleaved
with peers connecting, disconnecting, announcing themselves, subscribing and being
registered as relays. -/
inductive Event where
  | BroadcastToSyncPeers (packet : ConsensusPacket) (fromPeerId : String)
  | BroadcastToConsensusRelays (packet : ConsensusPacket) (fromPeerId : String)
  | OnPeerConnected (peerId : String)
  | OnPeerDisconnected (peerId : String)
  | HandleCapabilityPacket (d : CapabilityDetails) (fromPeerId : String)
  | HandleRequestConsensusSync (d : RequestConsensusSyncDetails) (fromPeerId : String)
  | SendRequestConsensusSyncPacket (peerId : String)

/-- The single writes of a list of transport calls: one pair per packet and peer. -/
def flattenSends : List (List String × ConsensusPacket) → List (ConsensusPacket × String)
  | [] => []
  | (peerList, packet) :: rest => peerList.map (fun q => (packet, q)) ++ flattenSends rest

/-- One call of a run: the state after it and the consensus packets the call
broadcasts, one pair per packet and peer. -/
def applyEvent (env : Env) (p : PeerHandler) : Event → PeerHandler × List (ConsensusPacket × String)
  | Event.BroadcastToSyncPeers packet fromPeerId =>
    ((BroadcastToSyncPeers env p packet fromPeerId).state,
      flattenSends (BroadcastToSyncPeers env p packet fromPeerId).sends)
  | Event.BroadcastToConsensusRelays packet fromPeerId =>
    ((BroadcastToConsensusRelays env p packet fromPeerId).state,
      flattenSends (BroadcastToConsensusRelays env p packet fromPeerId).sends)
  | Event.OnPeerConnected peerId => ((OnPeerConnected p peerId).state, [])
  | Event.OnPeerDisconnected peerId => ((OnPeerDisconnected p peerId).state, [])
  | Event.HandleCapabilityPacket d fromPeerId => ((HandleCapabilityPacket p d fromPeerId).state, [])
  | Event.HandleRequestConsensusSync d fromPeerId => (HandleRequestConsensusSync p d fromPeerId, [])
  | Event.SendRequestConsensusSyncPacket peerId =>
    ((SendRequestConsensusSyncPacket env p peerId).state, [])

/-- The broadcast log of a run: every (packet, peer) write, in order. -/
def sendLog (env : Env) : PeerHandler → List Event → List (ConsensusPacket × String)
  | _, [] => []
  | p, e :: es => (applyEvent env p e).2 ++ sendLog env (applyEvent env p e).1 es

/-! ## The framing of `consensus_data` -/

/-- The type byte of a framed `consensus_data`: at index 1 when the first byte is a
protocol version (at least `MinConsensusNetworkProtocolVersion`), else at index 0. -/
def typeByte (data : Bytes) : Option Byte :=
  match data with
  | [] => none
  | first :: _ => if first ≥ MinConsensusNetworkProtocolVersion then data.get? 1 else some first

/-- The payload of a framed `consensus_data`: the bytes from index 2 when the first
byte is a protocol version, else the bytes from index 1. -/
def payload (data : Bytes) : Bytes :=
  match data with
  | [] => []
  | first :: _ => if first ≥ MinConsensusNetworkProtocolVersion then data.drop 2 else data.drop 1

/-! ## A worked scenario -/

/-- Sample values for the packet-type constants, used in the worked scenarios only:
the general statements hold for all values. -/
def scenarioTypes : PacketTypes :=
  { CONSENSUS_PACKET_TYPE_PROPOSE_BLOCK := 0,
    CONSENSUS_PACKET_TYPE_COMMIT_BLOCK := 3,
    CONSENSUS_PACKET_TYPE_SYNC := 10,
    CONSENSUS_PACKET_TYPE_CAPABILITY := 11 }

/-- A sample encoder: the flag byte, then the peer id as bytes. -/
def scenarioEncode (flag : Bool) (peerId : String) : Bytes :=
  (if flag then 1 else 0) :: peerId.toList.map (fun c => Fin.ofNat c.toNat)

/-- A sample decoder, reading what `scenarioEncode` writes. -/
def scenarioDecode : Bytes → Except GoError (Bool × String)
  | [] => Except.error (GoError.codec "unexpected EOF")
  | flag :: rest => Except.ok (decide (flag ≠ 0), String.mk (rest.map (fun b => Char.ofNat b.val)))

/-- A sample signer: it returns the same two-byte signature for every message. -/
def scenarioSign : Bytes → Except GoError Bytes := fun _ => Except.ok [7, 7]

/-- A sample environment: a transport that is set and never fails, a signer that
returns a two-byte signature, and a packet hash that is the packet's content. -/
def scenarioEnv : Env :=
  { hash := fun packet => packet.ParentHash ++ packet.ConsensusData ++ packet.Signature,
    types := scenarioTypes,
    PACKET_PROTOCOL_START_BLOCK := 100,
    encodeCapability := fun d => Except.ok (scenarioEncode d.IsConsensusRelay d.PeerId),
    decodeCapability := fun b =>
      match scenarioDecode b with
      | Except.ok r => Except.ok { IsConsensusRelay := r.1, PeerId := r.2 }
      | Except.error e => Except.error e,
    encodeSync := fun d => Except.ok (scenarioEncode d.IsConsensusRelay d.PeerId),
    decodeSync := fun b =>
      match scenarioDecode b with
      | Except.ok r => Except.ok { IsConsensusRelay := r.1, PeerId := r.2 }
      | Except.error e => Except.error e,
    signFn := some scenarioSign,
    p2pHandlerSet := true,
    latestBlockNumber := 200,
    transportSend := fun _ _ => none }

/-- An engine packet of the current round: version 5, type `PROPOSE`, one payload byte. -/
def scenarioPacket : ConsensusPacket :=
  { ParentHash := ZERO_HASH, ConsensusData := [5, 0, 42], Signature := [7, 7] }

/-- An engine packet of an earlier round: its parent hash is not the current one. -/
def scenarioStalePacket : ConsensusPacket :=
  { ParentHash := List.replicate 32 1, ConsensusData := [5, 0, 41], Signature := [7, 7] }

/-- A relay with the sync subscribers A, B and C and the relay peer R. -/
def scenarioRelay : PeerHandler :=
  { NewPeerHandler true with
    localPeerId := "L",
    syncPeerMap := [("A", true), ("B", true), ("C", true)],
    consensusRelayMap := [("R", true)] }

/-- The relay of the scenario with two ledger entries: one for the stale packet and
one for the packet of the current round. -/
def scenarioLedger : PeerHandler :=
  { scenarioRelay with
    packetSyncMap :=
      [(scenarioEnv.hash scenarioStalePacket,
          { incomingPeerMap := [("A", true)], packet := scenarioStalePacket,
            sendPeerMap := [("B", true)] }),
        (scenarioEnv.hash scenarioPacket,
          { incomingPeerMap := [("B", true)], packet := scenarioPacket,
            sendPeerMap := [("C", true)] })] }

/-- The contract of one routing call over the target set `target`, from the state
`p` to the result `r`: what is sent, what is returned and how the ledger of the
packet moves. -/
def RoutingContract (env : Env) (target : List String) (p : PeerHandler)
    (packet : ConsensusPacket) (fromPeerId : String) (r : BroadcastResult) : Prop :=
  ∃ sendList : List String,
    r.sends = [(sendList, packet)] ∧ r.count = sendList.length ∧ sendList.Nodup ∧
    (∀ q, q ∈ sendList ↔
      q ∈ target ∧ sentTo env p packet q = false ∧ seenFrom env p packet q = false ∧
        q ≠ fromPeerId) ∧
    (∀ q, seenFrom env r.state packet q = true ↔
      seenFrom env p packet q = true ∨ q = fromPeerId) ∧
    (∀ q, sentTo env r.state packet q = true ↔
      sentTo env p packet q = true ∨ q ∈ sendList) ∧
    r.state.peerMap = p.peerMap ∧ r.state.consensusRelayMap = p.consensusRelayMap ∧
    r.state.syncPeerMap = p.syncPeerMap

/-! ## Local broadcast and resubscription -/

/-- The method `BroadcastLocalPacket`.  On a relay it makes two calls, and each of them
takes `peerLock` for its own body only: no lock is held from the return of
`BroadcastToSyncPeers` to the entry of `BroadcastToConsensusRelays`.  The calls of
other goroutines that run in between take the handler from the state the first call
left to `between` of it (`between` is the identity when none runs). -/
def BroadcastLocalPacket (env : Env) (p : PeerHandler) (packet : ConsensusPacket)
    (between : PeerHandler → PeerHandler) : BroadcastResult :=
  if p.isConsensusRelay = true then
    let r1 := BroadcastToSyncPeers env p packet p.localPeerId
    let p1 := between r1.state
    let r2 := BroadcastToConsensusRelays env p1 packet p1.localPeerId
    { state := r2.state, sends := r1.sends ++ r2.sends, count := r1.count + r2.count }
  else
    BroadcastToConsensusRelays env p packet p.localPeerId

/-- The loop `for k, v := range p.peerMap` of `ConnectAvailableConsensusRelay`, over
the bindings still to visit; `v.capabilityDetails` is dereferenced without a nil
test. -/
def connectAvailableLoop (p : PeerHandler) : List (String × PeerDetails) → Outcome
  | [] => Outcome.returns p [] none
  | (k, v) :: rest =>
    match v.capabilityDetails with
    | none => Outcome.panics Panic.nilPointerDereference
    | some capabilityDetails =>
      if capabilityDetails.IsConsensusRelay then
        Outcome.returns p [Task.SendRequestConsensusSyncPacket k] none
      else connectAvailableLoop p rest

/-- The method `ConnectAvailableConsensusRelay`. -/
def ConnectAvailableConsensusRelay (p : PeerHandler) : Outcome :=
  connectAvailableLoop p p.peerMap

/-- The constant `REBROADCAST_CLEANUP_MILLI_SECONDS`. -/
def REBROADCAST_CLEANUP_MILLI_SECONDS : Int := 300000

/-- The constant `REBROADCAST_CLEANUP_TIMER_MILLI_SECONDS`. -/
def REBROADCAST_CLEANUP_TIMER_MILLI_SECONDS : Int := 900000

/-- The constant `REBROADCAST_MIN_DELAY_PACKET_HASH`. -/
def REBROADCAST_MIN_DELAY_PACKET_HASH : Int := 30000

/-- The constant `time.Millisecond`, in nanoseconds. -/
def Millisecond : Nat := 1000000

/-- The fields of `P2PHandler` behind `rebroadcastLock`. -/
structure RebroadcastCache where
  rebroadcastMap : GoMap Hash Nat
  rebroadcastLastCleanupTime : Int
deriving DecidableEq, Repr

/-- The function `Elapsed`, at the clock reading `now`: milliseconds since `startTime`
(the division of Go truncates toward zero). -/
def Elapsed (now : Nat) (startTime : Int) : Int :=
  let endMs : Int := (now / Millisecond : Nat)
  let start : Int := Int.tdiv startTime Millisecond
  let diff := endMs - start
  diff

/-- The expression `end - start` of the cache: the age in milliseconds, at the clock
reading `now`, of the stamp `v`. -/
def ageMillis (now v : Nat) : Int :=
  let start : Int := (v / Millisecond : Nat)
  let endMs : Int := (now / Millisecond : Nat)
  let diff := endMs - start
  diff

/-- The cleanup loop `for k, v := range h.rebroadcastMap`: the bindings still to
visit, and the map they are deleted from. -/
def cleanupLoop (now : Nat) : List (Hash × Nat) → GoMap Hash Nat → GoMap Hash Nat
  | [], m => m
  | (k, v) :: rest, m =>
    if ageMillis now v > REBROADCAST_CLEANUP_MILLI_SECONDS then
      cleanupLoop now rest (m.erase k)
    else cleanupLoop now rest m

/-- The method `ShouldRebroadcastIfYesSetFlag`, at the clock reading `now`. -/
def ShouldRebroadcastIfYesSetFlag (now : Nat) (h : RebroadcastCache) (packetHash : Hash) :
    RebroadcastCache × Bool :=
  match h.rebroadcastMap.lookup packetHash with
  | none =>
    let h1 : RebroadcastCache :=
      { h with rebroadcastMap := h.rebroadcastMap.insert packetHash now }
    let h2 : RebroadcastCache :=
      if Elapsed now h1.rebroadcastLastCleanupTime > REBROADCAST_CLEANUP_TIMER_MILLI_SECONDS then
        { rebroadcastMap := cleanupLoop now h1.rebroadcastMap h1.rebroadcastMap,
          rebroadcastLastCleanupTime := now }
      else h1
    (h2, true)
  | some lastRebroadCast =>
    if ageMillis now lastRebroadCast > REBROADCAST_MIN_DELAY_PACKET_HASH then
      ({ h with rebroadcastMap := h.rebroadcastMap.insert packetHash now }, true)
    else (h, false)

/-- The results of a sequence of calls `(hash, clock reading)`, in order. -/
def rebroadcastRun : RebroadcastCache → List (Hash × Nat) → List Bool
  | _, [] => []
  | h, (packetHash, now) :: rest =>
    (ShouldRebroadcastIfYesSetFlag now h packetHash).2 ::
      rebroadcastRun (ShouldRebroadcastIfYesSetFlag now h packetHash).1 rest

/-- Two sample packet hashes. -/
def scenarioHash1 : Hash := List.replicate 32 1

/-- The second sample packet hash. -/
def scenarioHash2 : Hash := List.replicate 32 2

/-! ## The dial scheduler (`p2p/dial.go`)

The fields of `dialScheduler` that belong to the loop are the state `dialScheduler`;
the configuration `dialConfig` is separate.  A `*dialTask` is a reference into the
list `tasks` of all tasks allocated by `newDialTask`: `static`, `staticPool` and
`dialing` hold references, and a write to `task.staticPoolIndex` is a write into
`tasks`.  The fields `lastResolved` and `resolveDelay`, private to a running task, the
history timer, the send on `peerConnCh` and the log statistics are left out.  A step that panics in Go (an
index out of range, a nil task, the explicit panic of `addToStaticPool`) returns
`none`.  The `int` values of the scheduler (peer counts, slots, pool indices) are
mathematical integers: they are bounded by the number of peers and tasks.  One loop
iteration reads the clock once (`now`), and `rand.Intn` draws from the list `rnd`. -/

/-- The type `enode.ID`. -/
abbrev NodeID := Nat

/-- What the scheduler reads of an `enode.Node`: `ID()`, `IP()` (nil is `none`) and
`TCP()`. -/
structure Node where
  id : NodeID
  ip : Option (List Byte)
  tcp : Nat
deriving DecidableEq, Repr

/-- The type `connFlag`, a bit set. -/
abbrev connFlag := Nat

/-- The flag `dynDialedConn`; the flag constants are declared in `server.go`, outside
the sources read here, as successive bits. -/
def dynDialedConn : connFlag := 1

/-- The flag `staticDialedConn`. -/
def staticDialedConn : connFlag := 2

/-- The flag `inboundConn`. -/
def inboundConn : connFlag := 4

/-- The flag `trustedConn`. -/
def trustedConn : connFlag := 8

/-- What the scheduler reads of a `conn`: its flags and its node. -/
structure conn where
  flags : connFlag
  node : Node
deriving DecidableEq, Repr

/-- The method `c.is(f)`: `flags&f != 0`. -/
def conn.is (c : conn) (f : connFlag) : Bool := decide (Nat.land c.flags f ≠ 0)

/-- The struct `dialTask`. -/
structure dialTask where
  staticPoolIndex : Int
  flags : connFlag
  dest : Node
deriving DecidableEq, Repr

/-- The function `newDialTask`, as a value. -/
def newDialTask (dest : Node) (flags : connFlag) : dialTask :=
  { dest := dest, flags := flags, staticPoolIndex := -1 }

/-- One entry of the dial history: the key of a node and its expiry time. -/
structure expItem where
  item : NodeID
  exp : Nat
deriving DecidableEq, Repr

/-- Modelled from the spec: the dial history `expHeap` (its declaration is outside the
sources read here), "a time-indexed expiring heap keyed by node ID; an entry lives
`DIAL_HISTORY_EXPIRATION` after addition".  The key `string(id.Bytes())` of a node is
its id. -/
abbrev expHeap := List expItem

/-- Modelled from the spec: `history.add(key, exp)`. -/
def expHeap.add (h : expHeap) (item : NodeID) (exp : Nat) : expHeap := h ++ [⟨item, exp⟩]

/-- Modelled from the spec: `history.contains(key)`. -/
def expHeap.contains (h : expHeap) (item : NodeID) : Bool := h.any (fun e => decide (e.item = item))

/-- Modelled from the spec: the entry that expires next, the first one of least
expiry time. -/
def expHeap.next : expHeap → Option expItem
  | [] => none
  | e :: rest =>
    match expHeap.next rest with
    | none => some e
    | some m => if m.exp < e.exp then some m else some e

/-- The struct `dialConfig`, without the logger, the clock, the random source, the
resolver and the dialer; `dialHistoryExpiration` is `inboundThrottleTime + 5s`, a
constant declared outside the sources read here. -/
structure dialConfig where
  self : NodeID
  maxDialPeers : Int
  maxActiveDials : Int
  netRestrict : Option (Option (List Byte) → Bool)
  dialHistoryExpiration : Nat

/-- The loop-owned fields of the struct `dialScheduler`. -/
structure dialScheduler where
  tasks : List dialTask
  dialing : GoMap NodeID Nat
  peers : GoMap NodeID connFlag
  dialPeers : Int
  static : GoMap NodeID Nat
  staticPool : List Nat
  history : expHeap
  doneSinceLastLog : Int
deriving DecidableEq, Repr

/-- The state `newDialScheduler` creates. -/
def newDialScheduler : dialScheduler :=
  { tasks := [], dialing := [], peers := [], dialPeers := 0, static := [], staticPool := [],
    history := [], doneSinceLastLog := 0 }

/-- The errors of `checkDial`. -/
inductive dialErr where
  | errSelf
  | errAlreadyDialing
  | errAlreadyConnected
  | errRecentlyDialed
  | errNotWhitelisted
  | errNoPort
deriving DecidableEq, Repr

/-- The method `freeDialSlots`. -/
def freeDialSlots (cfg : dialConfig) (d : dialScheduler) : Int :=
  let slots := (cfg.maxDialPeers - d.dialPeers) * 2
  let slots := if slots > cfg.maxActiveDials then cfg.maxActiveDials else slots
  let free := slots - d.dialing.len
  free

/-- The method `checkDial`; nil is `none`. -/
def checkDial (cfg : dialConfig) (d : dialScheduler) (n : Node) : Option dialErr :=
  if n.id = cfg.self then some dialErr.errSelf
  else if n.ip ≠ none ∧ n.tcp = 0 then some dialErr.errNoPort
  else if d.dialing.contains n.id then some dialErr.errAlreadyDialing
  else if d.peers.contains n.id then some dialErr.errAlreadyConnected
  else if (match cfg.netRestrict with
      | none => false
      | some netRestrict => !netRestrict n.ip) then some dialErr.errNotWhitelisted
  else if d.history.contains n.id then some dialErr.errRecentlyDialed
  else none

/-- The record of one `startDial`: the clock reading, the node and the task. -/
structure dialStart where
  time : Nat
  id : NodeID
  task : Nat
deriving DecidableEq, Repr

/-- The method `startDial`, at the clock reading `now`: the state after it and the
record of the task it runs. -/
def startDial (cfg : dialConfig) (d : dialScheduler) (now : Nat) (task : Nat) :
    Option (dialScheduler × dialStart) :=
  match d.tasks[task]? with
  | none => none
  | some t =>
    some ({ d with history := d.history.add t.dest.id (now + cfg.dialHistoryExpiration),
                   dialing := d.dialing.insert t.dest.id task },
      { time := now, id := t.dest.id, task := task })

/-- The assignment `task.staticPoolIndex = i`. -/
def setStaticPoolIndex (d : dialScheduler) (task : Nat) (i : Int) : Option dialScheduler :=
  match d.tasks[task]? with
  | none => none
  | some t => some { d with tasks := d.tasks.set task { t with staticPoolIndex := i } }

/-- The method `addToStaticPool`. -/
def addToStaticPool (d : dialScheduler) (task : Nat) : Option dialScheduler :=
  match d.tasks[task]? with
  | none => none
  | some t =>
    if t.staticPoolIndex ≥ 0 then none
    else
      let d1 : dialScheduler := { d with staticPool := d.staticPool ++ [task] }
      setStaticPoolIndex d1 task ((d1.staticPool.length : Int) - 1)

/-- The method `removeFromStaticPool`. -/
def removeFromStaticPool (d : dialScheduler) (idx : Int) : Option dialScheduler :=
  if idx < 0 then none
  else
    match d.staticPool[idx.toNat]? with
    | none => none
    | some task =>
      let endIdx := d.staticPool.length - 1
      match d.staticPool[endIdx]? with
      | none => none
      | some last =>
        let d1 : dialScheduler := { d with staticPool := d.staticPool.set idx.toNat last }
        match setStaticPoolIndex d1 last idx with
        | none => none
        | some d2 =>
          let d3 : dialScheduler := { d2 with staticPool := d2.staticPool.take endIdx }
          setStaticPoolIndex d3 task (-1)

/-- The method `updateStaticPool`. -/
def updateStaticPool (cfg : dialConfig) (d : dialScheduler) (id : NodeID) :
    Option dialScheduler :=
  match d.static.lookup id with
  | none => some d
  | some task =>
    match d.tasks[task]? with
    | none => none
    | some t =>
      if t.staticPoolIndex < 0 ∧ checkDial cfg d t.dest = none then addToStaticPool d task
      else some d

/-- The loop of `startStaticDials(n)`; `fuel` bounds the number of passes (every pass
takes one task out of the pool, so the length of the pool is enough), and a loop that
would go on without fuel has no result. -/
def startStaticDialsLoop (cfg : dialConfig) (now : Nat) (n : Int) :
    Nat → dialScheduler → Int → List Nat → List dialStart →
      Option (dialScheduler × Int × List dialStart)
  | 0, d, started, _, log =>
    if started < n ∧ d.staticPool.length > 0 then none else some (d, started, log)
  | fuel + 1, d, started, rnd, log =>
    if started < n ∧ d.staticPool.length > 0 then
      let idx := rnd.headD 0 % d.staticPool.length
      match d.staticPool[idx]? with
      | none => none
      | some task =>
        match startDial cfg d now task with
        | none => none
        | some (d1, s) =>
          match removeFromStaticPool d1 idx with
          | none => none
          | some d2 => startStaticDialsLoop cfg now n fuel d2 (started + 1) rnd.tail (log ++ [s])
    else some (d, started, log)

/-- The method `startStaticDials`: the state, the number of tasks started and their
records. -/
def startStaticDials (cfg : dialConfig) (d : dialScheduler) (now : Nat) (n : Int)
    (rnd : List Nat) : Option (dialScheduler × Int × List dialStart) :=
  startStaticDialsLoop cfg now n d.staticPool.length d 0 rnd []

/-- The loop of `history.expire(now, onExp)` inside `expireHistory`: while the entry
that expires next has expired, it is taken out and `updateStaticPool` is called for
it; `fuel` bounds the number of passes (the length of the history is enough), and a
loop that would go on without fuel has no result. -/
def expireHistoryLoop (cfg : dialConfig) (now : Nat) : Nat → dialScheduler → Option dialScheduler
  | 0, d =>
    match d.history.next with
    | none => some d
    | some m => if m.exp < now then none else some d
  | fuel + 1, d =>
    match d.history.next with
    | none => some d
    | some m =>
      if m.exp < now then
        match updateStaticPool cfg { d with history := d.history.erase m } m.item with
        | none => none
        | some d1 => expireHistoryLoop cfg now fuel d1
      else some d

/-- The method `expireHistory`, at the clock reading `now`. -/
def expireHistory (cfg : dialConfig) (d : dialScheduler) (now : Nat) : Option dialScheduler :=
  expireHistoryLoop cfg now d.history.length d

/-- What the `select` of the loop can receive. -/
inductive dialEvent where
  | node (n : Node)
  | done (task : Nat)
  | addPeer (c : conn)
  | remPeer (c : conn)
  | addStatic (n : Node)
  | remStatic (n : Node)
  | historyExp
deriving DecidableEq, Repr

/-- The body of one `case` of the `select`; `nodesChOpen` says whether the loop
listens on `nodesIn` in this pass (a candidate node is not received otherwise). -/
def handleDialEvent (cfg : dialConfig) (d : dialScheduler) (now : Nat) (nodesChOpen : Bool) :
    dialEvent → Option (dialScheduler × List dialStart)
  | dialEvent.node n =>
    if nodesChOpen = false then some (d, [])
    else
      match checkDial cfg d n with
      | some _ => some (d, [])
      | none =>
        let task := d.tasks.length
        let d1 : dialScheduler := { d with tasks := d.tasks ++ [newDialTask n dynDialedConn] }
        match startDial cfg d1 now task with
        | none => none
        | some (d2, s) => some (d2, [s])
  | dialEvent.done task =>
    match d.tasks[task]? with
    | none => none
    | some t =>
      let id := t.dest.id
      let d1 : dialScheduler := { d with dialing := d.dialing.erase id }
      match updateStaticPool cfg d1 id with
      | none => none
      | some d2 => some ({ d2 with doneSinceLastLog := d2.doneSinceLastLog + 1 }, [])
  | dialEvent.addPeer c =>
    let d1 : dialScheduler :=
      if c.is dynDialedConn ∨ c.is staticDialedConn then { d with dialPeers := d.dialPeers + 1 }
      else d
    let id := c.node.id
    let d2 : dialScheduler := { d1 with peers := d1.peers.insert id c.flags }
    match d2.static.lookup id with
    | none => some (d2, [])
    | some task =>
      match d2.tasks[task]? with
      | none => none
      | some t =>
        if t.staticPoolIndex ≥ 0 then
          match removeFromStaticPool d2 t.staticPoolIndex with
          | none => none
          | some d3 => some (d3, [])
        else some (d2, [])
  | dialEvent.remPeer c =>
    let d1 : dialScheduler :=
      if c.is dynDialedConn ∨ c.is staticDialedConn then { d with dialPeers := d.dialPeers - 1 }
      else d
    let d2 : dialScheduler := { d1 with peers := d1.peers.erase c.node.id }
    match updateStaticPool cfg d2 c.node.id with
    | none => none
    | some d3 => some (d3, [])
  | dialEvent.addStatic n =>
    let id := n.id
    if d.static.contains id then some (d, [])
    else
      let task := d.tasks.length
      let d1 : dialScheduler :=
        { d with tasks := d.tasks ++ [newDialTask n staticDialedConn],
                 static := d.static.insert id task }
      if checkDial cfg d1 n = none then
        match addToStaticPool d1 task with
        | none => none
        | some d2 => some (d2, [])
      else some (d1, [])
  | dialEvent.remStatic n =>
    let id := n.id
    match d.static.lookup id with
    | none => some (d, [])
    | some task =>
      match d.tasks[task]? with
      | none => none
      | some t =>
        let d1 : dialScheduler := { d with static := d.static.erase id }
        if t.staticPoolIndex ≥ 0 then
          match removeFromStaticPool d1 t.staticPoolIndex with
          | none => none
          | some d2 => some (d2, [])
        else some (d1, [])
  | dialEvent.historyExp =>
    match expireHistory cfg d now with
    | none => none
    | some d1 => some (d1, [])

/-- One pass of the loop: the clock reading, the random draws and the event received. -/
structure dialPass where
  now : Nat
  rnd : List Nat
  ev : dialEvent
deriving DecidableEq, Repr

/-- One pass of `loop`: static dials are launched into the free slots, the loop
listens on `nodesIn` when slots are left, and one event is handled.  The result is
the state after the pass and the tasks started in it. -/
def dialLoopPass (cfg : dialConfig) (d : dialScheduler) (p : dialPass) :
    Option (dialScheduler × List dialStart) :=
  let slots := freeDialSlots cfg d
  match startStaticDials cfg d p.now slots p.rnd with
  | none => none
  | some (d1, started, log1) =>
    let slots := slots - started
    let nodesChOpen : Bool := decide (slots > 0)
    match handleDialEvent cfg d1 p.now nodesChOpen p.ev with
    | none => none
    | some (d2, log2) => some (d2, log1 ++ log2)

/-- A run of the loop: the state after the passes and all tasks started, in order. -/
def dialRun (cfg : dialConfig) : dialScheduler → List dialPass →
    Option (dialScheduler × List dialStart)
  | d, [] => some (d, [])
  | d, p :: rest =>
    match dialLoopPass cfg d p with
    | none => none
    | some (d1, log1) =>
      match dialRun cfg d1 rest with
      | none => none
      | some (d2, log2) => some (d2, log1 ++ log2)

/-- A sample configuration: one dialed peer allowed, sixteen dials at a time, no
netrestrict list, a history expiry of 35 s. -/
def scenarioDialConfig : dialConfig :=
  { self := 0, maxDialPeers := 1, maxActiveDials := 16, netRestrict := none,
    dialHistoryExpiration := 35000000000 }

/-- A sample node with the given id, reachable on port 30303. -/
def scenarioNode (id : NodeID) : Node := { id := id, ip := some [10, 0, 0, 1], tcp := 30303 }

/-- What an event adds to `dialPeers`: one for a new peer with a dialed connection,
minus one for a removed peer with a dialed connection. -/
def dialPeersDelta : dialEvent → Int
  | dialEvent.addPeer c => if c.is dynDialedConn ∨ c.is staticDialedConn then 1 else 0
  | dialEvent.remPeer c => if c.is dynDialedConn ∨ c.is staticDialedConn then -1 else 0
  | _ => 0

/-- Two passes in which the candidate nodes 1 and 2 arrive. -/
def scenarioTwoCandidates : List dialPass :=
  [{ now := 1000, rnd := [], ev := dialEvent.node (scenarioNode 1) },
    { now := 2000, rnd := [], ev := dialEvent.node (scenarioNode 2) }]

/-- The scheduler after the candidate nodes 1 and 2 were dialed. -/
def scenarioDialed : dialScheduler :=
  { tasks := [newDialTask (scenarioNode 1) dynDialedConn, newDialTask (scenarioNode 2) dynDialedConn],
    dialing := [(1, 0), (2, 1)], peers := [], dialPeers := 0, static := [], staticPool := [],
    history := [{ item := 1, exp := 35000001000 }, { item := 2, exp := 35000002000 }],
    doneSinceLastLog := 0 }

/-! ## The miner's worker (`miner/worker.go`) and `ApplyTransaction` (`core/state_processor.go`)

The worker builds a block proposal in `proposePhase`.  The chain, the transaction pool,
the consensus engine, the virtual machine and the `types` package are collaborators
outside the sources read here: they are the fields of `MinerEnv`.  A `*state.StateDB`
is a value (`Copy` is the identity, `Snapshot` is the value itself); a
`*types.TransactionsByNonce` is the list of transactions its cursor yields, in order;
the send on `taskCh` is recorded in the list `tasks` of the result.  `uint64` gas
counters wrap at `2^64`.  The `*int32` interrupt word of a proposal, which the
new-work loop stores into concurrently, is the function giving the value an atomic load
would return at the `k`-th load. -/

/-- The type `common.Address`; `0` is the zero address `common.Address{}`. -/
abbrev Address := Nat

/-- A `types.Log`, reduced to its emitter, its data and the hash of its block. -/
structure Log where
  address : Address
  data : Bytes
  BlockHash : Hash
deriving DecidableEq

/-- What the worker and the state processor read of a `types.Transaction`: `Hash()`,
`Protected()`, `To()` (nil is `none`), `Nonce()` and `Type()`. -/
structure Transaction where
  hash : Hash
  isProtected : Bool
  To : Option Address
  nonce : Nat
  txType : Nat
deriving DecidableEq

/-- The `types.Message` that `tx.AsMessage` derives from a transaction. -/
structure Message where
  sender : Address
  To : Option Address
  nonce : Nat
  gasPrice : Nat
deriving DecidableEq

/-- The method `msg.OverrideGasPrice(price)`. -/
def Message.OverrideGasPrice (msg : Message) (price : Nat) : Message :=
  { msg with gasPrice := price }

/-- The fields of `core.ExecutionResult` read by `applyTransaction`. -/
structure ExecutionResult where
  UsedGas : Nat
  Failed : Bool
deriving DecidableEq

/-- The constant `types.ReceiptStatusFailed`. -/
def ReceiptStatusFailed : Nat := 0

/-- The constant `types.ReceiptStatusSuccessful`. -/
def ReceiptStatusSuccessful : Nat := 1

/-- A `types.Receipt`; the bloom filter, a function of the logs, is left out. -/
structure Receipt where
  txType : Nat
  PostState : Bytes
  CumulativeGasUsed : Nat
  Status : Nat
  TxHash : Hash
  GasUsed : Nat
  ContractAddress : Address
  Logs : List Log
  BlockHash : Hash
  BlockNumber : Nat
  TransactionIndex : Nat
deriving DecidableEq

/-- The fields of a `types.Header` used by the worker. -/
structure Header where
  ParentHash : Hash
  Root : Hash
  Number : Nat
  GasLimit : Nat
  GasUsed : Nat
  Time : Nat
  Coinbase : Address
  Extra : Bytes
deriving DecidableEq

/-- A `types.Block`: its header and its transactions. -/
structure Block where
  header : Header
  transactions : List Transaction
deriving DecidableEq

/-- A `state.StateDB`: the account data (`content`, read and written by the virtual
machine only) and the transaction context set by `Prepare`. -/
structure StateDB where
  content : Nat
  thash : Hash
  txIndex : Int
deriving DecidableEq

/-- The method `statedb.Prepare(thash, ti)`. -/
def StateDB.Prepare (s : StateDB) (thash : Hash) (ti : Int) : StateDB :=
  { s with thash := thash, txIndex := ti }

/-- The method `statedb.TxIndex()`. -/
def StateDB.TxIndex (s : StateDB) : Int := s.txIndex

/-- The method `statedb.RevertToSnapshot(snap)`: the journalled account data goes back
to the snapshot, the transaction context is not journalled. -/
def StateDB.RevertToSnapshot (s snap : StateDB) : StateDB :=
  { s with content := snap.content }

/-- The errors of package `core` told apart by the worker, and any other error. -/
inductive ApplyError where
  | ErrChainContextNil
  | ErrGasLimitReached
  | ErrNonceTooLow
  | ErrNonceTooHigh
  | ErrTxTypeNotSupported
  | other (msg : String)
deriving DecidableEq

/-- The virtual machine built by `vm.NewEVM` for a block context: the header and the
author it was made from, and the flag `OverrideGasFailure` of its configuration. -/
structure EVM where
  header : Header
  author : Option Address
  OverrideGasFailure : Bool
deriving DecidableEq

/-- The miner's `Config`; `Recommit` is a `time.Duration` in nanoseconds. -/
structure Config where
  Etherbase : Address
  GasFloor : Nat
  GasCeil : Nat
  Recommit : Int
deriving DecidableEq

/-- The collaborators of the worker and of the state processor.  `sender` is
`types.Sender(signer, tx)` and `asMessage` is `tx.AsMessage(signer)`;
`newTransactionsByNonce` gives the transactions a `TransactionsByNonce` cursor yields
and `getMap` its `GetMap()`; `isConversionContract` is
`tx.To().IsEqualTo(conversion.CONVERSION_CONTRACT_ADDRESS)`; `applyMessage` is
`core.ApplyMessage(evm, msg, gp)`, returning the state and the gas pool it leaves;
`handleTransactions` and `finalizeAndAssemble` return the state copy they leave. -/
structure MinerEnv where
  isEIP155 : Nat → Bool
  isEIP158 : Nat → Bool
  isByzantium : Nat → Bool
  isLondon : Nat → Bool
  TxGas : Nat
  ElasticityMultiplier : Nat
  CalcGasLimit1559 : Nat → Nat → Nat
  sender : Transaction → Option Address
  asMessage : Transaction → Except ApplyError Message
  headerHash : Header → Hash
  newTransactionsByNonce : Hash → GoMap Address (List Transaction) → List Transaction
  getMap : Hash → GoMap Address (List Transaction) → GoMap Address (List Transaction)
  isConversionContract : Transaction → Bool
  isGasExemptTxn : Transaction → Option Bool
  applyMessage : EVM → Message → StateDB → Nat →
    StateDB × Nat × Except ApplyError ExecutionResult
  finalise : StateDB → StateDB
  intermediateRoot : Bool → StateDB → StateDB × Bytes
  getLogs : StateDB → Hash → Hash → List Log
  createAddress : Address → Nat → Address
  currentBlock : Block
  stateAt : Hash → Except String StateDB
  doesTransactionExist : Hash → Bool
  pending : Except String (GoMap Address (List Transaction))
  prepare : Header → Except String Header
  handleTransactions : Header → StateDB → GoMap Address (List Transaction) →
    StateDB × Except String (Option (GoMap Address (List Transaction)))
  isBlockReadyToSeal : Header → StateDB → Bool
  finalizeAndAssemble : Header → StateDB → List Transaction → List Receipt →
    StateDB × Except String Block

/-- The result of `applyTransaction` and `ApplyTransaction`: the state, the gas pool
and the used-gas counter (all three passed by pointer) and the returned pair. -/
structure ApplyResult where
  statedb : StateDB
  gp : Nat
  usedGas : Nat
  ret : Except ApplyError Receipt

/-- The function `applyTransaction` of `core/state_processor.go`. -/
def applyTransaction (env : MinerEnv) (msg : Message) (gp : Nat) (statedb : StateDB)
    (blockNumber : Nat) (blockHash : Hash) (tx : Transaction) (usedGas : Nat) (evm : EVM) :
    ApplyResult :=
  match env.applyMessage evm msg statedb gp with
  | (statedb, gp, Except.error err) =>
    { statedb := statedb, gp := gp, usedGas := usedGas, ret := Except.error err }
  | (statedb, gp, Except.ok result) =>
    let (statedb, root) :=
      if env.isByzantium blockNumber then (env.finalise statedb, ([] : Bytes))
      else env.intermediateRoot (env.isEIP158 blockNumber) statedb
    let usedGas := (usedGas + result.UsedGas) % 2 ^ 64
    let receipt : Receipt :=
      { txType := tx.txType
        PostState := root
        CumulativeGasUsed := usedGas
        Status := if result.Failed then ReceiptStatusFailed else ReceiptStatusSuccessful
        TxHash := tx.hash
        GasUsed := result.UsedGas
        ContractAddress :=
          if msg.To = none then env.createAddress msg.sender tx.nonce else 0
        Logs := env.getLogs statedb tx.hash blockHash
        BlockHash := blockHash
        BlockNumber := blockNumber
        TransactionIndex := statedb.TxIndex.toNat }
    { statedb := statedb, gp := gp, usedGas := usedGas, ret := Except.ok receipt }

/-- The function `ApplyTransaction` of `core/state_processor.go`; `bcIsNil` is the test
`bc == nil`.  The parameter `author` is not read: the block context is made by
`NewEVMBlockContext(header, bc, nil)` and `applyTransaction` is called with a nil
author. -/
def ApplyTransaction (env : MinerEnv) (bcIsNil : Bool) (_author : Option Address) (gp : Nat)
    (statedb : StateDB) (header : Header) (tx : Transaction) (usedGas : Nat)
    (isGasExemptTxn : Bool) : ApplyResult :=
  if bcIsNil then
    { statedb := statedb, gp := gp, usedGas := usedGas,
      ret := Except.error ApplyError.ErrChainContextNil }
  else
    match env.asMessage tx with
    | Except.error err =>
      { statedb := statedb, gp := gp, usedGas := usedGas, ret := Except.error err }
    | Except.ok msg =>
      let msg := if isGasExemptTxn then msg.OverrideGasPrice 0 else msg
      let vmenv : EVM :=
        { header := header, author := none, OverrideGasFailure := isGasExemptTxn }
      applyTransaction env msg gp statedb header.Number (env.headerHash header) tx usedGas
        vmenv

/-- The struct `environment` of the worker: the block under construction.  The gas pool
is a pointer, nil (`none`) until `commitTransactions` allocates it. -/
structure environment where
  state : StateDB
  tcount : Int
  gasPool : Option Nat
  header : Header
  txs : List Transaction
  receipts : List Receipt
deriving DecidableEq

/-- The struct `task` handed to the task loop. -/
structure task where
  receipts : List Receipt
  state : StateDB
  block : Block
deriving DecidableEq

/-- The constant `commitInterruptNone`. -/
def commitInterruptNone : Int := 0

/-- The constant `commitInterruptNewHead`. -/
def commitInterruptNewHead : Int := 1

/-- The constant `commitInterruptResubmit`. -/
def commitInterruptResubmit : Int := 2

/-- The constant `commitInterruptBlockPhase`. -/
def commitInterruptBlockPhase : Int := 3

/-- The fields of `worker` that `proposePhase` reads and writes; `running` is
`isRunning()`. -/
structure worker where
  config : Config
  coinbase : Address
  extra : Bytes
  running : Bool
  current : Option environment
  selectedTransactions : List Transaction
  snapshotBlock : Option Block
  snapshotReceipts : List Receipt
  snapshotState : Option StateDB
deriving DecidableEq

/-- The method `worker.commitTransaction`, on the environment `cur` with its gas pool
`gp`: the environment and the gas pool it leaves, and the returned logs or error. -/
def commitTransaction (env : MinerEnv) (cur : environment) (gp : Nat) (tx : Transaction)
    (coinbase : Address) : environment × Nat × Except ApplyError (List Log) :=
  let snap := cur.state
  let isGasExemptTxn : Bool :=
    env.isConversionContract tx && (env.isGasExemptTxn tx == some true)
  let r := ApplyTransaction env false (some coinbase) gp cur.state cur.header tx
    cur.header.GasUsed isGasExemptTxn
  let header : Header := { cur.header with GasUsed := r.usedGas }
  match r.ret with
  | Except.error err =>
    ({ cur with state := r.statedb.RevertToSnapshot snap, header := header, gasPool := some r.gp },
      r.gp, Except.error err)
  | Except.ok receipt =>
    ({ cur with state := r.statedb, header := header, gasPool := some r.gp,
                txs := cur.txs ++ [tx], receipts := cur.receipts ++ [receipt] },
      r.gp, Except.ok receipt.Logs)

/-- The result of the loop of `commitTransactions`: the environment, the gas pool, the
coalesced logs, and whether the function returned from inside the loop. -/
structure CommitLoopResult where
  cur : environment
  gp : Nat
  coalescedLogs : List Log
  returned : Bool
deriving DecidableEq

/-- The `for` loop of `commitTransactions` over the transactions the cursor still
yields (`hasRecords` is false on the empty list).  No branch of the loop loads the
interrupt word. -/
def commitTransactionsLoop (env : MinerEnv) (coinbase : Address) :
    List Transaction → environment → Nat → List Log → CommitLoopResult
  | [], cur, gp, coalescedLogs =>
    { cur := cur, gp := gp, coalescedLogs := coalescedLogs, returned := false }
  | tx :: rest, cur, gp, coalescedLogs =>
    if gp < env.TxGas then
      { cur := cur, gp := gp, coalescedLogs := coalescedLogs, returned := false }
    else
      match env.sender tx with
      | none => { cur := cur, gp := gp, coalescedLogs := coalescedLogs, returned := true }
      | some _ =>
        if tx.isProtected && !env.isEIP155 cur.header.Number then
          commitTransactionsLoop env coinbase rest cur gp coalescedLogs
        else
          let cur1 : environment := { cur with state := cur.state.Prepare tx.hash cur.tcount }
          match commitTransaction env cur1 gp tx coinbase with
          | (cur2, gp2, Except.error ApplyError.ErrGasLimitReached) =>
            commitTransactionsLoop env coinbase rest cur2 gp2 coalescedLogs
          | (cur2, gp2, Except.error ApplyError.ErrNonceTooLow) =>
            commitTransactionsLoop env coinbase rest cur2 gp2 coalescedLogs
          | (cur2, gp2, Except.error ApplyError.ErrNonceTooHigh) =>
            commitTransactionsLoop env coinbase rest cur2 gp2 coalescedLogs
          | (cur2, gp2, Except.ok logs) =>
            commitTransactionsLoop env coinbase rest { cur2 with tcount := cur2.tcount + 1 } gp2
              (coalescedLogs ++ logs)
          | (cur2, gp2, Except.error ApplyError.ErrTxTypeNotSupported) =>
            commitTransactionsLoop env coinbase rest cur2 gp2 coalescedLogs
          | (cur2, gp2, Except.error _) =>
            commitTransactionsLoop env coinbase rest cur2 gp2 coalescedLogs

/-- The result of `commitTransactions`: the worker, the returned boolean and the logs
sent on `pendingLogsFeed` (`none` when nothing is sent). -/
structure CommitTransactionsResult where
  w : worker
  ret : Bool
  pendingLogs : Option (List Log)
deriving DecidableEq

/-- The method `worker.commitTransactions(txs, coinbase, interrupt)`.  The parameter
`interrupt` does not occur in the body of the Go function. -/
def commitTransactions (env : MinerEnv) (w : worker) (txs : List Transaction)
    (coinbase : Address) (_interrupt : Nat → Int) : CommitTransactionsResult :=
  match w.current with
  | none => { w := w, ret := true, pendingLogs := none }
  | some current =>
    let current : environment :=
      { current with header := { current.header with GasLimit := 300000000 } }
    let gasLimit := current.header.GasLimit
    let gp : Nat := match current.gasPool with
      | none => gasLimit
      | some gp => gp
    let current : environment := { current with gasPool := some gp }
    let r := commitTransactionsLoop env coinbase txs current gp []
    let w : worker := { w with current := some r.cur }
    if r.returned then { w := w, ret := false, pendingLogs := none }
    else if !w.running && decide (r.coalescedLogs.length > 0) then
      { w := w, ret := false, pendingLogs := some r.coalescedLogs }
    else { w := w, ret := false, pendingLogs := none }

/-- The method `worker.makeCurrent(parent, header)`. -/
def makeCurrent (env : MinerEnv) (w : worker) (parent : Block) (header : Header) :
    Except String worker :=
  match env.stateAt parent.header.Root with
  | Except.error err => Except.error err
  | Except.ok state =>
    let env1 : environment :=
      { state := state, tcount := 0, gasPool := none, header := header, txs := [],
        receipts := [] }
    Except.ok { w with current := some env1 }

/-- The method `worker.updateSnapshot()`. -/
def updateSnapshot (w : worker) : Option worker :=
  match w.current with
  | none => none
  | some current =>
    let block : Block := { header := current.header, transactions := current.txs }
    some { w with snapshotBlock := some block
                  snapshotReceipts := current.receipts
                  snapshotState := some current.state }

/-- The result of `commit` and of `proposePhase`: the worker, the tasks sent on
`taskCh`, the block numbers passed to `unconfirmed.Shift`, the logs sent on
`pendingLogsFeed` and the returned error (`none` is nil). -/
structure ProposeResult where
  w : worker
  tasks : List task
  shifts : List Nat
  pendingLogs : List (List Log)
  err : Option String
deriving DecidableEq

/-- The method `worker.commit(interval, update, start)`; `exited` tells whether the
`select` takes the branch of the closed `exitCh` instead of the send on `taskCh`.  A nil
`w.current` is the nil dereference of Go (`none`). -/
def commit (env : MinerEnv) (w : worker) (update : Bool) (exited : Bool) :
    Option ProposeResult :=
  match w.current with
  | none => none
  | some current =>
    let receipts := current.receipts
    match env.finalizeAndAssemble current.header current.state current.txs receipts with
    | (_, Except.error err) =>
      some { w := w, tasks := [], shifts := [], pendingLogs := [], err := some err }
    | (s, Except.ok block) =>
      let sent : Bool := w.running && !exited
      let tasks : List task :=
        if sent then [{ receipts := receipts, state := s, block := block }] else []
      let shifts : List Nat :=
        if sent then [(block.header.Number + 2 ^ 64 - 1) % 2 ^ 64] else []
      if update then
        match updateSnapshot w with
        | none => none
        | some w1 => some { w := w1, tasks := tasks, shifts := shifts, pendingLogs := [], err := none }
      else some { w := w, tasks := tasks, shifts := shifts, pendingLogs := [], err := none }

/-- The method `worker.proposePhase(interrupt, timestamp)`.  The interrupt word is
only passed on to `commitTransactions`, whose result is only logged; the timestamp is
only adjusted, the header field it was meant for is commented out. -/
def proposePhase (env : MinerEnv) (w : worker) (interrupt : Nat → Int) (exited : Bool) :
    Option ProposeResult :=
  let parent := env.currentBlock
  let header : Header :=
    { ParentHash := env.headerHash parent.header
      Root := ZERO_HASH
      Number := parent.header.Number + 1
      GasLimit := w.config.GasFloor
      GasUsed := 0
      Time := 0
      Coinbase := 0
      Extra := w.extra }
  let header : Header :=
    if env.isLondon header.Number then
      let parentGasLimit :=
        if !env.isLondon parent.header.Number then
          (parent.header.GasLimit * env.ElasticityMultiplier) % 2 ^ 64
        else parent.header.GasLimit
      { header with GasLimit := env.CalcGasLimit1559 parentGasLimit w.config.GasCeil }
    else header
  if w.running && decide (w.coinbase = 0) then
    some { w := w, tasks := [], shifts := [], pendingLogs := [], err := none }
  else
    let header : Header := if w.running then { header with Coinbase := w.coinbase } else header
    match env.prepare header with
    | Except.error err =>
      some { w := w, tasks := [], shifts := [], pendingLogs := [], err := some err }
    | Except.ok header =>
      match makeCurrent env w parent header with
      | Except.error err =>
        some { w := w, tasks := [], shifts := [], pendingLogs := [], err := some err }
      | Except.ok w =>
        match w.current with
        | none => none
        | some current =>
          match env.pending with
          | Except.error err =>
            some { w := w, tasks := [], shifts := [], pendingLogs := [], err := some err }
          | Except.ok pendingTxns =>
            let pendingTxns : GoMap Address (List Transaction) :=
              pendingTxns.map (fun e =>
                (e.1, e.2.filter (fun txn => env.doesTransactionExist txn.hash == false)))
            let txnFilteredMap := env.getMap current.header.ParentHash pendingTxns
            match env.handleTransactions current.header current.state txnFilteredMap with
            | (_, Except.error err) =>
              some { w := w, tasks := [], shifts := [], pendingLogs := [], err := some err }
            | (s, Except.ok selectedTxns) =>
              if env.isBlockReadyToSeal current.header s == false then
                some { w := w, tasks := [], shifts := [], pendingLogs := [],
                       err := some "block not ready to be sealed" }
              else
                let selectedTxns : GoMap Address (List Transaction) :=
                  match selectedTxns with
                  | none => []
                  | some m => m
                let txsByNonce :=
                  env.newTransactionsByNonce current.header.ParentHash selectedTxns
                let w : worker := { w with selectedTransactions := txsByNonce }
                let r := commitTransactions env w w.selectedTransactions w.coinbase interrupt
                match commit env r.w true exited with
                | none => none
                | some c =>
                  some { c with pendingLogs := r.pendingLogs.toList ++ c.pendingLogs }

/-- A sample transaction with the given hash. -/
def scenarioTx (h : Byte) : Transaction :=
  { hash := [h], isProtected := false, To := some 5, nonce := h.val, txType := 0 }

/-- Sample collaborators: every transaction has the sender 7 and uses 21000 gas, the
pool offers the transactions 1 and 2, the engine selects all of them and is ready to
seal, the assembled block holds the header and the transactions it was given. -/
def scenarioMinerEnv : MinerEnv where
  isEIP155 := fun _ => true
  isEIP158 := fun _ => true
  isByzantium := fun _ => true
  isLondon := fun _ => false
  TxGas := 21000
  ElasticityMultiplier := 2
  CalcGasLimit1559 := fun parentGasLimit _ => parentGasLimit
  sender := fun _ => some 7
  asMessage := fun tx => Except.ok { sender := 7, To := tx.To, nonce := tx.nonce, gasPrice := 1 }
  headerHash := fun h => [Fin.ofNat h.Number]
  newTransactionsByNonce := fun _ m => (m.map Prod.snd).flatten
  getMap := fun _ m => m
  isConversionContract := fun _ => false
  isGasExemptTxn := fun _ => some false
  applyMessage := fun _ _ s gp =>
    if gp < 21000 then (s, gp, Except.error ApplyError.ErrGasLimitReached)
    else ({ s with content := s.content + 1 }, gp - 21000,
      Except.ok { UsedGas := 21000, Failed := false })
  finalise := fun s => s
  intermediateRoot := fun _ s => (s, [])
  getLogs := fun _ _ _ => []
  createAddress := fun a n => a + n
  currentBlock :=
    { header := { ParentHash := ZERO_HASH, Root := ZERO_HASH, Number := 0, GasLimit := 5000,
                  GasUsed := 0, Time := 0, Coinbase := 0, Extra := [] },
      transactions := [] }
  stateAt := fun _ => Except.ok { content := 0, thash := [], txIndex := 0 }
  doesTransactionExist := fun _ => false
  pending := Except.ok [(7, [scenarioTx 1, scenarioTx 2])]
  prepare := fun h => Except.ok h
  handleTransactions := fun _ s m => (s, Except.ok (some m))
  isBlockReadyToSeal := fun _ _ => true
  finalizeAndAssemble := fun h s txs _ => (s, Except.ok { header := h, transactions := txs })

/-- A running worker with the coinbase 9 that has not proposed yet. -/
def scenarioWorker : worker :=
  { config := { Etherbase := 9, GasFloor := 8000000, GasCeil := 8000000, Recommit := 3000000000 }
    coinbase := 9
    extra := []
    running := true
    current := none
    selectedTransactions := []
    snapshotBlock := none
    snapshotReceipts := []
    snapshotState := none }

/-- The header of the block the sample worker proposes on top of the sample chain. -/
def scenarioHeader : Header :=
  { ParentHash := [0], Root := ZERO_HASH, Number := 1, GasLimit := 8000000, GasUsed := 0,
    Time := 0, Coinbase := 9, Extra := [] }

/-- The sample worker inside a proposal, as `makeCurrent` leaves it. -/
def scenarioProposing : worker :=
  { scenarioWorker with
    current := some { state := { content := 0, thash := [], txIndex := 0 }, tcount := 0,
                      gasPool := none, header := scenarioHeader, txs := [], receipts := [] } }

/-! ## Invariants of the dial scheduler -/

/-- The node ids of the tasks allocated so far, by task reference. -/
def taskIds (d : dialScheduler) : List NodeID := d.tasks.map (fun t => t.dest.id)

/-- The index invariant of the static pool: the task stored at `staticPool[i]` has
`staticPoolIndex = i`. -/
def PoolIndexed (d : dialScheduler) : Prop :=
  ∀ (i r : Nat), d.staticPool[i]? = some r →
    ∃ t, d.tasks[r]? = some t ∧ t.staticPoolIndex = (i : Int)

/-- The invariant of the scheduler state kept by the loop: the pool is indexed, the
task registered in `static` under an id dials that id, and every task in the pool is
the registered static task of its node, whose id is not in the dial history. -/
def DialInv (d : dialScheduler) : Prop :=
  PoolIndexed d ∧
  (∀ id r, d.static.lookup id = some r → (taskIds d)[r]? = some id) ∧
  (∀ r, r ∈ d.staticPool →
    ∃ id, (taskIds d)[r]? = some id ∧ d.static.lookup id = some r ∧
      d.history.contains id = false)

/-- The invariant tying the dials started so far to the history, at a clock reading
`T` not after the current one: every started dial still has its history entry, or
its expiry time has passed; and two dials of one node are at least the expiry time
apart. -/
def HistInv (cfg : dialConfig) (d : dialScheduler) (log : List dialStart) (T : Nat) : Prop :=
  (∀ s, s ∈ log →
    (∃ e, e ∈ d.history ∧ e.item = s.id ∧ s.time + cfg.dialHistoryExpiration ≤ e.exp) ∨
      s.time + cfg.dialHistoryExpiration ≤ T) ∧
  log.Pairwise (fun a b => a.id = b.id → a.time + cfg.dialHistoryExpiration ≤ b.time)

/-- Three passes: the candidate nodes 1 and 2 arrive, then node 1 arrives again. -/
def scenarioRedelivery : List dialPass :=
  scenarioTwoCandidates ++ [{ now := 3000, rnd := [], ev := dialEvent.node (scenarioNode 1) }]

/-! ## The start of the worker (`newWorker`, `miner/worker.go`) -/

/-- The constant `minRecommitInterval`, `500 * time.Millisecond`, in nanoseconds. -/
def minRecommitInterval : Int := 500 * 1000000

/-- The constant `maxRecommitInterval`, `15 * time.Second`, in nanoseconds. -/
def maxRecommitInterval : Int := 15 * 1000000000

/-- What `newWorker` produces: the worker, the interval it hands to
`go worker.newWorkLoop(blockTimerPhaseInterval)` (which the loop passes to
`timer.Reset` after every proposal), and whether it sends the start signal. -/
structure NewWorkerResult where
  w : worker
  blockTimerPhaseInterval : Int
  startSignal : Bool
deriving DecidableEq

/-- The function `newWorker(config, ..., init)`; the subscriptions and the channels are
left out. -/
def newWorker (config : Config) (init : Bool) : NewWorkerResult :=
  let w : worker :=
    { config := config
      coinbase := config.Etherbase
      extra := []
      running := false
      current := none
      selectedTransactions := []
      snapshotBlock := none
      snapshotReceipts := []
      snapshotState := none }
  let blockTimerPhaseInterval := w.config.Recommit
  let blockTimerPhaseInterval :=
    if blockTimerPhaseInterval < minRecommitInterval then minRecommitInterval
    else blockTimerPhaseInterval
  { w := w, blockTimerPhaseInterval := blockTimerPhaseInterval, startSignal := init }

/-- A sample configuration with the given recommit interval. -/
def scenarioConfig (recommit : Int) : Config :=
  { Etherbase := 9, GasFloor := 8000000, GasCeil := 8000000, Recommit := recommit }

/-! ## The consensus context keys (`consensus/proofofstake/context.go`) -/

/-- The block-number constants of the context accessor; they are declared outside the
sources read here. -/
structure ContextConstants where
  CONTEXT_BASED_START_BLOCK : Nat
  CONSENSUS_CONTEXT_START_BLOCK : Nat
  CONSENSUS_CONTEXT_MAX_BLOCK_COUNT : Nat
  CONTEXT_BASED_BLOCK_THRESHOLD : Nat
deriving DecidableEq

/-- The `uint64` sum `a + b`. -/
def uint64Add (a b : Nat) : Nat := (a + b) % 2 ^ 64

/-- The `uint64` difference `a - b` of two `uint64` values. -/
def uint64Sub (a b : Nat) : Nat := (a + 2 ^ 64 - b) % 2 ^ 64

/-- The function `strconv.FormatUint(n, 10)`: the decimal digits of `n`. -/
def FormatUint10 (n : Nat) : String := String.mk (Nat.toDigits 10 n)

/-- The function `GetConsensusContextKey`. -/
def GetConsensusContextKey (c : ContextConstants) (blockNumber : Nat) : Except String String :=
  if blockNumber ≤ c.CONSENSUS_CONTEXT_START_BLOCK then
    Except.error "GetBlockConsensusContextFn blockNumber below CONSENSUS_CONTEXT_START_BLOCK"
  else
    Except.ok ("bc-" ++ FormatUint10 blockNumber)

/-- The function `GetBlockConsensusContextKeyForBlock`. -/
def GetBlockConsensusContextKeyForBlock (c : ContextConstants) (currrentBlockNumber : Nat) :
    Except String String :=
  if currrentBlockNumber < c.CONTEXT_BASED_START_BLOCK then
    Except.error "GetBlockConsensusContextFn blockNumber below CONTEXT_BASED_START_BLOCK"
  else if currrentBlockNumber >
      uint64Add c.CONSENSUS_CONTEXT_START_BLOCK c.CONSENSUS_CONTEXT_MAX_BLOCK_COUNT then
    GetConsensusContextKey c (uint64Sub currrentBlockNumber c.CONSENSUS_CONTEXT_MAX_BLOCK_COUNT)
  else
    GetConsensusContextKey c (uint64Sub currrentBlockNumber c.CONTEXT_BASED_BLOCK_THRESHOLD)

/-- Sample constants: context-based blocks start at 100, keys exist above block 64, at
most 1000 blocks of history, threshold 32. -/
def scenarioContextConstants : ContextConstants :=
  { CONTEXT_BASED_START_BLOCK := 100, CONSENSUS_CONTEXT_START_BLOCK := 64,
    CONSENSUS_CONTEXT_MAX_BLOCK_COUNT := 1000, CONTEXT_BASED_BLOCK_THRESHOLD := 32 }

/-! ## The default-fee transaction (`wasm/core/types/default_fee_tx.go`) -/

/-- The type `GasTier`, a `uint64`. -/
abbrev GasTier := Nat

/-- The constant `GAS_TIER_DEFAULT`. -/
def GAS_TIER_DEFAULT : GasTier := 1

/-- The constant `GAS_TIER_2X`. -/
def GAS_TIER_2X : GasTier := 2

/-- The constant `GAS_TIER_5X`. -/
def GAS_TIER_5X : GasTier := 5

/-- The constant `GAS_TIER_10X`. -/
def GAS_TIER_10X : GasTier := 10

/-- Modelled from the spec: `common.SafeMulBigInt` (package `common` is outside the
sources read here), the product of two big integers: "gas price is derived from
`MaxGasTier` multiplied by the base default price". -/
def SafeMulBigInt (a b : Int) : Int := a * b

/-- The variable `GAS_TIER_DEFAULT_PRICE`, in wei. -/
def GAS_TIER_DEFAULT_PRICE : Int := 47619047619047600

/-- The variable `GAS_TIER_2x_PRICE`. -/
def GAS_TIER_2x_PRICE : Int := SafeMulBigInt GAS_TIER_DEFAULT_PRICE 2

/-- The variable `GAS_TIER_5x_PRICE`. -/
def GAS_TIER_5x_PRICE : Int := SafeMulBigInt GAS_TIER_DEFAULT_PRICE 5

/-- The variable `GAS_TIER_10x_PRICE`. -/
def GAS_TIER_10x_PRICE : Int := SafeMulBigInt GAS_TIER_DEFAULT_PRICE 10

/-- The struct `DefaultFeeTx`; a nil `*big.Int` or `*common.Address` is `none`, the
access list is left out. -/
structure DefaultFeeTx where
  ChainID : Option Int
  Nonce : Nat
  Gas : Nat
  MaxGasTier : GasTier
  To : Option Address
  Value : Option Int
  Data : Bytes
  Remarks : Bytes
  V : Option Int
  R : Option Int
  S : Option Int
deriving DecidableEq

/-- The method `gasPrice` of `DefaultFeeTx`. -/
def DefaultFeeTx.gasPrice (tx : DefaultFeeTx) : Int :=
  if tx.MaxGasTier = GAS_TIER_DEFAULT then GAS_TIER_DEFAULT_PRICE
  else if tx.MaxGasTier = GAS_TIER_2X then GAS_TIER_2x_PRICE
  else if tx.MaxGasTier = GAS_TIER_5X then GAS_TIER_5x_PRICE
  else if tx.MaxGasTier = GAS_TIER_10X then GAS_TIER_10x_PRICE
  else GAS_TIER_DEFAULT_PRICE

/-- A sample default-fee transaction with the given tier. -/
def scenarioFeeTx (tier : GasTier) : DefaultFeeTx :=
  { ChainID := some 123123, Nonce := 0, Gas := 21000, MaxGasTier := tier, To := some 5,
    Value := some 1, Data := [], Remarks := [], V := none, R := none, S := none }

/-! ## The task loop and the result loop (`miner/worker.go`)

One pass of `taskLoop` and of `resultLoop` is a step on the loop's variables and on the
map `pendingTasks`; what the pass hands to the engine, the chain, the event mux and the
unconfirmed-block set is the list of calls the step returns, in the order of the calls.
A stop channel is a number, `make(chan struct{})` takes the next unused one. -/

/-- The collaborators of the two loops: `engine.SealHash`, `block.Hash()`, the test hook
`skipSealHook` (nil is `none`), whether `backupmanager.GetInstance()` is non-nil,
`chain.HasBlock` and `chain.WriteBlockWithState` (its status and its error, nil is
`none`) as they answer during the pass. -/
structure SealEnv where
  SealHash : Header → Hash
  blockHash : Block → Hash
  skipSealHook : Option (task → Bool)
  backupManager : Bool
  HasBlock : Hash → Nat → Bool
  WriteBlockWithState : Block → List Receipt → List Log → StateDB → Nat × Option String

/-- The variables of `taskLoop` (`stopCh`, `prev`), the map `w.pendingTasks` and the
number of the next channel to make. -/
structure taskLoopState where
  stopCh : Option Nat
  prev : Hash
  pendingTasks : GoMap Hash task
  nextCh : Nat
deriving DecidableEq

/-- The variables of `taskLoop` when the loop starts: `stopCh` is nil and `prev` is the
zero hash. -/
def taskLoopStart (pendingTasks : GoMap Hash task) : taskLoopState :=
  { stopCh := none, prev := ZERO_HASH, pendingTasks := pendingTasks, nextCh := 0 }

/-- What a pass of `taskLoop` does to the outside: it closes a stop channel, calls
`engine.Seal(chain, block, resultCh, stopCh)`, or calls `BackupBlock(block)`. -/
inductive TaskLoopCall where
  | close (stopCh : Nat)
  | Seal (block : Block) (stopCh : Nat)
  | BackupBlock (block : Block)
deriving DecidableEq

/-- The closure `interrupt` of `taskLoop`. -/
def taskLoopInterrupt (s : taskLoopState) : taskLoopState × List TaskLoopCall :=
  match s.stopCh with
  | some ch => ({ s with stopCh := none }, [TaskLoopCall.close ch])
  | none => (s, [])

/-- The branch `case task := <-w.taskCh` of `taskLoop`. -/
def taskLoopStep (env : SealEnv) (s : taskLoopState) (t : task) :
    taskLoopState × List TaskLoopCall :=
  let sealHash := env.SealHash t.block.header
  if sealHash = s.prev then (s, [])
  else
    let (s1, closed) := taskLoopInterrupt s
    let s2 : taskLoopState :=
      { s1 with stopCh := some s1.nextCh, prev := sealHash, nextCh := s1.nextCh + 1 }
    if (match env.skipSealHook with
        | none => false
        | some hook => hook t) then (s2, closed)
    else
      let s3 : taskLoopState := { s2 with pendingTasks := s2.pendingTasks.insert sealHash t }
      (s3, closed ++ [TaskLoopCall.Seal t.block s1.nextCh] ++
        (if env.backupManager then [TaskLoopCall.BackupBlock t.block] else []))

/-- A run of `taskLoop` over the tasks received, in order. -/
def taskLoopRun (env : SealEnv) : taskLoopState → List task → taskLoopState × List TaskLoopCall
  | s, [] => (s, [])
  | s, t :: rest =>
    let r1 := taskLoopStep env s t
    let r2 := taskLoopRun env r1.1 rest
    (r2.1, r1.2 ++ r2.2)

/-- The seal-hashes of the blocks handed to `engine.Seal`, in order. -/
def sealedHashes (env : SealEnv) (calls : List TaskLoopCall) : List Hash :=
  calls.filterMap (fun c =>
    match c with
    | TaskLoopCall.Seal block _ => some (env.SealHash block.header)
    | _ => none)

/-- What a pass of `resultLoop` does to the outside: the call of
`chain.WriteBlockWithState` with what it returned, the post of `NewMinedBlockEvent`,
and `unconfirmed.Insert`. -/
inductive ResultLoopCall where
  | WriteBlockWithState (block : Block) (receipts : List Receipt) (logs : List Log)
      (state : StateDB) (status : Nat) (err : Option String)
  | Post (block : Block)
  | Insert (number : Nat) (hash : Hash)
deriving DecidableEq

/-- The loop over `task.receipts` in `resultLoop`, from index `i` on: every receipt gets
the block hash, the block number and its index, and every log the block hash. -/
def stampReceipts (hash : Hash) (number : Nat) : Nat → List Receipt → List Receipt
  | _, [] => []
  | i, receipt :: rest =>
    { receipt with BlockHash := hash, BlockNumber := number, TransactionIndex := i,
                   Logs := receipt.Logs.map (fun l => { l with BlockHash := hash }) } ::
      stampReceipts hash number (i + 1) rest

/-- The branch `case block := <-w.resultCh` of `resultLoop`; a nil block is `none`.
The receipts of the pending task are stamped in place. -/
def resultLoopStep (env : SealEnv) (pendingTasks : GoMap Hash task) (block : Option Block) :
    GoMap Hash task × List ResultLoopCall :=
  match block with
  | none => (pendingTasks, [])
  | some block =>
    if env.HasBlock (env.blockHash block) block.header.Number then (pendingTasks, [])
    else
      let sealhash := env.SealHash block.header
      let hash := env.blockHash block
      match pendingTasks.lookup sealhash with
      | none => (pendingTasks, [])
      | some t =>
        let receipts := stampReceipts hash block.header.Number 0 t.receipts
        let logs := (receipts.map (fun r => r.Logs)).flatten
        let pendingTasks := pendingTasks.insert sealhash { t with receipts := receipts }
        match env.WriteBlockWithState block receipts logs t.state with
        | (status, some err) =>
          (pendingTasks,
            [ResultLoopCall.WriteBlockWithState block receipts logs t.state status (some err)])
        | (status, none) =>
          (pendingTasks,
            [ResultLoopCall.WriteBlockWithState block receipts logs t.state status none,
              ResultLoopCall.Post block,
              ResultLoopCall.Insert block.header.Number (env.blockHash block)])

/-- A sample block with the given number and no transactions. -/
def scenarioBlock (number : Nat) : Block :=
  { header := { ParentHash := ZERO_HASH, Root := ZERO_HASH, Number := number, GasLimit := 300000000,
                GasUsed := 0, Time := 0, Coinbase := 9, Extra := [] },
    transactions := [] }

/-- A sample task for the sample block with the given number. -/
def scenarioTask (number : Nat) : task :=
  { receipts := [], state := { content := 0, thash := [], txIndex := 0 },
    block := scenarioBlock number }

/-- Sample collaborators of the loops: the seal-hash and the hash of a block are made
of its number, no test hook, no backup manager, a block is in the chain when its number
is 0, and a write succeeds unless the block number is 13. -/
def scenarioSealEnv : SealEnv where
  SealHash := fun h => [Fin.ofNat h.Number]
  blockHash := fun b => [Fin.ofNat b.header.Number, 1]
  skipSealHook := none
  backupManager := false
  HasBlock := fun _ number => decide (number = 0)
  WriteBlockWithState := fun b _ _ _ =>
    if b.header.Number = 13 then (0, some "write failed") else (1, none)

/-! ## The header of a proposal -/

/-- The header `proposePhase` builds and hands to `engine.Prepare` (worker.go, from
`header := &types.Header{...}` to `header.Coinbase = w.coinbase`). -/
def proposeHeader (env : MinerEnv) (w : worker) : Header :=
  let parent := env.currentBlock
  let header : Header :=
    { ParentHash := env.headerHash parent.header
      Root := ZERO_HASH
      Number := parent.header.Number + 1
      GasLimit := w.config.GasFloor
      GasUsed := 0
      Time := 0
      Coinbase := 0
      Extra := w.extra }
  let header : Header :=
    if env.isLondon header.Number then
      let parentGasLimit :=
        if !env.isLondon parent.header.Number then
          (parent.header.GasLimit * env.ElasticityMultiplier) % 2 ^ 64
        else parent.header.GasLimit
      { header with GasLimit := env.CalcGasLimit1559 parentGasLimit w.config.GasCeil }
    else header
  if w.running then { header with Coinbase := w.coinbase } else header

/-- The gas limit `proposePhase` computes for the header: the configured `GasFloor`,
or, in the fee-market phase, the limit computed from the parent's gas limit (times the
elasticity multiplier at the fork block) and `GasCeil`. -/
def proposeGasLimit (env : MinerEnv) (w : worker) : Nat :=
  if env.isLondon (env.currentBlock.header.Number + 1) then
    env.CalcGasLimit1559
      (if !env.isLondon env.currentBlock.header.Number then
        (env.currentBlock.header.GasLimit * env.ElasticityMultiplier) % 2 ^ 64
      else env.currentBlock.header.GasLimit)
      w.config.GasCeil
  else w.config.GasFloor

/-- The sample collaborators with an empty transaction pool. -/
def scenarioEmptyPoolEnv : MinerEnv :=
  { scenarioMinerEnv with pending := Except.ok [] }

/-- The state of the parent block in the sample chain. -/
def scenarioState0 : StateDB := { content := 0, thash := [], txIndex := 0 }

/-- The block the sample engine assembles from the sample header and no transactions. -/
def scenarioEmptyBlock : Block :=
  { header := { scenarioHeader with GasLimit := 300000000 }, transactions := [] }

/-- The task for the empty sample block. -/
def scenarioEmptyTask : task :=
  { receipts := [], state := scenarioState0, block := scenarioEmptyBlock }

/-- The environment of the sample worker after a proposal with no transactions. -/
def scenarioEmptyCurrent : environment :=
  { state := scenarioState0, tcount := 0, gasPool := some 300000000,
    header := { scenarioHeader with GasLimit := 300000000 }, txs := [], receipts := [] }

/-- What `proposePhase` returns on the sample worker with the empty pool. -/
def scenarioEmptyProposal : ProposeResult :=
  { w := { scenarioWorker with current := some scenarioEmptyCurrent,
                               snapshotBlock := some scenarioEmptyBlock,
                               snapshotState := some scenarioState0 },
    tasks := [scenarioEmptyTask], shifts := [0], pendingLogs := [], err := none }

/-! ## The state processor (`StateProcessor.Process`, `core/state_processor.go`) -/

/-- The two mutexes of `PeerHandler`. -/
inductive LockName where
  | peerLock
  | parentHashLock
deriving DecidableEq, Repr

/-- One lock operation: `l.Lock()` or `l.Unlock()`. -/
inductive LockOp where
  | Lock (l : LockName)
  | Unlock (l : LockName)
deriving DecidableEq, Repr

/-- The methods of `PeerHandler` that take a lock, with the branch taken where the
lock operations depend on it: `HandleConsensusPacket` locks for an engine packet only,
`HandleCapabilityPacket` and `HandleRequestConsensusSync` only when they do not return
at their first test, `SendRequestConsensusSyncPacket` only when the packet was sent,
and `BroadcastLocalPacket` calls both broadcast methods on a relay. -/
inductive PeerHandlerMethod where
  | OnPeerConnected
  | OnPeerDisconnected
  | HandleConsensusPacket (enginePacket : Bool)
  | HandleCapabilityPacket (accepted : Bool)
  | HandleRequestConsensusSync (accepted : Bool)
  | ConnectAvailableConsensusRelay
  | SendRequestConsensusSyncPacket (sent : Bool)
  | BroadcastLocalPacket (isConsensusRelay : Bool)
  | BroadcastToConsensusRelays
  | BroadcastToSyncPeers
  | GetCurrentParentHash
  | SetCurrentParentHash
  | SendCapabilityToDeltaPeers
  | SendCapabilityToAllPeers
deriving DecidableEq, Repr

/-- The lock operations of `GetCurrentParentHash`. -/
def lockOpsGetCurrentParentHash : List LockOp :=
  [LockOp.Lock LockName.parentHashLock, LockOp.Unlock LockName.parentHashLock]

/-- The lock operations of `BroadcastToConsensusRelays`. -/
def lockOpsBroadcastToConsensusRelays : List LockOp :=
  [LockOp.Lock LockName.peerLock, LockOp.Unlock LockName.peerLock]

/-- The lock operations of `BroadcastToSyncPeers`: it takes `peerLock`, calls
`GetCurrentParentHash` and releases `peerLock` when it returns. -/
def lockOpsBroadcastToSyncPeers : List LockOp :=
  [LockOp.Lock LockName.peerLock] ++ lockOpsGetCurrentParentHash ++
    [LockOp.Unlock LockName.peerLock]

/-- The lock operations of a method, in program order. -/
def lockOps : PeerHandlerMethod → List LockOp
  | PeerHandlerMethod.OnPeerConnected =>
    [LockOp.Lock LockName.peerLock, LockOp.Unlock LockName.peerLock]
  | PeerHandlerMethod.OnPeerDisconnected =>
    [LockOp.Lock LockName.peerLock, LockOp.Unlock LockName.peerLock]
  | PeerHandlerMethod.HandleConsensusPacket enginePacket =>
    if enginePacket then [LockOp.Lock LockName.peerLock, LockOp.Unlock LockName.peerLock]
    else []
  | PeerHandlerMethod.HandleCapabilityPacket accepted =>
    if accepted then [LockOp.Lock LockName.peerLock, LockOp.Unlock LockName.peerLock] else []
  | PeerHandlerMethod.HandleRequestConsensusSync accepted =>
    if accepted then [LockOp.Lock LockName.peerLock, LockOp.Unlock LockName.peerLock] else []
  | PeerHandlerMethod.ConnectAvailableConsensusRelay =>
    [LockOp.Lock LockName.peerLock, LockOp.Unlock LockName.peerLock]
  | PeerHandlerMethod.SendRequestConsensusSyncPacket sent =>
    if sent then [LockOp.Lock LockName.peerLock, LockOp.Unlock LockName.peerLock] else []
  | PeerHandlerMethod.BroadcastLocalPacket isConsensusRelay =>
    if isConsensusRelay then lockOpsBroadcastToSyncPeers ++ lockOpsBroadcastToConsensusRelays
    else lockOpsBroadcastToConsensusRelays
  | PeerHandlerMethod.BroadcastToConsensusRelays => lockOpsBroadcastToConsensusRelays
  | PeerHandlerMethod.BroadcastToSyncPeers => lockOpsBroadcastToSyncPeers
  | PeerHandlerMethod.GetCurrentParentHash => lockOpsGetCurrentParentHash
  | PeerHandlerMethod.SetCurrentParentHash =>
    [LockOp.Lock LockName.parentHashLock, LockOp.Lock LockName.peerLock,
      LockOp.Unlock LockName.peerLock, LockOp.Unlock LockName.parentHashLock]
  | PeerHandlerMethod.SendCapabilityToDeltaPeers =>
    [LockOp.Lock LockName.peerLock, LockOp.Unlock LockName.peerLock]
  | PeerHandlerMethod.SendCapabilityToAllPeers =>
    [LockOp.Lock LockName.peerLock, LockOp.Unlock LockName.peerLock]

/-- Whether, in the sequence `ops` run by one goroutine that holds the locks `held`,
some `a.Lock()` is performed while `b` is held. -/
def acquiresWhileHolding (a b : LockName) : List LockName → List LockOp → Bool
  | _, [] => false
  | held, LockOp.Lock l :: rest =>
    (decide (l = a) && decide (b ∈ held)) || acquiresWhileHolding a b (l :: held) rest
  | held, LockOp.Unlock l :: rest =>
    acquiresWhileHolding a b (held.filter (fun x => !decide (x = l))) rest

/-- The goroutines that run handler methods, each with the lock operations it still
has to perform, and the goroutine holding each mutex (`none` when it is free). -/
structure LockState where
  pending : List (List LockOp)
  peerLock : Option Nat
  parentHashLock : Option Nat
deriving DecidableEq, Repr

/-- The holder of a mutex. -/
def LockState.holder (s : LockState) : LockName → Option Nat
  | LockName.peerLock => s.peerLock
  | LockName.parentHashLock => s.parentHashLock

/-- The state in which the holder of a mutex is set. -/
def LockState.setHolder (s : LockState) (l : LockName) (h : Option Nat) : LockState :=
  match l with
  | LockName.peerLock => { s with peerLock := h }
  | LockName.parentHashLock => { s with parentHashLock := h }

/-- One step of goroutine `i`: it performs its next lock operation; the step does not
exist (`none`) when the goroutine has finished or its `Lock` finds the mutex held. -/
def LockState.step (s : LockState) (i : Nat) : Option LockState :=
  match s.pending[i]? with
  | none => none
  | some [] => none
  | some (LockOp.Lock l :: rest) =>
    match s.holder l with
    | some _ => none
    | none => some ({ s with pending := s.pending.set i rest }.setHolder l (some i))
  | some (LockOp.Unlock l :: rest) =>
    some ({ s with pending := s.pending.set i rest }.setHolder l none)

/-- The state after the goroutines step in the order `schedule`. -/
def LockState.run : LockState → List Nat → Option LockState
  | s, [] => some s
  | s, i :: rest =>
    match s.step i with
    | none => none
    | some s1 => LockState.run s1 rest

/-- A deadlock: some goroutine has not finished, and no goroutine can step. -/
def LockState.deadlocked (s : LockState) : Bool :=
  s.pending.any (fun ops => !ops.isEmpty) &&
    (List.range s.pending.length).all (fun i => (s.step i).isNone)

/-- Two goroutines: one runs `SetCurrentParentHash`, the other `BroadcastToSyncPeers`. -/
def scenarioLocks : LockState :=
  { pending := [lockOps PeerHandlerMethod.SetCurrentParentHash,
                lockOps PeerHandlerMethod.BroadcastToSyncPeers],
    peerLock := none, parentHashLock := none }

/-- The index invariant of the static pool, in full: the task stored at
`staticPool[i]` has `staticPoolIndex = i`, every static task (a value of the map
`static`) that is not in the pool has `staticPoolIndex = -1`, and no task occurs twice
in the pool. -/
def PoolInv (d : dialScheduler) : Prop :=
  PoolIndexed d ∧
    (∀ (id : NodeID) (r : Nat) (t : dialTask), d.static.lookup id = some r →
      d.tasks[r]? = some t → r ∉ d.staticPool → t.staticPoolIndex = -1) ∧
    d.staticPool.Nodup

/-- A scheduler with the static tasks for the nodes 1, 2 and 3 in the pool. -/
def scenarioPooled : dialScheduler :=
  { tasks := [{ staticPoolIndex := 0, flags := staticDialedConn, dest := scenarioNode 1 },
              { staticPoolIndex := 1, flags := staticDialedConn, dest := scenarioNode 2 },
              { staticPoolIndex := 2, flags := staticDialedConn, dest := scenarioNode 3 }],
    dialing := [], peers := [], dialPeers := 0, static := [(1, 0), (2, 1), (3, 2)],
    staticPool := [0, 1, 2], history := [], doneSinceLastLog := 0 }

namespace GoMap

variable {K V : Type} [DecidableEq K]

theorem lookup_insert (m : GoMap K V) (k k' : K) (v : V) :
    lookup (insert m k v) k' = if k = k' then some v else lookup m k' := by
  induction m with
  | nil => simp [insert, lookup]
  | cons e m ih =>
    obtain ⟨a, b⟩ := e
    by_cases h : a = k
    · subst h
      by_cases h' : a = k' <;> simp [insert, lookup, h']
    · by_cases h' : a = k'
      · subst h'
        have : ¬ k = a := fun e => h e.symm
        simp [insert, lookup, h, this]
      · simp [insert, lookup, h, h', ih]

theorem lookup_insert_self (m : GoMap K V) (k : K) (v : V) :
    lookup (insert m k v) k = some v := by
  simp [lookup_insert]

theorem contains_insert (m : GoMap K V) (k k' : K) (v : V) :
    contains (insert m k v) k' = (decide (k = k') || contains m k') := by
  unfold contains
  rw [lookup_insert]
  by_cases h : k = k' <;> simp [h]

theorem insert_eq_self (m : GoMap K V) (k : K) (v : V) (h : lookup m k = some v) :
    insert m k v = m := by
  induction m with
  | nil => simp [lookup] at h
  | cons e m ih =>
    obtain ⟨a, b⟩ := e
    by_cases ha : a = k
    · subst ha
      simp [lookup] at h
      simp [insert, h]
    · simp [lookup, ha] at h
      simp [insert, ha, ih h]

theorem contains_nil (k : K) : contains ([] : GoMap K V) k = false := rfl

end GoMap

/-! ## The routing loops -/

theorem relayLoop_spec (ip : GoMap String Bool) (ks : List String) :
    ∀ (sp : GoMap String Bool) (sl : List String),
      ∃ new : List String,
        (relayLoop ip ks sp sl).2 = sl ++ new ∧ new.Nodup ∧
        (∀ q, q ∈ new ↔ q ∈ ks ∧ sp.contains q = false ∧ ip.contains q = false) ∧
        (∀ q, (relayLoop ip ks sp sl).1.contains q = (sp.contains q || decide (q ∈ new))) := by
  induction ks with
  | nil =>
    intro sp sl
    exact ⟨[], by simp [relayLoop], List.nodup_nil, by simp, by simp [relayLoop]⟩
  | cons k ks ih =>
    intro sp sl
    by_cases h1 : sp.contains k = true
    · obtain ⟨new, e, nd, mem, cont⟩ := ih sp sl
      refine ⟨new, by simp [relayLoop, h1, e], nd, ?_, by simp [relayLoop, h1, cont]⟩
      intro q
      rw [mem q]
      constructor
      · rintro ⟨a, b, c⟩
        exact ⟨List.mem_cons_of_mem _ a, b, c⟩
      · rintro ⟨a, b, c⟩
        rcases List.mem_cons.mp a with rfl | a
        · rw [h1] at b
          exact absurd b (by simp)
        · exact ⟨a, b, c⟩
    · by_cases h2 : ip.contains k = true
      · obtain ⟨new, e, nd, mem, cont⟩ := ih sp sl
        refine ⟨new, by simp [relayLoop, h1, h2, e], nd, ?_, by simp [relayLoop, h1, h2, cont]⟩
        intro q
        rw [mem q]
        constructor
        · rintro ⟨a, b, c⟩
          exact ⟨List.mem_cons_of_mem _ a, b, c⟩
        · rintro ⟨a, b, c⟩
          rcases List.mem_cons.mp a with rfl | a
          · rw [h2] at c
            exact absurd c (by simp)
          · exact ⟨a, b, c⟩
      · obtain ⟨new, e, nd, mem, cont⟩ := ih (sp.insert k true) (sl ++ [k])
        have h1' : sp.contains k = false := by simpa using h1
        have h2' : ip.contains k = false := by simpa using h2
        have hk : k ∉ new := by
          intro hk
          have := ((mem k).mp hk).2.1
          simp [GoMap.contains_insert] at this
        refine ⟨k :: new, by simp [relayLoop, h1, h2, e], List.nodup_cons.mpr ⟨hk, nd⟩, ?_, ?_⟩
        · intro q
          rw [List.mem_cons, mem q, GoMap.contains_insert]
          by_cases hq : q = k
          · subst hq
            simp [h1', h2']
          · have hq' : ¬ k = q := fun e => hq e.symm
            simp [hq, hq']
        · intro q
          have hstep : relayLoop ip (k :: ks) sp sl =
              relayLoop ip ks (sp.insert k true) (sl ++ [k]) := by
            simp [relayLoop, h1, h2]
          rw [hstep, cont q, GoMap.contains_insert]
          by_cases hq : q = k
          · subst hq
            simp
          · have hq' : ¬ k = q := fun e => hq e.symm
            simp [hq, hq']

theorem syncLoop_eq_relayLoop (fromPeerId : String) (ip : GoMap String Bool)
    (h : ip.contains fromPeerId = true) (ks : List String) :
    ∀ (sp : GoMap String Bool) (sl : List String),
      syncLoop fromPeerId ip ks sp sl = relayLoop ip ks sp sl := by
  induction ks with
  | nil => intro sp sl; rfl
  | cons k ks ih =>
    intro sp sl
    by_cases hk : k = fromPeerId
    · subst hk
      by_cases h1 : sp.contains k = true
      · simp [syncLoop, relayLoop, h1, ih]
      · simp [syncLoop, relayLoop, h1, h, ih]
    · by_cases h1 : sp.contains k = true
      · simp [syncLoop, relayLoop, hk, h1, ih]
      · by_cases h2 : ip.contains k = true
        · simp [syncLoop, relayLoop, hk, h1, h2, ih]
        · simp [syncLoop, relayLoop, hk, h1, h2, ih]

theorem relayLoop_skip_all (ip : GoMap String Bool) (ks : List String)
    (sp : GoMap String Bool) (sl : List String)
    (h : ∀ k, k ∈ ks → sp.contains k = true ∨ ip.contains k = true) :
    relayLoop ip ks sp sl = (sp, sl) := by
  induction ks with
  | nil => rfl
  | cons k ks ih =>
    have ih' := ih (fun q hq => h q (List.mem_cons_of_mem _ hq))
    rcases h k (List.mem_cons_self _ _) with h1 | h2
    · simp [relayLoop, h1, ih']
    · by_cases h1 : sp.contains k = true
      · simp [relayLoop, h1, ih']
      · simp [relayLoop, h1, h2, ih']

/-! ## The ledger of a packet -/

theorem sentTo_eq_lookupOrCreate (env : Env) (p : PeerHandler) (packet : ConsensusPacket)
    (q : String) :
    sentTo env p packet q =
      (lookupOrCreate p.packetSyncMap (env.hash packet) packet).sendPeerMap.contains q := by
  unfold sentTo sentToAt lookupOrCreate
  cases h : GoMap.lookup p.packetSyncMap (env.hash packet) <;> simp [GoMap.contains_nil]

theorem seenFrom_eq_lookupOrCreate (env : Env) (p : PeerHandler) (packet : ConsensusPacket)
    (q : String) :
    seenFrom env p packet q =
      (lookupOrCreate p.packetSyncMap (env.hash packet) packet).incomingPeerMap.contains q := by
  unfold seenFrom seenFromAt lookupOrCreate
  cases h : GoMap.lookup p.packetSyncMap (env.hash packet) <;> simp [GoMap.contains_nil]

theorem routingContract_of_relayLoop (env : Env) (target : List String) (p st : PeerHandler)
    (packet : ConsensusPacket) (fromPeerId : String)
    (hmap : st.packetSyncMap =
      p.packetSyncMap.insert (env.hash packet)
        { lookupOrCreate p.packetSyncMap (env.hash packet) packet with
          sendPeerMap :=
            (relayLoop
              ((lookupOrCreate p.packetSyncMap (env.hash packet) packet).incomingPeerMap.insert
                fromPeerId true)
              target (lookupOrCreate p.packetSyncMap (env.hash packet) packet).sendPeerMap []).1,
          incomingPeerMap :=
            (lookupOrCreate p.packetSyncMap (env.hash packet) packet).incomingPeerMap.insert
              fromPeerId true })
    (h1 : st.peerMap = p.peerMap) (h2 : st.consensusRelayMap = p.consensusRelayMap)
    (h3 : st.syncPeerMap = p.syncPeerMap) :
    RoutingContract env target p packet fromPeerId
      { state := st,
        sends := [((relayLoop
              ((lookupOrCreate p.packetSyncMap (env.hash packet) packet).incomingPeerMap.insert
                fromPeerId true)
              target (lookupOrCreate p.packetSyncMap (env.hash packet) packet).sendPeerMap []).2,
            packet)],
        count := (relayLoop
              ((lookupOrCreate p.packetSyncMap (env.hash packet) packet).incomingPeerMap.insert
                fromPeerId true)
              target
              (lookupOrCreate p.packetSyncMap (env.hash packet) packet).sendPeerMap []).2.length } := by
  obtain ⟨new, e, nd, mem, cont⟩ :=
    relayLoop_spec
      ((lookupOrCreate p.packetSyncMap (env.hash packet) packet).incomingPeerMap.insert
        fromPeerId true)
      target (lookupOrCreate p.packetSyncMap (env.hash packet) packet).sendPeerMap []
  rw [List.nil_append] at e
  refine ⟨new, by rw [e], by rw [e], nd, ?_, ?_, ?_, h1, h2, h3⟩
  · intro q
    rw [mem q, sentTo_eq_lookupOrCreate, seenFrom_eq_lookupOrCreate, GoMap.contains_insert]
    by_cases hq : fromPeerId = q
    · subst hq
      simp
    · have hq' : ¬ q = fromPeerId := fun e => hq e.symm
      simp [hq, hq']
  · intro q
    have key : seenFrom env st packet q =
        ((lookupOrCreate p.packetSyncMap (env.hash packet) packet).incomingPeerMap.insert
          fromPeerId true).contains q := by
      unfold seenFrom seenFromAt
      rw [hmap, GoMap.lookup_insert_self]
    show seenFrom env st packet q = true ↔ _
    rw [key, GoMap.contains_insert, ← seenFrom_eq_lookupOrCreate]
    by_cases hq : fromPeerId = q
    · subst hq
      simp
    · have hq' : ¬ q = fromPeerId := fun e => hq e.symm
      simp [hq, hq']
  · intro q
    have key : sentTo env st packet q =
        (relayLoop
          ((lookupOrCreate p.packetSyncMap (env.hash packet) packet).incomingPeerMap.insert
            fromPeerId true)
          target
          (lookupOrCreate p.packetSyncMap (env.hash packet) packet).sendPeerMap []).1.contains
          q := by
      unfold sentTo sentToAt
      rw [hmap, GoMap.lookup_insert_self]
    show sentTo env st packet q = true ↔ _
    rw [key, cont q, ← sentTo_eq_lookupOrCreate]
    simp

theorem BroadcastToConsensusRelays_contract (env : Env) (p : PeerHandler)
    (packet : ConsensusPacket) (fromPeerId : String) :
    RoutingContract env p.consensusRelayMap.keys p packet fromPeerId
      (BroadcastToConsensusRelays env p packet fromPeerId) := by
  unfold BroadcastToConsensusRelays
  simp only
  apply routingContract_of_relayLoop
  · split <;> rfl
  · split <;> rfl
  · split <;> rfl
  · split <;> rfl

theorem BroadcastToSyncPeers_contract (env : Env) (p : PeerHandler)
    (packet : ConsensusPacket) (fromPeerId : String)
    (h : packet.ParentHash = p.currentParentHash) :
    RoutingContract env p.syncPeerMap.keys p packet fromPeerId
      (BroadcastToSyncPeers env p packet fromPeerId) := by
  unfold BroadcastToSyncPeers
  simp only [GetCurrentParentHash, h, ne_eq, not_true_eq_false, if_false]
  rw [syncLoop_eq_relayLoop fromPeerId _ (by simp [GoMap.contains_insert])]
  apply routingContract_of_relayLoop <;> rfl

theorem BroadcastToSyncPeers_gated (env : Env) (p : PeerHandler)
    (packet : ConsensusPacket) (fromPeerId : String)
    (h : packet.ParentHash ≠ p.currentParentHash) :
    BroadcastToSyncPeers env p packet fromPeerId = { state := p, sends := [], count := 0 } := by
  unfold BroadcastToSyncPeers
  simp [GetCurrentParentHash, h]

theorem sentToAt_congr (p st : PeerHandler) (h : st.packetSyncMap = p.packetSyncMap)
    (k : Hash) (q : String) : sentToAt st k q = sentToAt p k q := by
  unfold sentToAt
  rw [h]

theorem seenFromAt_congr (p st : PeerHandler) (h : st.packetSyncMap = p.packetSyncMap)
    (k : Hash) (q : String) : seenFromAt st k q = seenFromAt p k q := by
  unfold seenFromAt
  rw [h]

theorem BroadcastToConsensusRelays_packetSyncMap (env : Env) (p : PeerHandler)
    (packet : ConsensusPacket) (fromPeerId : String) :
    ∃ d, (BroadcastToConsensusRelays env p packet fromPeerId).state.packetSyncMap =
      p.packetSyncMap.insert (env.hash packet) d := by
  unfold BroadcastToConsensusRelays
  simp only
  split <;> exact ⟨_, rfl⟩

theorem BroadcastToSyncPeers_packetSyncMap (env : Env) (p : PeerHandler)
    (packet : ConsensusPacket) (fromPeerId : String)
    (h : packet.ParentHash = p.currentParentHash) :
    ∃ d, (BroadcastToSyncPeers env p packet fromPeerId).state.packetSyncMap =
      p.packetSyncMap.insert (env.hash packet) d := by
  unfold BroadcastToSyncPeers
  simp only [GetCurrentParentHash, h, ne_eq, not_true_eq_false, if_false]
  exact ⟨_, rfl⟩

/-- What one routing call means for the ledger: the peers written to are new for the
packet, recorded afterwards, and nothing recorded before is lost. -/
theorem step_facts_of_contract (env : Env) (target : List String) (p : PeerHandler)
    (packet : ConsensusPacket) (fromPeerId : String) (r : BroadcastResult)
    (hc : RoutingContract env target p packet fromPeerId r)
    (hmap : ∃ d, r.state.packetSyncMap = p.packetSyncMap.insert (env.hash packet) d) :
    ∃ new : List String,
      flattenSends r.sends = new.map (fun q => (packet, q)) ∧ new.Nodup ∧
      (∀ q, q ∈ new → sentToAt p (env.hash packet) q = false) ∧
      (∀ q, q ∈ new → seenFromAt r.state (env.hash packet) q = false) ∧
      (∀ q, q ∈ new → sentToAt r.state (env.hash packet) q = true) ∧
      (∀ k q, sentToAt p k q = true → sentToAt r.state k q = true) ∧
      (∀ k q, sentToAt r.state k q = true → seenFromAt r.state k q = true →
        sentToAt p k q = true) := by
  obtain ⟨new, hs, _, nd, mem, seen, sent, _, _, _⟩ := hc
  obtain ⟨d, hd⟩ := hmap
  have frame : ∀ k q, k ≠ env.hash packet → sentToAt r.state k q = sentToAt p k q := by
    intro k q hk
    unfold sentToAt
    rw [hd, GoMap.lookup_insert]
    have : ¬ env.hash packet = k := fun e => hk e.symm
    simp [this]
  have notseen : ∀ q, q ∈ new → seenFromAt r.state (env.hash packet) q = false := by
    intro q hq
    have h1 := (mem q).mp hq
    have h2 := seen q
    unfold seenFrom at h1 h2
    cases hv : seenFromAt r.state (env.hash packet) q
    · rfl
    · rcases h2.mp hv with h3 | h3
      · rw [h1.2.2.1] at h3
        exact absurd h3 (by simp)
      · exact absurd h3 h1.2.2.2
  refine ⟨new, by simp [hs, flattenSends], nd, fun q hq => ((mem q).mp hq).2.1, notseen,
    fun q hq => (sent q).mpr (Or.inr hq), ?_, ?_⟩
  · intro k q hk
    by_cases e : k = env.hash packet
    · subst e
      exact (sent q).mpr (Or.inl hk)
    · rw [frame k q e]
      exact hk
  · intro k q h1 h2
    by_cases e : k = env.hash packet
    · subst e
      have hq : q ∉ new := by
        intro hq
        rw [notseen q hq] at h2
        exact absurd h2 (by simp)
      rcases (sent q).mp h1 with h3 | h3
      · exact h3
      · exact absurd h3 hq
    · rw [frame k q e] at h1
      exact h1

theorem BroadcastToConsensusRelays_step (env : Env) (p : PeerHandler)
    (packet : ConsensusPacket) (fromPeerId : String) :
    ∃ new : List String,
      flattenSends (BroadcastToConsensusRelays env p packet fromPeerId).sends =
        new.map (fun q => (packet, q)) ∧ new.Nodup ∧
      (∀ q, q ∈ new → sentToAt p (env.hash packet) q = false) ∧
      (∀ q, q ∈ new →
        seenFromAt (BroadcastToConsensusRelays env p packet fromPeerId).state
          (env.hash packet) q = false) ∧
      (∀ q, q ∈ new →
        sentToAt (BroadcastToConsensusRelays env p packet fromPeerId).state
          (env.hash packet) q = true) ∧
      (∀ k q, sentToAt p k q = true →
        sentToAt (BroadcastToConsensusRelays env p packet fromPeerId).state k q = true) ∧
      (∀ k q, sentToAt (BroadcastToConsensusRelays env p packet fromPeerId).state k q = true →
        seenFromAt (BroadcastToConsensusRelays env p packet fromPeerId).state k q = true →
        sentToAt p k q = true) :=
  step_facts_of_contract env _ p packet fromPeerId _
    (BroadcastToConsensusRelays_contract env p packet fromPeerId)
    (BroadcastToConsensusRelays_packetSyncMap env p packet fromPeerId)

theorem BroadcastToSyncPeers_step (env : Env) (p : PeerHandler)
    (packet : ConsensusPacket) (fromPeerId : String) :
    ∃ new : List String,
      flattenSends (BroadcastToSyncPeers env p packet fromPeerId).sends =
        new.map (fun q => (packet, q)) ∧ new.Nodup ∧
      (∀ q, q ∈ new → sentToAt p (env.hash packet) q = false) ∧
      (∀ q, q ∈ new →
        seenFromAt (BroadcastToSyncPeers env p packet fromPeerId).state
          (env.hash packet) q = false) ∧
      (∀ q, q ∈ new →
        sentToAt (BroadcastToSyncPeers env p packet fromPeerId).state
          (env.hash packet) q = true) ∧
      (∀ k q, sentToAt p k q = true →
        sentToAt (BroadcastToSyncPeers env p packet fromPeerId).state k q = true) ∧
      (∀ k q, sentToAt (BroadcastToSyncPeers env p packet fromPeerId).state k q = true →
        seenFromAt (BroadcastToSyncPeers env p packet fromPeerId).state k q = true →
        sentToAt p k q = true) := by
  by_cases h : packet.ParentHash = p.currentParentHash
  · exact step_facts_of_contract env _ p packet fromPeerId _
      (BroadcastToSyncPeers_contract env p packet fromPeerId h)
      (BroadcastToSyncPeers_packetSyncMap env p packet fromPeerId h)
  · rw [BroadcastToSyncPeers_gated env p packet fromPeerId h]
    exact ⟨[], by simp [flattenSends], List.nodup_nil, by simp, by simp, by simp,
      fun _ _ h => h, fun _ _ h _ => h⟩

theorem applyEvent_facts (env : Env) (p : PeerHandler) (e : Event) :
    ((applyEvent env p e).2.map (fun x => (env.hash x.1, x.2))).Nodup ∧
    (∀ x, x ∈ (applyEvent env p e).2 → sentToAt p (env.hash x.1) x.2 = false) ∧
    (∀ x, x ∈ (applyEvent env p e).2 →
      sentToAt (applyEvent env p e).1 (env.hash x.1) x.2 = true) ∧
    (∀ k q, sentToAt p k q = true → sentToAt (applyEvent env p e).1 k q = true) := by
  have other : ∀ st : PeerHandler, st.packetSyncMap = p.packetSyncMap →
      (([] : List (ConsensusPacket × String)).map (fun x => (env.hash x.1, x.2))).Nodup ∧
      (∀ x, x ∈ ([] : List (ConsensusPacket × String)) →
        sentToAt p (env.hash x.1) x.2 = false) ∧
      (∀ x, x ∈ ([] : List (ConsensusPacket × String)) →
        sentToAt st (env.hash x.1) x.2 = true) ∧
      (∀ k q, sentToAt p k q = true → sentToAt st k q = true) := by
    intro st hst
    refine ⟨List.nodup_nil, by simp, by simp, ?_⟩
    intro k q hk
    rw [sentToAt_congr p st hst]
    exact hk
  have bcast : ∀ (st : PeerHandler) (packet : ConsensusPacket) (new : List String),
      new.Nodup → (∀ q, q ∈ new → sentToAt p (env.hash packet) q = false) →
      (∀ q, q ∈ new → sentToAt st (env.hash packet) q = true) →
      (∀ k q, sentToAt p k q = true → sentToAt st k q = true) →
      ((new.map (fun q => (packet, q))).map (fun x => (env.hash x.1, x.2))).Nodup ∧
      (∀ x, x ∈ new.map (fun q => (packet, q)) → sentToAt p (env.hash x.1) x.2 = false) ∧
      (∀ x, x ∈ new.map (fun q => (packet, q)) → sentToAt st (env.hash x.1) x.2 = true) ∧
      (∀ k q, sentToAt p k q = true → sentToAt st k q = true) := by
    intro st packet new nd h1 h2 h3
    refine ⟨?_, ?_, ?_, h3⟩
    · rw [List.map_map]
      refine List.Nodup.map ?_ nd
      intro a b hab
      simpa using hab
    · intro x hx
      obtain ⟨q, hq, rfl⟩ := List.mem_map.mp hx
      exact h1 q hq
    · intro x hx
      obtain ⟨q, hq, rfl⟩ := List.mem_map.mp hx
      exact h2 q hq
  cases e with
  | BroadcastToSyncPeers packet fromPeerId =>
    obtain ⟨new, hs, nd, h1, _, h2, h3, _⟩ := BroadcastToSyncPeers_step env p packet fromPeerId
    simp only [applyEvent]
    rw [hs]
    exact bcast _ packet new nd h1 h2 h3
  | BroadcastToConsensusRelays packet fromPeerId =>
    obtain ⟨new, hs, nd, h1, _, h2, h3, _⟩ :=
      BroadcastToConsensusRelays_step env p packet fromPeerId
    simp only [applyEvent]
    rw [hs]
    exact bcast _ packet new nd h1 h2 h3
  | OnPeerConnected peerId => exact other _ rfl
  | OnPeerDisconnected peerId => exact other _ rfl
  | HandleCapabilityPacket d fromPeerId =>
    refine other _ ?_
    simp only [applyEvent]
    unfold HandleCapabilityPacket
    split <;> rfl
  | HandleRequestConsensusSync d fromPeerId =>
    refine other _ ?_
    simp only [applyEvent]
    unfold HandleRequestConsensusSync
    split <;> rfl
  | SendRequestConsensusSyncPacket peerId =>
    refine other _ ?_
    simp only [applyEvent]
    unfold SendRequestConsensusSyncPacket
    split
    · rfl
    · dsimp only
      split
      · rfl
      · split
        · rfl
        · split <;> rfl

theorem sendLog_facts (env : Env) (es : List Event) :
    ∀ p : PeerHandler,
      ((sendLog env p es).map (fun x => (env.hash x.1, x.2))).Nodup ∧
      (∀ x, x ∈ sendLog env p es → sentToAt p (env.hash x.1) x.2 = false) := by
  induction es with
  | nil => intro p; simp [sendLog]
  | cons e es ih =>
    intro p
    obtain ⟨nd1, new1, rec1, mono1⟩ := applyEvent_facts env p e
    obtain ⟨nd2, new2⟩ := ih (applyEvent env p e).1
    simp only [sendLog]
    refine ⟨?_, ?_⟩
    · rw [List.map_append]
      refine List.Nodup.append nd1 nd2 ?_
      intro key h1 h2
      obtain ⟨x, hx, rfl⟩ := List.mem_map.mp h1
      obtain ⟨y, hy, hxy⟩ := List.mem_map.mp h2
      have a := rec1 x hx
      have b := new2 y hy
      simp only [Prod.mk.injEq] at hxy
      rw [hxy.1, hxy.2, a] at b
      exact absurd b (by simp)
    · intro x hx
      rcases List.mem_append.mp hx with h | h
      · exact new1 x h
      · cases hv : sentToAt p (env.hash x.1) x.2
        · rfl
        · have := mono1 _ _ hv
          rw [new2 x h] at this
          exact absurd this (by simp)

theorem int64Add_zero_idem (a b : Int) : int64Add (int64Add a b) 0 = int64Add a b := by
  unfold int64Add
  omega

theorem relayLoop_again (ip : GoMap String Bool) (ks : List String) (sp : GoMap String Bool) :
    relayLoop ip ks (relayLoop ip ks sp []).1 [] = ((relayLoop ip ks sp []).1, []) := by
  apply relayLoop_skip_all
  intro k hk
  obtain ⟨new, _, _, mem, cont⟩ := relayLoop_spec ip ks sp []
  rw [cont k]
  by_cases h1 : sp.contains k = true
  · left; simp [h1]
  · by_cases h2 : ip.contains k = true
    · right; exact h2
    · left
      have : k ∈ new := (mem k).mpr ⟨hk, by simpa using h1, by simpa using h2⟩
      simp [this]

theorem lookupOrCreate_insert (m : GoMap Hash PacketSyncDetails) (h : Hash)
    (d : PacketSyncDetails) (packet : ConsensusPacket) :
    lookupOrCreate (m.insert h d) h packet = d := by
  simp [lookupOrCreate, GoMap.lookup_insert_self]

theorem insert_insert_same {K V : Type} [DecidableEq K] (m : GoMap K V) (k : K) (v : V) :
    (m.insert k v).insert k v = m.insert k v :=
  GoMap.insert_eq_self _ _ _ (GoMap.lookup_insert_self _ _ _)

theorem BroadcastToConsensusRelays_repeat (env : Env) (p : PeerHandler)
    (packet : ConsensusPacket) (fromPeerId : String) :
    BroadcastToConsensusRelays env (BroadcastToConsensusRelays env p packet fromPeerId).state
        packet fromPeerId =
      { state := (BroadcastToConsensusRelays env p packet fromPeerId).state,
        sends := [([], packet)], count := 0 } := by
  by_cases hl : fromPeerId = p.localPeerId
  · simp only [BroadcastToConsensusRelays, hl, if_true, lookupOrCreate_insert,
      insert_insert_same, relayLoop_again, List.length_nil, Nat.cast_zero, int64Add_zero_idem,
      CharP.cast_eq_zero]
  · simp only [BroadcastToConsensusRelays, hl, if_false, lookupOrCreate_insert,
      insert_insert_same, relayLoop_again, List.length_nil, Nat.cast_zero, int64Add_zero_idem,
      CharP.cast_eq_zero]

theorem BroadcastToSyncPeers_repeat (env : Env) (p : PeerHandler)
    (packet : ConsensusPacket) (fromPeerId : String) :
    (BroadcastToSyncPeers env (BroadcastToSyncPeers env p packet fromPeerId).state
        packet fromPeerId).state = (BroadcastToSyncPeers env p packet fromPeerId).state ∧
    (BroadcastToSyncPeers env (BroadcastToSyncPeers env p packet fromPeerId).state
        packet fromPeerId).count = 0 ∧
    flattenSends (BroadcastToSyncPeers env (BroadcastToSyncPeers env p packet fromPeerId).state
        packet fromPeerId).sends = [] := by
  by_cases h : packet.ParentHash = p.currentParentHash
  · have hip : ((lookupOrCreate p.packetSyncMap (env.hash packet) packet).incomingPeerMap.insert
        fromPeerId true).contains fromPeerId = true := by
      simp [GoMap.contains_insert]
    simp only [BroadcastToSyncPeers, GetCurrentParentHash, h, ne_eq, not_true_eq_false, if_false,
      lookupOrCreate_insert, insert_insert_same, syncLoop_eq_relayLoop _ _ hip, relayLoop_again,
      List.length_nil, Nat.cast_zero, int64Add_zero_idem, CharP.cast_eq_zero, flattenSends,
      List.map_nil, List.append_nil, and_self]
  · simp [BroadcastToSyncPeers_gated env p packet fromPeerId h, flattenSends]

theorem purgeLoop_eq_filter (cur : Hash) (l : List (Hash × PacketSyncDetails)) :
    ∀ m : GoMap Hash PacketSyncDetails,
      purgeLoop cur l m =
        m.filter (fun e => l.all (fun x => decide (x.2.packet.ParentHash = cur) || !decide (e.1 = x.1))) := by
  induction l with
  | nil => intro m; simp [purgeLoop]
  | cons x l ih =>
    intro m
    obtain ⟨k, v⟩ := x
    by_cases h : v.packet.ParentHash = cur
    · simp only [purgeLoop, h, if_true, ih, List.all_cons, decide_True, Bool.true_or, Bool.true_and]
    · simp only [purgeLoop, h, if_false, ih, GoMap.erase, List.filter_filter, List.all_cons,
        decide_False, Bool.false_or]
      apply List.filter_congr
      intro e _
      rw [Bool.and_comm]

theorem purgeLoop_self (cur : Hash) (m : GoMap Hash PacketSyncDetails) (hwf : m.WF) :
    purgeLoop cur m m = m.filter (fun e => decide (e.2.packet.ParentHash = cur)) := by
  rw [purgeLoop_eq_filter]
  apply List.filter_congr
  intro e he
  by_cases h : e.2.packet.ParentHash = cur
  · simp only [h, decide_True, List.all_eq_true, Bool.or_eq_true, decide_eq_true_eq,
      Bool.not_eq_true', decide_eq_false_iff_not]
    intro x hx
    by_cases hk : e.1 = x.1
    · left
      have : e = x := List.inj_on_of_nodup_map hwf he hx hk
      rw [← this]
      exact h
    · right
      exact hk
  · simp only [h, decide_False, List.all_eq_false]
    exact ⟨e, he, by simp [h]⟩

/-! ## The packet decoder -/

theorem HandleConsensusPacket_reject (env : Env) (p : PeerHandler)
    (packet : Option ConsensusPacket) (fromPeerId : String)
    (h : packet = none ∨
      ∃ pk, packet = some pk ∧ (pk.Signature = [] ∨ pk.ConsensusData = [])) :
    HandleConsensusPacket env p packet fromPeerId =
      Outcome.returns p [] (some GoError.InvalidPacketErr) := by
  rcases h with rfl | ⟨pk, rfl, h | h⟩
  · rfl
  · simp [HandleConsensusPacket, h]
  · simp [HandleConsensusPacket, h]

theorem HandleConsensusPacket_accepted (env : Env) (p : PeerHandler)
    (packet : Option ConsensusPacket) (fromPeerId : String)
    (h : (HandleConsensusPacket env p packet fromPeerId).accepted = true) :
    ∃ pk, packet = some pk ∧ pk.Signature ≠ [] ∧ pk.ConsensusData ≠ [] := by
  cases packet with
  | none => simp [HandleConsensusPacket, Outcome.accepted] at h
  | some pk =>
    refine ⟨pk, rfl, ?_, ?_⟩
    · intro e
      rw [HandleConsensusPacket_reject env p (some pk) fromPeerId
        (Or.inr ⟨pk, rfl, Or.inl e⟩)] at h
      simp [Outcome.accepted] at h
    · intro e
      rw [HandleConsensusPacket_reject env p (some pk) fromPeerId
        (Or.inr ⟨pk, rfl, Or.inr e⟩)] at h
      simp [Outcome.accepted] at h

theorem CreateConsensusPacket_ok (env : Env) (sign : Bytes → Except GoError Bytes)
    (hsign : env.signFn = some sign) (data sig : Bytes)
    (hs : sign (ZERO_HASH ++ data) = Except.ok sig) :
    CreateConsensusPacket env data =
      Except.ok { ParentHash := ZERO_HASH, ConsensusData := data, Signature := sig } := by
  simp [CreateConsensusPacket, hsign, hs]

theorem HandleConsensusPacket_capability (env : Env) (p : PeerHandler) (parent : Hash)
    (b sig : Bytes) (d : CapabilityDetails) (fromPeerId : String) (hsig : sig ≠ [])
    (hdec : env.decodeCapability b = Except.ok d) :
    HandleConsensusPacket env p
        (some { ParentHash := parent,
                ConsensusData := [ConsensusNetworkProtocolVersion] ++
                  ([env.types.CONSENSUS_PACKET_TYPE_CAPABILITY] ++ b),
                Signature := sig })
        fromPeerId =
      Outcome.returns p [Task.HandleCapabilityPacket d fromPeerId] none := by
  have hsig' : ¬ sig.length = 0 := fun e => hsig (List.length_eq_zero.mp e)
  have hv : ConsensusNetworkProtocolVersion ≥ MinConsensusNetworkProtocolVersion := by decide
  simp [HandleConsensusPacket, hsig', hv, hdec]

theorem HandleConsensusPacket_sync (env : Env) (p : PeerHandler) (parent : Hash)
    (b sig : Bytes) (d : RequestConsensusSyncDetails) (fromPeerId : String) (hsig : sig ≠ [])
    (hne : env.types.CONSENSUS_PACKET_TYPE_SYNC ≠ env.types.CONSENSUS_PACKET_TYPE_CAPABILITY)
    (hdec : env.decodeSync b = Except.ok d) :
    HandleConsensusPacket env p
        (some { ParentHash := parent,
                ConsensusData := [ConsensusNetworkProtocolVersion] ++
                  ([env.types.CONSENSUS_PACKET_TYPE_SYNC] ++ b),
                Signature := sig })
        fromPeerId =
      Outcome.returns p [Task.HandleRequestConsensusSync d fromPeerId] none := by
  have hsig' : ¬ sig.length = 0 := fun e => hsig (List.length_eq_zero.mp e)
  have hv : ConsensusNetworkProtocolVersion ≥ MinConsensusNetworkProtocolVersion := by decide
  simp [HandleConsensusPacket, hsig', hv, hdec, hne]

theorem SendCapabilityPacket_sent (env : Env) (p : PeerHandler) (peerList : List String)
    (s : List String × ConsensusPacket) (hs : s ∈ (SendCapabilityPacket env p peerList).sent) :
    s.1 = peerList ∧
      ∃ b, env.encodeCapability { IsConsensusRelay := true, PeerId := p.localPeerId } =
          Except.ok b ∧
        CreateConsensusPacket env
            ([ConsensusNetworkProtocolVersion] ++
              ([env.types.CONSENSUS_PACKET_TYPE_CAPABILITY] ++ b)) = Except.ok s.2 := by
  unfold SendCapabilityPacket at hs
  split at hs
  · simp at hs
  · dsimp only at hs
    split at hs
    · simp at hs
    · rename_i data hdata
      split at hs
      · simp at hs
      · rename_i packet hpacket
        have : s = (peerList, packet) := by
          split at hs <;> simpa using hs
        subst this
        exact ⟨rfl, data, hdata, hpacket⟩

theorem SendRequestConsensusSyncPacket_sent (env : Env) (p : PeerHandler) (peerId : String)
    (s : List String × ConsensusPacket)
    (hs : s ∈ (SendRequestConsensusSyncPacket env p peerId).sent) :
    s.1 = [peerId] ∧
      ∃ b, env.encodeSync { IsConsensusRelay := p.isConsensusRelay, PeerId := p.localPeerId } =
          Except.ok b ∧
        CreateConsensusPacket env
            ([ConsensusNetworkProtocolVersion] ++
              ([env.types.CONSENSUS_PACKET_TYPE_SYNC] ++ b)) = Except.ok s.2 := by
  unfold SendRequestConsensusSyncPacket at hs
  split at hs
  · simp at hs
  · dsimp only at hs
    split at hs
    · simp at hs
    · rename_i data hdata
      split at hs
      · simp at hs
      · rename_i packet hpacket
        have : s = ([peerId], packet) := by
          split at hs <;> simpa using hs
        subst this
        exact ⟨rfl, data, hdata, hpacket⟩

theorem HandleConsensusPacket_panics_iff (env : Env) (p : PeerHandler)
    (packet : Option ConsensusPacket) (fromPeerId : String) :
    (∃ why, HandleConsensusPacket env p packet fromPeerId = Outcome.panics why) ↔
      ∃ pk v, packet = some pk ∧ pk.Signature ≠ [] ∧ pk.ConsensusData = [v] ∧
        v ≥ MinConsensusNetworkProtocolVersion := by
  constructor
  · rintro ⟨why, h⟩
    cases packet with
    | none => simp [HandleConsensusPacket] at h
    | some pk =>
      obtain ⟨parent, data, sig⟩ := pk
      by_cases hsig : sig = []
      · simp [HandleConsensusPacket, hsig] at h
      · have hsig' : ¬ sig.length = 0 := fun e => hsig (List.length_eq_zero.mp e)
        cases data with
        | nil => simp [HandleConsensusPacket] at h
        | cons first rest =>
          by_cases hv : first ≥ MinConsensusNetworkProtocolVersion
          · cases rest with
            | nil => exact ⟨_, first, rfl, hsig, rfl, hv⟩
            | cons t rest =>
              exfalso
              simp only [HandleConsensusPacket, hsig', List.length_cons, false_or,
                Nat.add_one_ne_zero, if_false, List.get?_cons_zero, hv, if_true,
                Nat.add_one_sub_one, List.get?_cons_succ] at h
              split at h
              · split at h <;> simp at h
              · split at h
                · split at h <;> simp at h
                · split at h <;> simp at h
          · exfalso
            simp only [HandleConsensusPacket, hsig', List.length_cons, false_or,
              Nat.add_one_ne_zero, if_false, List.get?_cons_zero, hv,
              Nat.sub_self] at h
            split at h
            · split at h <;> simp at h
            · split at h
              · split at h <;> simp at h
              · split at h <;> simp at h
  · rintro ⟨pk, v, rfl, hsig, hdata, hv⟩
    obtain ⟨parent, data, sig⟩ := pk
    simp only at hdata hsig
    subst hdata
    have hsig' : ¬ sig.length = 0 := fun e => hsig (List.length_eq_zero.mp e)
    exact ⟨Panic.indexOutOfRange 1 1, by simp [HandleConsensusPacket, hsig', hv]⟩

/-! ## Local broadcast -/

theorem GoMap.lookup_filter_key {K V : Type} [DecidableEq K] (f : K → Bool) (m : GoMap K V)
    (k : K) :
    GoMap.lookup (m.filter (fun e => f e.1)) k = if f k = true then GoMap.lookup m k else none := by
  induction m with
  | nil => simp [GoMap.lookup]
  | cons e m ih =>
    obtain ⟨a, b⟩ := e
    by_cases ha : f a = true
    · by_cases hk : a = k
      · subst hk
        simp [List.filter, ha, GoMap.lookup]
      · simp [List.filter, ha, GoMap.lookup, hk, ih]
    · by_cases hk : a = k
      · subst hk
        simp [List.filter, ha, GoMap.lookup, ih]
      · simp [List.filter, ha, GoMap.lookup, hk, ih]

theorem GoMap.keys_insert {K V : Type} [DecidableEq K] (m : GoMap K V) (k : K) (v : V) :
    GoMap.keys (GoMap.insert m k v) =
      if GoMap.contains m k = true then GoMap.keys m else GoMap.keys m ++ [k] := by
  induction m with
  | nil => simp [GoMap.insert, GoMap.keys, GoMap.contains, GoMap.lookup]
  | cons e m ih =>
    obtain ⟨a, b⟩ := e
    by_cases ha : a = k
    · subst ha
      simp [GoMap.insert, GoMap.keys, GoMap.contains, GoMap.lookup]
    · have ih' := ih
      simp only [GoMap.keys, GoMap.contains] at ih'
      simp only [GoMap.insert, ha, if_false, GoMap.keys, List.map_cons, GoMap.contains,
        GoMap.lookup, ih']
      split <;> simp

theorem GoMap.contains_iff_mem_keys {K V : Type} [DecidableEq K] (m : GoMap K V) (k : K) :
    GoMap.contains m k = true ↔ k ∈ GoMap.keys m := by
  induction m with
  | nil => simp [GoMap.contains, GoMap.lookup, GoMap.keys]
  | cons e m ih =>
    obtain ⟨a, b⟩ := e
    by_cases ha : a = k
    · subst ha
      simp [GoMap.contains, GoMap.lookup, GoMap.keys]
    · have : ¬ k = a := fun e => ha e.symm
      simp only [GoMap.contains, GoMap.keys] at ih
      simp [GoMap.contains, GoMap.lookup, GoMap.keys, ha, this, ih]

theorem GoMap.WF_insert {K V : Type} [DecidableEq K] (m : GoMap K V) (k : K) (v : V)
    (h : GoMap.WF m) : GoMap.WF (GoMap.insert m k v) := by
  unfold GoMap.WF at *
  rw [GoMap.keys_insert]
  split
  · exact h
  · rename_i hc
    have hk : k ∉ GoMap.keys m := fun hk => hc ((GoMap.contains_iff_mem_keys m k).mpr hk)
    exact List.Nodup.append h (List.nodup_singleton k) (by
      intro a ha hb
      simp only [List.mem_singleton] at hb
      subst hb
      exact hk ha)

theorem GoMap.WF_filter {K V : Type} [DecidableEq K] (m : GoMap K V) (p : K × V → Bool)
    (h : GoMap.WF m) : GoMap.WF (m.filter p) := by
  unfold GoMap.WF GoMap.keys at *
  exact List.Nodup.sublist (List.Sublist.map _ (List.filter_sublist m)) h

theorem cleanupLoop_eq_filter (now : Nat) (l : List (Hash × Nat)) :
    ∀ m : GoMap Hash Nat,
      cleanupLoop now l m =
        m.filter (fun e => l.all (fun x =>
          !decide (ageMillis now x.2 > REBROADCAST_CLEANUP_MILLI_SECONDS) || !decide (e.1 = x.1))) := by
  induction l with
  | nil => intro m; simp [cleanupLoop]
  | cons x l ih =>
    intro m
    obtain ⟨k, v⟩ := x
    by_cases h : ageMillis now v > REBROADCAST_CLEANUP_MILLI_SECONDS
    · simp only [cleanupLoop, h, if_true, ih, GoMap.erase, List.filter_filter, List.all_cons,
        decide_True, Bool.not_true, Bool.false_or]
      apply List.filter_congr
      intro e _
      rw [Bool.and_comm]
    · simp only [cleanupLoop, h, if_false, ih, List.all_cons, decide_False, Bool.not_false,
        Bool.true_or, Bool.true_and]
theorem GoMap.all_key_of_lookup {K V : Type} [DecidableEq K] (g : V → Bool) (m : GoMap K V)
    (hwf : GoMap.WF m) (k : K) (v : V) (hl : GoMap.lookup m k = some v) :
    m.all (fun x => !g x.2 || !decide (k = x.1)) = !g v := by
  induction m with
  | nil => simp [GoMap.lookup] at hl
  | cons e m ih =>
    obtain ⟨a, b⟩ := e
    have hnd : a ∉ GoMap.keys m ∧ GoMap.WF m := by
      unfold GoMap.WF GoMap.keys at hwf ⊢
      simpa using hwf
    by_cases ha : a = k
    · subst ha
      simp only [GoMap.lookup, if_true, Option.some.injEq] at hl
      subst hl
      have hrest : m.all (fun x => !g x.2 || !decide (a = x.1)) = true := by
        rw [List.all_eq_true]
        intro x hx
        have : a ≠ x.1 := by
          intro e
          apply hnd.1
          rw [e]
          exact List.mem_map_of_mem _ hx
        simp [this]
      simp [List.all_cons, hrest]
    · simp only [GoMap.lookup, ha, if_false] at hl
      have hk : ¬ k = a := fun e => ha e.symm
      simp [List.all_cons, hk, ih hnd.2 hl]

theorem GoMap.all_key_of_lookup_none {K V : Type} [DecidableEq K] (g : V → Bool)
    (m : GoMap K V) (k : K) (hl : GoMap.lookup m k = none) :
    m.all (fun x => !g x.2 || !decide (k = x.1)) = true := by
  induction m with
  | nil => rfl
  | cons e m ih =>
    obtain ⟨a, b⟩ := e
    by_cases ha : a = k
    · simp [GoMap.lookup, ha] at hl
    · simp only [GoMap.lookup, ha, if_false] at hl
      have hk : ¬ k = a := fun e => ha e.symm
      simp [List.all_cons, hk, ih hl]

theorem cleanupLoop_lookup (now : Nat) (m : GoMap Hash Nat) (hwf : GoMap.WF m) (k : Hash) :
    GoMap.lookup (cleanupLoop now m m) k =
      match GoMap.lookup m k with
      | none => none
      | some v =>
        if ageMillis now v > REBROADCAST_CLEANUP_MILLI_SECONDS then none else some v := by
  rw [cleanupLoop_eq_filter]
  rw [GoMap.lookup_filter_key (fun key => m.all (fun x =>
    !decide (ageMillis now x.2 > REBROADCAST_CLEANUP_MILLI_SECONDS) || !decide (key = x.1)))]
  cases hl : GoMap.lookup m k with
  | none => simp
  | some v =>
    rw [GoMap.all_key_of_lookup
      (fun w => decide (ageMillis now w > REBROADCAST_CLEANUP_MILLI_SECONDS)) m hwf k v hl]
    by_cases hs : ageMillis now v > REBROADCAST_CLEANUP_MILLI_SECONDS <;> simp [hs]

theorem cleanupLoop_WF (now : Nat) (m : GoMap Hash Nat) (hwf : GoMap.WF m) :
    GoMap.WF (cleanupLoop now m m) := by
  rw [cleanupLoop_eq_filter]
  exact GoMap.WF_filter m _ hwf

theorem ageMillis_self (now : Nat) : ageMillis now now = 0 := by
  simp [ageMillis]

theorem ShouldRebroadcast_WF (now : Nat) (h : RebroadcastCache) (packetHash : Hash)
    (hwf : GoMap.WF h.rebroadcastMap) :
    GoMap.WF (ShouldRebroadcastIfYesSetFlag now h packetHash).1.rebroadcastMap := by
  unfold ShouldRebroadcastIfYesSetFlag
  split
  · dsimp only
    split
    · exact cleanupLoop_WF now _ (GoMap.WF_insert _ _ _ hwf)
    · exact GoMap.WF_insert _ _ _ hwf
  · split
    · exact GoMap.WF_insert _ _ _ hwf
    · exact hwf

theorem ShouldRebroadcast_true_lookup (now : Nat) (h : RebroadcastCache) (packetHash : Hash)
    (hwf : GoMap.WF h.rebroadcastMap)
    (ht : (ShouldRebroadcastIfYesSetFlag now h packetHash).2 = true) :
    GoMap.lookup (ShouldRebroadcastIfYesSetFlag now h packetHash).1.rebroadcastMap packetHash =
      some now := by
  unfold ShouldRebroadcastIfYesSetFlag at ht ⊢
  split
  · dsimp only
    split
    · dsimp only
      rw [cleanupLoop_lookup now _ (GoMap.WF_insert _ _ _ hwf), GoMap.lookup_insert_self]
      simp [ageMillis_self, REBROADCAST_CLEANUP_MILLI_SECONDS]
    · exact GoMap.lookup_insert_self _ _ _
  · rename_i last hl
    rw [hl] at ht
    dsimp only at ht
    split
    · exact GoMap.lookup_insert_self _ _ _
    · rename_i hn
      simp [hn] at ht

theorem ShouldRebroadcast_present (now : Nat) (h : RebroadcastCache) (packetHash : Hash)
    (last : Nat) (hl : GoMap.lookup h.rebroadcastMap packetHash = some last) :
    ShouldRebroadcastIfYesSetFlag now h packetHash =
      if ageMillis now last > REBROADCAST_MIN_DELAY_PACKET_HASH then
        ({ h with rebroadcastMap := h.rebroadcastMap.insert packetHash now }, true)
      else (h, false) := by
  unfold ShouldRebroadcastIfYesSetFlag
  rw [hl]

theorem ShouldRebroadcast_absent (now : Nat) (h : RebroadcastCache) (packetHash : Hash)
    (hl : GoMap.lookup h.rebroadcastMap packetHash = none) :
    ShouldRebroadcastIfYesSetFlag now h packetHash =
      (if Elapsed now h.rebroadcastLastCleanupTime > REBROADCAST_CLEANUP_TIMER_MILLI_SECONDS then
        { rebroadcastMap :=
            cleanupLoop now (h.rebroadcastMap.insert packetHash now)
              (h.rebroadcastMap.insert packetHash now),
          rebroadcastLastCleanupTime := now }
      else { h with rebroadcastMap := h.rebroadcastMap.insert packetHash now }, true) := by
  unfold ShouldRebroadcastIfYesSetFlag
  rw [hl]

theorem ShouldRebroadcast_other (now : Nat) (h : RebroadcastCache) (packetHash k : Hash)
    (hwf : GoMap.WF h.rebroadcastMap) (hk : k ≠ packetHash) :
    GoMap.lookup (ShouldRebroadcastIfYesSetFlag now h packetHash).1.rebroadcastMap k =
        GoMap.lookup h.rebroadcastMap k ∨
      (GoMap.lookup (ShouldRebroadcastIfYesSetFlag now h packetHash).1.rebroadcastMap k = none ∧
        ∃ v, GoMap.lookup h.rebroadcastMap k = some v ∧
          ageMillis now v > REBROADCAST_CLEANUP_MILLI_SECONDS) := by
  have hk' : ¬ packetHash = k := fun e => hk e.symm
  have hins : GoMap.lookup (h.rebroadcastMap.insert packetHash now) k =
      GoMap.lookup h.rebroadcastMap k := by
    rw [GoMap.lookup_insert]
    simp [hk']
  cases hl : GoMap.lookup h.rebroadcastMap packetHash with
  | none =>
    rw [ShouldRebroadcast_absent now h packetHash hl]
    dsimp only
    split
    · dsimp only
      rw [cleanupLoop_lookup now _ (GoMap.WF_insert _ _ _ hwf), hins]
      cases hv : GoMap.lookup h.rebroadcastMap k with
      | none => left; rfl
      | some v =>
        by_cases hs : ageMillis now v > REBROADCAST_CLEANUP_MILLI_SECONDS
        · right
          simp [hs]
        · left
          simp [hs]
    · left
      exact hins
  | some last =>
    rw [ShouldRebroadcast_present now h packetHash last hl]
    split
    · left
      exact hins
    · left
      rfl
theorem ageMillis_trans (t w v : Nat) (h1 : ageMillis t w > REBROADCAST_MIN_DELAY_PACKET_HASH)
    (h2 : ageMillis w v ≥ 0) : ageMillis t v > REBROADCAST_MIN_DELAY_PACKET_HASH := by
  simp only [ageMillis, Millisecond, REBROADCAST_MIN_DELAY_PACKET_HASH] at *
  omega

theorem ageMillis_mono (lo t v : Nat) (h : lo ≤ t) : ageMillis lo v ≤ ageMillis t v := by
  simp only [ageMillis, Millisecond]
  have := Nat.div_le_div_right (c := 1000000) h
  omega

/-- The invariant of the throttling argument, for the hash `k` and a true result at
the stamp `v`: either `k` is bound to a stamp not older than `v`, or `k` is unbound
and the clock reading `lo` is more than the minimum delay after `v`. -/
theorem throttle_tail (k : Hash) (v : Nat) :
    ∀ (calls : List (Hash × Nat)) (h : RebroadcastCache) (lo : Nat),
      GoMap.WF h.rebroadcastMap →
      ((∃ w, GoMap.lookup h.rebroadcastMap k = some w ∧ ageMillis w v ≥ 0) ∨
        (GoMap.lookup h.rebroadcastMap k = none ∧
          ageMillis lo v > REBROADCAST_MIN_DELAY_PACKET_HASH)) →
      (∀ c, c ∈ calls → lo ≤ c.2) →
      calls.Pairwise (fun a b => a.2 ≤ b.2) →
      ∀ (j : Nat) (tj : Nat), calls[j]? = some (k, tj) →
        (rebroadcastRun h calls)[j]? = some true →
        ageMillis tj v > REBROADCAST_MIN_DELAY_PACKET_HASH := by
  intro calls
  induction calls with
  | nil => intro h lo _ _ _ _ j tj hj; simp at hj
  | cons c rest ih =>
    intro h lo hwf hinv hlo hsorted j tj hj hr
    obtain ⟨k', t⟩ := c
    have hlt : lo ≤ t := hlo (k', t) (List.mem_cons_self _ _)
    have hsorted' := List.pairwise_cons.mp hsorted
    -- a true result for `k` at this call is late enough
    have hnow : k' = k → (ShouldRebroadcastIfYesSetFlag t h k').2 = true →
        ageMillis t v > REBROADCAST_MIN_DELAY_PACKET_HASH := by
      intro hk ht
      subst hk
      rcases hinv with ⟨w, hw, hwv⟩ | ⟨hnone, hgt⟩
      · rw [ShouldRebroadcast_present t h k' w hw] at ht
        by_cases hs : ageMillis t w > REBROADCAST_MIN_DELAY_PACKET_HASH
        · exact ageMillis_trans t w v hs hwv
        · simp [hs] at ht
      · exact lt_of_lt_of_le hgt (ageMillis_mono lo t v hlt)
    cases j with
    | zero =>
      simp only [List.getElem?_cons_zero, Option.some.injEq, Prod.mk.injEq] at hj
      obtain ⟨hk, ht⟩ := hj
      subst ht
      simp only [rebroadcastRun, List.getElem?_cons_zero, Option.some.injEq] at hr
      exact hnow hk hr
    | succ j =>
      simp only [List.getElem?_cons_succ] at hj
      simp only [rebroadcastRun, List.getElem?_cons_succ] at hr
      refine ih (ShouldRebroadcastIfYesSetFlag t h k').1 t
        (ShouldRebroadcast_WF t h k' hwf) ?_ (fun c hc => hsorted'.1 c hc) hsorted'.2 j tj hj hr
      by_cases hk : k' = k
      · cases hb : (ShouldRebroadcastIfYesSetFlag t h k').2 with
        | true =>
          left
          refine ⟨t, ?_, ?_⟩
          · rw [← hk]
            exact ShouldRebroadcast_true_lookup t h k' hwf hb
          · have := hnow hk hb
            simp only [REBROADCAST_MIN_DELAY_PACKET_HASH] at this
            omega
        | false =>
          rcases hinv with ⟨w, hw, hwv⟩ | ⟨hnone, _⟩
          · left
            rw [← hk] at hw
            rw [ShouldRebroadcast_present t h k' w hw] at hb ⊢
            by_cases hs : ageMillis t w > REBROADCAST_MIN_DELAY_PACKET_HASH
            · simp [hs] at hb
            · simp only [hs, if_false]
              rw [hk] at hw
              exact ⟨w, hw, hwv⟩
          · rw [← hk] at hnone
            rw [ShouldRebroadcast_absent t h k' hnone] at hb
            simp at hb
      · have hk' : k ≠ k' := fun e => hk e.symm
        rcases ShouldRebroadcast_other t h k' k hwf hk' with hsame | ⟨hnone, w, hw, hold⟩
        · rw [hsame]
          rcases hinv with hsome | ⟨hnone, hgt⟩
          · exact Or.inl hsome
          · exact Or.inr ⟨hnone, lt_of_lt_of_le hgt (ageMillis_mono lo t v hlt)⟩
        · right
          refine ⟨hnone, ?_⟩
          rcases hinv with ⟨w', hw', hwv⟩ | ⟨hnone', _⟩
          · rw [hw] at hw'
            cases hw'
            simp only [ageMillis, Millisecond, REBROADCAST_MIN_DELAY_PACKET_HASH,
              REBROADCAST_CLEANUP_MILLI_SECONDS] at *
            omega
          · rw [hw] at hnone'
            cases hnone'

theorem throttle_pair :
    ∀ (calls : List (Hash × Nat)) (h : RebroadcastCache),
      GoMap.WF h.rebroadcastMap →
      calls.Pairwise (fun a b => a.2 ≤ b.2) →
      ∀ (k : Hash) (i j ti tj : Nat), i < j →
        calls[i]? = some (k, ti) → calls[j]? = some (k, tj) →
        (rebroadcastRun h calls)[i]? = some true →
        (rebroadcastRun h calls)[j]? = some true →
        ti + 30000 * 1000000 < tj := by
  intro calls
  induction calls with
  | nil => intro h _ _ k i j ti tj _ hi; simp at hi
  | cons c rest ih =>
    intro h hwf hsorted k i j ti tj hij hi hj ri rj
    obtain ⟨k', t⟩ := c
    have hsorted' := List.pairwise_cons.mp hsorted
    cases j with
    | zero => exact absurd hij (Nat.not_lt_zero _)
    | succ j =>
      simp only [List.getElem?_cons_succ] at hj
      simp only [rebroadcastRun, List.getElem?_cons_succ] at rj
      cases i with
      | zero =>
        simp only [List.getElem?_cons_zero, Option.some.injEq, Prod.mk.injEq] at hi
        obtain ⟨hk, ht⟩ := hi
        subst hk ht
        simp only [rebroadcastRun, List.getElem?_cons_zero, Option.some.injEq] at ri
        have := throttle_tail k' t rest (ShouldRebroadcastIfYesSetFlag t h k').1 t
          (ShouldRebroadcast_WF t h k' hwf)
          (Or.inl ⟨t, ShouldRebroadcast_true_lookup t h k' hwf ri, by simp [ageMillis_self]⟩)
          (fun c hc => hsorted'.1 c hc) hsorted'.2 j tj hj rj
        simp only [ageMillis, Millisecond, REBROADCAST_MIN_DELAY_PACKET_HASH] at this
        omega
      | succ i =>
        simp only [List.getElem?_cons_succ] at hi
        simp only [rebroadcastRun, List.getElem?_cons_succ] at ri
        exact ih (ShouldRebroadcastIfYesSetFlag t h k').1 (ShouldRebroadcast_WF t h k' hwf)
          hsorted'.2 k i j ti tj (Nat.lt_of_succ_lt_succ hij) hi hj ri rj
theorem GoMap.all_key_insert_of_lookup_none {K V : Type} [DecidableEq K] (g : V → Bool)
    (m : GoMap K V) (k : K) (v : V) (hl : GoMap.lookup m k = none) :
    (GoMap.insert m k v).all (fun x => !g x.2 || !decide (k = x.1)) = !g v := by
  induction m with
  | nil => simp [GoMap.insert]
  | cons e m ih =>
    obtain ⟨a, b⟩ := e
    by_cases ha : a = k
    · simp [GoMap.lookup, ha] at hl
    · simp only [GoMap.lookup, ha, if_false] at hl
      have hk : ¬ k = a := fun e => ha e.symm
      simp [GoMap.insert, ha, List.all_cons, hk, ih hl]

theorem GoMap.mem_insert_of_ne {K V : Type} [DecidableEq K] (m : GoMap K V) (k : K) (v : V)
    (e : K × V) (he : e ∈ m) (hk : e.1 ≠ k) : e ∈ GoMap.insert m k v := by
  induction m with
  | nil => simp at he
  | cons x m ih =>
    obtain ⟨a, b⟩ := x
    by_cases ha : a = k
    · subst ha
      rcases List.mem_cons.mp he with rfl | he
      · exact absurd rfl hk
      · simp [GoMap.insert, he]
    · rcases List.mem_cons.mp he with rfl | he
      · simp [GoMap.insert, ha]
      · simp [GoMap.insert, ha, ih he]

theorem ShouldRebroadcast_absent_lookup (now : Nat) (h : RebroadcastCache) (packetHash : Hash)
    (hl : GoMap.lookup h.rebroadcastMap packetHash = none) :
    GoMap.lookup (ShouldRebroadcastIfYesSetFlag now h packetHash).1.rebroadcastMap packetHash =
      some now := by
  rw [ShouldRebroadcast_absent now h packetHash hl]
  dsimp only
  split
  · dsimp only
    rw [cleanupLoop_eq_filter]
    rw [GoMap.lookup_filter_key (fun key => (h.rebroadcastMap.insert packetHash now).all
      (fun x => !decide (ageMillis now x.2 > REBROADCAST_CLEANUP_MILLI_SECONDS) ||
        !decide (key = x.1)))]
    rw [GoMap.all_key_insert_of_lookup_none
      (fun w => decide (ageMillis now w > REBROADCAST_CLEANUP_MILLI_SECONDS)) _ _ _ hl]
    simp [ageMillis_self, REBROADCAST_CLEANUP_MILLI_SECONDS, GoMap.lookup_insert_self]
  · exact GoMap.lookup_insert_self _ _ _

theorem cleanupLoop_mem (now : Nat) (m : GoMap Hash Nat) (e : Hash × Nat)
    (he : e ∈ cleanupLoop now m m) :
    ageMillis now e.2 ≤ REBROADCAST_CLEANUP_MILLI_SECONDS := by
  rw [cleanupLoop_eq_filter] at he
  obtain ⟨hm, hp⟩ := List.mem_filter.mp he
  have := List.all_eq_true.mp hp e hm
  simp only [decide_True, Bool.not_true, Bool.or_false, Bool.not_eq_true',
    decide_eq_false_iff_not, not_lt] at this
  exact this

/-! ## The dial scheduler -/

theorem GoMap.len_insert_le {K V : Type} [DecidableEq K] (m : GoMap K V) (k : K) (v : V) :
    GoMap.len (GoMap.insert m k v) ≤ GoMap.len m + 1 := by
  induction m with
  | nil => simp [GoMap.insert, GoMap.len]
  | cons e m ih =>
    obtain ⟨a, b⟩ := e
    by_cases ha : a = k
    · simp [GoMap.insert, GoMap.len, ha]
    · simp only [GoMap.len] at ih
      simp [GoMap.insert, GoMap.len, ha]
      omega

theorem GoMap.len_erase_le {K V : Type} [DecidableEq K] (m : GoMap K V) (k : K) :
    GoMap.len (GoMap.erase m k) ≤ GoMap.len m := by
  unfold GoMap.len GoMap.erase
  exact List.length_filter_le _ _

theorem setStaticPoolIndex_fields (d d' : dialScheduler) (task : Nat) (i : Int)
    (h : setStaticPoolIndex d task i = some d') :
    d'.dialing = d.dialing ∧ d'.peers = d.peers ∧ d'.dialPeers = d.dialPeers ∧
      d'.static = d.static ∧ d'.staticPool = d.staticPool ∧ d'.history = d.history := by
  unfold setStaticPoolIndex at h
  split at h
  · cases h
  · cases h
    exact ⟨rfl, rfl, rfl, rfl, rfl, rfl⟩

theorem addToStaticPool_fields (d d' : dialScheduler) (task : Nat)
    (h : addToStaticPool d task = some d') :
    d'.dialing = d.dialing ∧ d'.peers = d.peers ∧ d'.dialPeers = d.dialPeers ∧
      d'.static = d.static ∧ d'.history = d.history := by
  unfold addToStaticPool at h
  split at h
  · cases h
  · split at h
    · cases h
    · obtain ⟨a, b, c, e, _, g⟩ := setStaticPoolIndex_fields _ _ _ _ h
      exact ⟨a, b, c, e, g⟩

theorem setStaticPoolIndex_spec (d d' : dialScheduler) (task : Nat) (i : Int)
    (h : setStaticPoolIndex d task i = some d') :
    ∃ t, d.tasks[task]? = some t ∧
      d' = { d with tasks := d.tasks.set task { t with staticPoolIndex := i } } := by
  unfold setStaticPoolIndex at h
  split at h
  · cases h
  · rename_i t ht
    cases h
    exact ⟨t, ht, rfl⟩

theorem removeFromStaticPool_spec (d d' : dialScheduler) (idx : Int)
    (h : removeFromStaticPool d idx = some d') :
    0 ≤ idx ∧ ∃ task last d2,
      d.staticPool[idx.toNat]? = some task ∧
      d.staticPool[d.staticPool.length - 1]? = some last ∧
      setStaticPoolIndex { d with staticPool := d.staticPool.set idx.toNat last } last idx =
        some d2 ∧
      setStaticPoolIndex
          { d2 with staticPool := d2.staticPool.take (d.staticPool.length - 1) } task (-1) =
        some d' := by
  unfold removeFromStaticPool at h
  split at h
  · cases h
  · rename_i hidx
    split at h
    · cases h
    · rename_i task htask
      dsimp only at h
      split at h
      · cases h
      · rename_i last hlast
        split at h
        · cases h
        · rename_i d2 h2
          exact ⟨not_lt.mp hidx, task, last, d2, htask, hlast, h2, h⟩

theorem removeFromStaticPool_fields (d d' : dialScheduler) (idx : Int)
    (h : removeFromStaticPool d idx = some d') :
    d'.dialing = d.dialing ∧ d'.peers = d.peers ∧ d'.dialPeers = d.dialPeers ∧
      d'.static = d.static ∧ d'.history = d.history := by
  obtain ⟨_, task, last, d2, _, _, h2, h3⟩ := removeFromStaticPool_spec d d' idx h
  obtain ⟨a, b, c, e, _, g⟩ := setStaticPoolIndex_fields _ _ _ _ h2
  obtain ⟨a', b', c', e', _, g'⟩ := setStaticPoolIndex_fields _ _ _ _ h3
  exact ⟨a'.trans a, b'.trans b, c'.trans c, e'.trans e, g'.trans g⟩

theorem updateStaticPool_fields (cfg : dialConfig) (d d' : dialScheduler) (id : NodeID)
    (h : updateStaticPool cfg d id = some d') :
    d'.dialing = d.dialing ∧ d'.peers = d.peers ∧ d'.dialPeers = d.dialPeers ∧
      d'.static = d.static ∧ d'.history = d.history := by
  unfold updateStaticPool at h
  split at h
  · cases h
    exact ⟨rfl, rfl, rfl, rfl, rfl⟩
  · split at h
    · cases h
    · split at h
      · exact addToStaticPool_fields _ _ _ h
      · cases h
        exact ⟨rfl, rfl, rfl, rfl, rfl⟩

theorem startDial_fields (cfg : dialConfig) (d d' : dialScheduler) (now task : Nat)
    (s : dialStart) (h : startDial cfg d now task = some (d', s)) :
    ∃ t, d.tasks[task]? = some t ∧ s = { time := now, id := t.dest.id, task := task } ∧
      d'.dialing = d.dialing.insert t.dest.id task ∧ d'.peers = d.peers ∧
      d'.dialPeers = d.dialPeers ∧ d'.static = d.static ∧ d'.staticPool = d.staticPool ∧
      d'.tasks = d.tasks ∧
      d'.history = d.history.add t.dest.id (now + cfg.dialHistoryExpiration) := by
  unfold startDial at h
  split at h
  · cases h
  · rename_i t ht
    simp only [Option.some.injEq, Prod.mk.injEq] at h
    obtain ⟨h1, h2⟩ := h
    subst h1 h2
    exact ⟨t, ht, rfl, rfl, rfl, rfl, rfl, rfl, rfl, rfl⟩

theorem expireHistoryLoop_fields (cfg : dialConfig) (now : Nat) :
    ∀ (fuel : Nat) (d d' : dialScheduler), expireHistoryLoop cfg now fuel d = some d' →
      d'.dialing = d.dialing ∧ d'.peers = d.peers ∧ d'.dialPeers = d.dialPeers ∧
        d'.static = d.static := by
  intro fuel
  induction fuel with
  | zero =>
    intro d d' h
    unfold expireHistoryLoop at h
    split at h
    · cases h
      exact ⟨rfl, rfl, rfl, rfl⟩
    · split at h
      · cases h
      · cases h
        exact ⟨rfl, rfl, rfl, rfl⟩
  | succ fuel ih =>
    intro d d' h
    unfold expireHistoryLoop at h
    split at h
    · cases h
      exact ⟨rfl, rfl, rfl, rfl⟩
    · split at h
      · split at h
        · cases h
        · rename_i d1 h1
          obtain ⟨a, b, c, e, _⟩ := updateStaticPool_fields cfg _ _ _ h1
          obtain ⟨a', b', c', e'⟩ := ih d1 d' h
          exact ⟨a'.trans a, b'.trans b, c'.trans c, e'.trans e⟩
      · cases h
        exact ⟨rfl, rfl, rfl, rfl⟩

theorem startStaticDialsLoop_facts (cfg : dialConfig) (now : Nat) (n : Int) :
    ∀ (fuel : Nat) (d : dialScheduler) (started : Int) (rnd : List Nat) (log : List dialStart)
      (d' : dialScheduler) (started' : Int) (log' : List dialStart),
      startStaticDialsLoop cfg now n fuel d started rnd log = some (d', started', log') →
        started ≤ started' ∧ (started ≤ n → started' ≤ n) ∧
        (n ≤ started → d' = d ∧ started' = started ∧ log' = log) ∧
        (d'.dialing.len : Int) - started' ≤ (d.dialing.len : Int) - started ∧
        d'.dialPeers = d.dialPeers ∧ d'.peers = d.peers ∧
        (started' < n → d'.staticPool = []) := by
  intro fuel
  induction fuel with
  | zero =>
    intro d started rnd log d' started' log' h
    unfold startStaticDialsLoop at h
    split at h
    · cases h
    · rename_i hc
      simp only [Option.some.injEq, Prod.mk.injEq] at h
      obtain ⟨h1, h2, h3⟩ := h
      subst h1 h2 h3
      refine ⟨le_refl _, fun a => a, fun _ => ⟨rfl, rfl, rfl⟩, le_refl _, rfl, rfl, ?_⟩
      intro hlt
      by_contra hne
      exact hc ⟨hlt, List.length_pos.mpr hne⟩
  | succ fuel ih =>
    intro d started rnd log d' started' log' h
    unfold startStaticDialsLoop at h
    split at h
    · rename_i hc
      dsimp only at h
      split at h
      · cases h
      · rename_i task _
        split at h
        · cases h
        · rename_i d1 s hs
          split at h
          · cases h
          · rename_i d2 hr
            obtain ⟨t, _, _, hdial, hpeers, hdp, _, _, _, _⟩ := startDial_fields cfg _ _ _ _ _ hs
            obtain ⟨rdial, rpeers, rdp, _, _⟩ := removeFromStaticPool_fields _ _ _ hr
            obtain ⟨a1, a2, _, a4, a5, a6, a7⟩ := ih d2 (started + 1) rnd.tail (log ++ [s]) d'
              started' log' h
            have hlen : (d2.dialing.len : Int) ≤ (d.dialing.len : Int) + 1 := by
              rw [rdial, hdial]
              have := GoMap.len_insert_le d.dialing t.dest.id task
              omega
            refine ⟨by omega, fun _ => a2 (by omega), fun hn => absurd hc.1 (by omega),
              by omega, a5.trans (rdp.trans hdp), a6.trans (rpeers.trans hpeers), a7⟩
    · rename_i hc
      simp only [Option.some.injEq, Prod.mk.injEq] at h
      obtain ⟨h1, h2, h3⟩ := h
      subst h1 h2 h3
      refine ⟨le_refl _, fun a => a, fun _ => ⟨rfl, rfl, rfl⟩, le_refl _, rfl, rfl, ?_⟩
      intro hlt
      by_contra hne
      exact hc ⟨hlt, List.length_pos.mpr hne⟩
theorem handleDialEvent_facts (cfg : dialConfig) (d d' : dialScheduler) (now : Nat)
    (nodesChOpen : Bool) (ev : dialEvent) (log : List dialStart)
    (h : handleDialEvent cfg d now nodesChOpen ev = some (d', log)) :
    (d'.dialing.len : Int) ≤ (d.dialing.len : Int) + (if nodesChOpen = true then 1 else 0) ∧
      (nodesChOpen = false → log = []) ∧
      d'.dialPeers = d.dialPeers + dialPeersDelta ev := by
  cases ev with
  | node n =>
    simp only [handleDialEvent] at h
    split at h
    · rename_i hopen
      cases h
      simp [hopen, dialPeersDelta]
    · rename_i hopen
      have hopen' : nodesChOpen = true := by simpa using hopen
      split at h
      · cases h
        simp [hopen', dialPeersDelta]
      · split at h
        · cases h
        · rename_i d2 s hs
          cases h
          obtain ⟨t, _, _, hdial, _, hdp, _, _, _, _⟩ := startDial_fields cfg _ _ _ _ _ hs
          have := GoMap.len_insert_le d.dialing t.dest.id d.tasks.length
          refine ⟨?_, fun e => by simp [hopen'] at e, by simp [hdp, dialPeersDelta]⟩
          rw [hdial]
          simp only [hopen', if_true]
          exact_mod_cast this
  | done task =>
    simp only [handleDialEvent] at h
    split at h
    · cases h
    · rename_i t _
      split at h
      · cases h
      · rename_i d2 h2
        cases h
        obtain ⟨a, _, c, _, _⟩ := updateStaticPool_fields cfg _ _ _ h2
        have := GoMap.len_erase_le d.dialing t.dest.id
        refine ⟨?_, fun _ => rfl, by simp [c, dialPeersDelta]⟩
        show ((d2.dialing.len : Nat) : Int) ≤ _
        rw [a]
        dsimp only
        split <;> omega
  | addPeer c =>
    simp only [handleDialEvent] at h
    have key : ∀ dx : dialScheduler,
        dx.dialing = d.dialing → dx.dialPeers = d.dialPeers + dialPeersDelta (dialEvent.addPeer c) →
        (dx.dialing.len : Int) ≤ (d.dialing.len : Int) + (if nodesChOpen = true then 1 else 0) ∧
          dx.dialPeers = d.dialPeers + dialPeersDelta (dialEvent.addPeer c) := by
      intro dx h1 h2
      rw [h1]
      refine ⟨?_, h2⟩
      split <;> omega
    have hbase : (if c.is dynDialedConn = true ∨ c.is staticDialedConn = true then
          ({ d with dialPeers := d.dialPeers + 1 } : dialScheduler) else d).dialPeers =
        d.dialPeers + dialPeersDelta (dialEvent.addPeer c) := by
      simp only [dialPeersDelta]
      split <;> simp
    have hbase2 : (if c.is dynDialedConn = true ∨ c.is staticDialedConn = true then
          ({ d with dialPeers := d.dialPeers + 1 } : dialScheduler) else d).dialing =
        d.dialing := by
      split <;> rfl
    split at h
    · cases h
      obtain ⟨a, b⟩ := key _ hbase2 hbase
      exact ⟨a, fun _ => rfl, b⟩
    · split at h
      · cases h
      · split at h
        · split at h
          · cases h
          · rename_i d3 h3
            cases h
            obtain ⟨a, _, c', _, _⟩ := removeFromStaticPool_fields _ _ _ h3
            obtain ⟨x, y⟩ := key d' (a.trans hbase2) (c'.trans hbase)
            exact ⟨x, fun _ => rfl, y⟩
        · cases h
          obtain ⟨a, b⟩ := key _ hbase2 hbase
          exact ⟨a, fun _ => rfl, b⟩
  | remPeer c =>
    simp only [handleDialEvent] at h
    have hbase : (if c.is dynDialedConn = true ∨ c.is staticDialedConn = true then
          ({ d with dialPeers := d.dialPeers - 1 } : dialScheduler) else d).dialPeers =
        d.dialPeers + dialPeersDelta (dialEvent.remPeer c) := by
      simp only [dialPeersDelta]
      split <;> simp
      omega
    have hbase2 : (if c.is dynDialedConn = true ∨ c.is staticDialedConn = true then
          ({ d with dialPeers := d.dialPeers - 1 } : dialScheduler) else d).dialing =
        d.dialing := by
      split <;> rfl
    split at h
    · cases h
    · rename_i d3 h3
      cases h
      obtain ⟨a, _, c', _, _⟩ := updateStaticPool_fields cfg _ _ _ h3
      refine ⟨?_, fun _ => rfl, c'.trans hbase⟩
      rw [a]
      show ((GoMap.len _ : Nat) : Int) ≤ _
      rw [hbase2]
      split <;> omega
  | addStatic n =>
    simp only [handleDialEvent] at h
    split at h
    · cases h
      refine ⟨?_, fun _ => rfl, by simp [dialPeersDelta]⟩
      split <;> omega
    · split at h
      · split at h
        · cases h
        · rename_i d2 h2
          cases h
          obtain ⟨a, _, c', _, _⟩ := addToStaticPool_fields _ _ _ h2
          refine ⟨?_, fun _ => rfl, by simp [c', dialPeersDelta]⟩
          rw [a]
          split <;> simp
      · cases h
        refine ⟨?_, fun _ => rfl, by simp [dialPeersDelta]⟩
        split <;> simp
  | remStatic n =>
    simp only [handleDialEvent] at h
    split at h
    · cases h
      refine ⟨?_, fun _ => rfl, by simp [dialPeersDelta]⟩
      split <;> omega
    · split at h
      · cases h
      · split at h
        · split at h
          · cases h
          · rename_i d2 h2
            cases h
            obtain ⟨a, _, c', _, _⟩ := removeFromStaticPool_fields _ _ _ h2
            refine ⟨?_, fun _ => rfl, by simp [c', dialPeersDelta]⟩
            rw [a]
            split <;> simp
        · cases h
          refine ⟨?_, fun _ => rfl, by simp [dialPeersDelta]⟩
          split <;> simp
  | historyExp =>
    simp only [handleDialEvent] at h
    split at h
    · cases h
    · rename_i d1 h1
      cases h
      obtain ⟨a, _, c', _⟩ := expireHistoryLoop_fields cfg now _ _ _ h1
      refine ⟨?_, fun _ => rfl, by simp [c', dialPeersDelta]⟩
      rw [a]
      split <;> omega

theorem dialLoopPass_facts (cfg : dialConfig) (d d' : dialScheduler) (p : dialPass)
    (log : List dialStart) (h : dialLoopPass cfg d p = some (d', log)) :
    ((d.dialing.len : Int) ≤ cfg.maxActiveDials → (d'.dialing.len : Int) ≤ cfg.maxActiveDials) ∧
      d'.dialPeers = d.dialPeers + dialPeersDelta p.ev ∧
      (cfg.maxDialPeers ≤ d.dialPeers → log = []) := by
  unfold dialLoopPass at h
  dsimp only at h
  split at h
  · cases h
  · rename_i d1 started log1 hs
    split at h
    · cases h
    · rename_i d2 log2 he
      simp only [Option.some.injEq, Prod.mk.injEq] at h
      obtain ⟨h1, h2⟩ := h
      subst h1 h2
      unfold startStaticDials at hs
      obtain ⟨s1, s2, s3, s4, s5, _, _⟩ := startStaticDialsLoop_facts cfg p.now _ _ _ _ _ _ _ _ _ hs
      obtain ⟨e1, e2, e3⟩ := handleDialEvent_facts cfg _ _ _ _ _ _ he
      have hfree : freeDialSlots cfg d + (d.dialing.len : Int) ≤ cfg.maxActiveDials := by
        unfold freeDialSlots
        dsimp only
        split <;> omega
      refine ⟨?_, by rw [e3, s5], ?_⟩
      · intro hinv
        by_cases hpos : 0 ≤ freeDialSlots cfg d
        · have hst := s2 hpos
          by_cases hopen : freeDialSlots cfg d - started > 0
          · simp only [hopen, decide_True, if_true] at e1
            omega
          · simp only [hopen, decide_False] at e1
            simp only [Bool.false_eq_true, if_false] at e1
            omega
        · obtain ⟨hd, hst, _⟩ := s3 (by omega)
          have hopen : ¬ freeDialSlots cfg d - started > 0 := by omega
          simp only [hopen, decide_False, Bool.false_eq_true, if_false] at e1
          rw [hd] at e1
          omega
      · intro hmax
        have hfree0 : freeDialSlots cfg d ≤ 0 := by
          unfold freeDialSlots
          dsimp only
          have : (0 : Int) ≤ (d.dialing.len : Int) := Int.ofNat_nonneg _
          split <;> omega
        obtain ⟨_, hst, hlog⟩ := s3 (by omega)
        have hopen : ¬ freeDialSlots cfg d - started > 0 := by omega
        have := e2 (by simp [hopen])
        rw [hlog, this]
        rfl
theorem dialRun_dialing_bound (cfg : dialConfig) :
    ∀ (passes : List dialPass) (d d' : dialScheduler) (log : List dialStart),
      (d.dialing.len : Int) ≤ cfg.maxActiveDials →
      dialRun cfg d passes = some (d', log) →
      (d'.dialing.len : Int) ≤ cfg.maxActiveDials := by
  intro passes
  induction passes with
  | nil =>
    intro d d' log hd h
    simp only [dialRun, Option.some.injEq, Prod.mk.injEq] at h
    rw [← h.1]
    exact hd
  | cons p rest ih =>
    intro d d' log hd h
    unfold dialRun at h
    split at h
    · cases h
    · rename_i d1 log1 h1
      split at h
      · cases h
      · rename_i d2 log2 h2
        simp only [Option.some.injEq, Prod.mk.injEq] at h
        rw [← h.1]
        exact ih d1 d2 log2 ((dialLoopPass_facts cfg d d1 p log1 h1).1 hd) h2

/-! ## The dial history -/

theorem setStaticPoolIndex_tasks (d d' : dialScheduler) (task : Nat) (i : Int)
    (h : setStaticPoolIndex d task i = some d') :
    taskIds d' = taskIds d ∧ d'.staticPool = d.staticPool ∧ d'.static = d.static ∧
      d'.history = d.history ∧
      (∀ r, r ≠ task → d'.tasks[r]? = d.tasks[r]?) ∧
      ∃ t, d.tasks[task]? = some t ∧ d'.tasks[task]? = some { t with staticPoolIndex := i } := by
  obtain ⟨t, ht, hd⟩ := setStaticPoolIndex_spec d d' task i h
  subst hd
  have hlt : task < d.tasks.length := (List.getElem?_eq_some.mp ht).1
  refine ⟨?_, rfl, rfl, rfl, ?_, t, ht, ?_⟩
  · unfold taskIds
    dsimp only
    rw [List.map_set]
    apply List.ext_getElem?
    intro n
    rw [List.getElem?_set]
    by_cases hn : task = n
    · subst hn
      obtain ⟨_, hget⟩ := List.getElem?_eq_some.mp ht
      simp [hlt, ← hget]
    · simp [hn]
  · intro r hr
    dsimp only
    rw [List.getElem?_set_ne (Ne.symm hr)]
  · dsimp only
    rw [List.getElem?_set_self hlt]

theorem PoolIndexed_inj (d : dialScheduler) (hI : PoolIndexed d) (i j r : Nat)
    (hi : d.staticPool[i]? = some r) (hj : d.staticPool[j]? = some r) : i = j := by
  obtain ⟨t, ht, hti⟩ := hI i r hi
  obtain ⟨t', ht', htj⟩ := hI j r hj
  rw [ht] at ht'
  cases ht'
  rw [hti] at htj
  exact_mod_cast htj

theorem addToStaticPool_inv (d d' : dialScheduler) (task : Nat)
    (h : addToStaticPool d task = some d') (hI : PoolIndexed d) :
    PoolIndexed d' ∧ d'.staticPool = d.staticPool ++ [task] ∧ taskIds d' = taskIds d ∧
      d'.static = d.static ∧ d'.history = d.history := by
  unfold addToStaticPool at h
  split at h
  · cases h
  · rename_i t ht
    split at h
    · cases h
    · rename_i hneg
      dsimp only at h
      obtain ⟨hids, hpool, hstatic, hhist, hother, t', ht', htask⟩ :=
        setStaticPoolIndex_tasks _ _ _ _ h
      dsimp only at hids hpool hstatic hhist hother ht' htask
      rw [ht] at ht'
      cases ht'
      refine ⟨?_, hpool, hids, hstatic, hhist⟩
      intro i r hir
      rw [hpool] at hir
      by_cases hlt : i < d.staticPool.length
      · rw [List.getElem?_append_left hlt] at hir
        obtain ⟨tr, htr, hidx⟩ := hI i r hir
        have hne : r ≠ task := by
          intro e
          subst e
          rw [ht] at htr
          cases htr
          omega
        exact ⟨tr, by rw [hother r hne]; exact htr, hidx⟩
      · have hge : d.staticPool.length ≤ i := not_lt.mp hlt
        rw [List.getElem?_append_right hge] at hir
        have hi0 : i - d.staticPool.length = 0 := by
          by_contra hne
          have : ([task] : List Nat)[i - d.staticPool.length]? = none := by
            apply List.getElem?_eq_none
            simp
            omega
          rw [this] at hir
          cases hir
        rw [hi0] at hir
        simp at hir
        subst hir
        refine ⟨_, htask, ?_⟩
        simp
        omega

theorem removeFromStaticPool_inv (d d' : dialScheduler) (idx : Int)
    (h : removeFromStaticPool d idx = some d') (hI : PoolIndexed d) :
    ∃ task, 0 ≤ idx ∧ d.staticPool[idx.toNat]? = some task ∧ PoolIndexed d' ∧
      (∀ r, r ∈ d'.staticPool → r ∈ d.staticPool ∧ r ≠ task) ∧
      taskIds d' = taskIds d ∧ d'.static = d.static ∧ d'.history = d.history := by
  obtain ⟨hidx, task, last, d2, htask, hlast, h2, h3⟩ := removeFromStaticPool_spec d d' idx h
  obtain ⟨hids2, hpool2, hstatic2, hhist2, hother2, tl, htl, hlast2⟩ :=
    setStaticPoolIndex_tasks _ _ _ _ h2
  obtain ⟨hids3, hpool3, hstatic3, hhist3, hother3, tt, htt, htask3⟩ :=
    setStaticPoolIndex_tasks _ _ _ _ h3
  dsimp only at hids2 hpool2 hstatic2 hhist2 hother2 htl hlast2
  dsimp only at hids3 hpool3 hstatic3 hhist3 hother3 htt htask3
  have hk : ((idx.toNat : Nat) : Int) = idx := Int.toNat_of_nonneg hidx
  have hklt : idx.toNat < d.staticPool.length := (List.getElem?_eq_some.mp htask).1
  -- the positions of the new pool
  have hpos : ∀ i r, d'.staticPool[i]? = some r →
      i < d.staticPool.length - 1 ∧
        ((i = idx.toNat ∧ r = last) ∨ (i ≠ idx.toNat ∧ d.staticPool[i]? = some r)) := by
    intro i r hir
    rw [hpool3, hpool2, List.getElem?_take] at hir
    split at hir
    · rename_i hi
      refine ⟨hi, ?_⟩
      rw [List.getElem?_set] at hir
      by_cases e : idx.toNat = i
      · rw [if_pos e, if_pos hklt] at hir
        cases hir
        exact Or.inl ⟨e.symm, rfl⟩
      · rw [if_neg e] at hir
        exact Or.inr ⟨fun e' => e e'.symm, hir⟩
    · cases hir
  have hids : taskIds d' = taskIds d := by
    rw [hids3]
    unfold taskIds
    unfold taskIds at hids2
    exact hids2
  refine ⟨task, hidx, htask, ?_, ?_, hids, hstatic3.trans hstatic2, hhist3.trans hhist2⟩
  · intro i r hir
    obtain ⟨hi, hcase⟩ := hpos i r hir
    rcases hcase with ⟨hik, hr⟩ | ⟨hik, hold⟩
    · rw [hr]
      have hne : last ≠ task := by
        intro e
        have := PoolIndexed_inj d hI _ _ _ hlast (e ▸ htask)
        omega
      refine ⟨{ tl with staticPoolIndex := idx }, ?_, ?_⟩
      · rw [hother3 last hne]
        exact hlast2
      · dsimp only
        rw [← hk, hik]
    · obtain ⟨tr, htr, hidxr⟩ := hI i r hold
      have hne1 : r ≠ task := by
        intro e
        exact hik (PoolIndexed_inj d hI _ _ _ hold (e ▸ htask))
      have hne2 : r ≠ last := by
        intro e
        have := PoolIndexed_inj d hI _ _ _ hold (e ▸ hlast)
        omega
      refine ⟨tr, ?_, hidxr⟩
      rw [hother3 r hne1, hother2 r hne2]
      exact htr
  · intro r hr
    obtain ⟨i, hir⟩ := List.getElem?_of_mem hr
    obtain ⟨hi, hcase⟩ := hpos i r hir
    rcases hcase with ⟨hik, hr'⟩ | ⟨hik, hold⟩
    · rw [hr']
      refine ⟨List.getElem?_mem hlast, ?_⟩
      intro e
      have := PoolIndexed_inj d hI _ _ _ hlast (e ▸ htask)
      omega
    · refine ⟨List.getElem?_mem hold, ?_⟩
      intro e
      exact hik (PoolIndexed_inj d hI _ _ _ hold (e ▸ htask))

theorem GoMap.lookup_erase {K V : Type} [DecidableEq K] (m : GoMap K V) (k k' : K) :
    GoMap.lookup (GoMap.erase m k) k' = if k' = k then none else GoMap.lookup m k' := by
  unfold GoMap.erase
  rw [GoMap.lookup_filter_key (fun a => !decide (a = k)) m k']
  by_cases h : k' = k <;> simp [h]

theorem expHeap.contains_add (h : expHeap) (item : NodeID) (exp : Nat) (item' : NodeID) :
    (h.add item exp).contains item' = (h.contains item' || decide (item = item')) := by
  unfold expHeap.add expHeap.contains
  simp

theorem expHeap.contains_of_mem (h : expHeap) (e : expItem) (he : e ∈ h) :
    h.contains e.item = true := by
  unfold expHeap.contains
  exact List.any_eq_true.mpr ⟨e, he, by simp⟩

theorem expHeap.contains_of_erase (h : expHeap) (m : expItem) (item : NodeID)
    (hc : expHeap.contains (List.erase h m) item = true) : h.contains item = true := by
  unfold expHeap.contains at hc ⊢
  obtain ⟨e, he, hp⟩ := List.any_eq_true.mp hc
  exact List.any_eq_true.mpr ⟨e, List.mem_of_mem_erase he, hp⟩

theorem checkDial_none_history (cfg : dialConfig) (d : dialScheduler) (n : Node)
    (h : checkDial cfg d n = none) : d.history.contains n.id = false := by
  unfold checkDial at h
  split at h
  · cases h
  · split at h
    · cases h
    · split at h
      · cases h
      · split at h
        · cases h
        · split at h
          · cases h
          · split at h
            · cases h
            · rename_i hc
              simpa using hc

theorem taskIds_getElem (d : dialScheduler) (r : Nat) (t : dialTask)
    (h : d.tasks[r]? = some t) : (taskIds d)[r]? = some t.dest.id := by
  unfold taskIds
  rw [List.getElem?_map, h]
  rfl

theorem DialInv_of_eq (d d' : dialScheduler) (ht : d'.tasks = d.tasks)
    (hp : d'.staticPool = d.staticPool) (hs : d'.static = d.static)
    (hh : d'.history = d.history) (hI : DialInv d) : DialInv d' := by
  unfold DialInv PoolIndexed taskIds at hI ⊢
  rw [ht, hp, hs, hh]
  exact hI

theorem DialInv_add (d d' : dialScheduler) (task : Nat) (t : dialTask)
    (h : addToStaticPool d task = some d') (hI : DialInv d)
    (ht : d.tasks[task]? = some t) (hs : d.static.lookup t.dest.id = some task)
    (hf : d.history.contains t.dest.id = false) :
    DialInv d' ∧ d'.history = d.history := by
  obtain ⟨hI1, hI2, hI3⟩ := hI
  obtain ⟨hP, hpool, hids, hstatic, hhist⟩ := addToStaticPool_inv d d' task h hI1
  refine ⟨⟨hP, ?_, ?_⟩, hhist⟩
  · rw [hids, hstatic]
    exact hI2
  · intro r hr
    rw [hpool] at hr
    rw [hids, hstatic, hhist]
    rcases List.mem_append.mp hr with hr | hr
    · exact hI3 r hr
    · simp only [List.mem_singleton] at hr
      subst hr
      exact ⟨t.dest.id, taskIds_getElem d r t ht, hs, hf⟩

theorem updateStaticPool_inv (cfg : dialConfig) (d d' : dialScheduler) (id : NodeID)
    (h : updateStaticPool cfg d id = some d') (hI : DialInv d) :
    DialInv d' ∧ d'.history = d.history := by
  unfold updateStaticPool at h
  split at h
  · cases h
    exact ⟨hI, rfl⟩
  · rename_i task hlook
    split at h
    · cases h
    · rename_i t ht
      split at h
      · rename_i hc
        have hid : t.dest.id = id := by
          have h1 := hI.2.1 id task hlook
          rw [taskIds_getElem d task t ht] at h1
          cases h1
          rfl
        exact DialInv_add d d' task t h hI ht (by rw [hid]; exact hlook)
          (checkDial_none_history cfg d t.dest hc.2)
      · cases h
        exact ⟨hI, rfl⟩

theorem DialInv_remove (d d' : dialScheduler) (idx : Int)
    (h : removeFromStaticPool d idx = some d') (hI : DialInv d) :
    DialInv d' ∧ d'.history = d.history := by
  obtain ⟨hI1, hI2, hI3⟩ := hI
  obtain ⟨task, _, _, hP, hmem, hids, hstatic, hhist⟩ := removeFromStaticPool_inv d d' idx h hI1
  refine ⟨⟨hP, ?_, ?_⟩, hhist⟩
  · rw [hids, hstatic]
    exact hI2
  · intro r hr
    rw [hids, hstatic, hhist]
    exact hI3 r (hmem r hr).1

theorem startDial_remove_inv (cfg : dialConfig) (d d1 d2 : dialScheduler) (now idx task : Nat)
    (s : dialStart) (hI : DialInv d) (hidx : d.staticPool[idx]? = some task)
    (hs : startDial cfg d now task = some (d1, s))
    (hr : removeFromStaticPool d1 (idx : Int) = some d2) :
    DialInv d2 ∧ s.time = now ∧ d.history.contains s.id = false ∧
      d2.history = d.history.add s.id (now + cfg.dialHistoryExpiration) := by
  obtain ⟨hI1, hI2, hI3⟩ := hI
  obtain ⟨t, ht, hseq, _, _, _, hstatic1, hpool1, htasks1, hhist1⟩ :=
    startDial_fields cfg d d1 now task s hs
  have hP1 : PoolIndexed d1 := by
    unfold PoolIndexed at hI1 ⊢
    rw [hpool1, htasks1]
    exact hI1
  obtain ⟨task', _, htask', hP, hmem, hids, hstatic, hhist⟩ :=
    removeFromStaticPool_inv d1 d2 idx hr hP1
  have hids1 : taskIds d1 = taskIds d := by
    unfold taskIds
    rw [htasks1]
  rw [Int.toNat_ofNat, hpool1, hidx] at htask'
  cases htask'
  obtain ⟨id, hid, hlook, hfresh⟩ := hI3 task (List.getElem?_mem hidx)
  rw [taskIds_getElem d task t ht] at hid
  cases hid
  have hsid : s.id = t.dest.id := by rw [hseq]
  have hstime : s.time = now := by rw [hseq]
  refine ⟨⟨hP, ?_, ?_⟩, hstime, by rw [hsid]; exact hfresh, by rw [hhist, hhist1, hsid]⟩
  · rw [hids, hids1, hstatic, hstatic1]
    exact hI2
  · intro r hr'
    obtain ⟨hrp, hne⟩ := hmem r hr'
    rw [hpool1] at hrp
    obtain ⟨id', hid', hlook', hfresh'⟩ := hI3 r hrp
    refine ⟨id', by rw [hids, hids1]; exact hid', by rw [hstatic, hstatic1]; exact hlook', ?_⟩
    rw [hhist, hhist1, expHeap.contains_add, hfresh']
    have : t.dest.id ≠ id' := by
      intro e
      rw [← e, hlook] at hlook'
      cases hlook'
      exact hne rfl
    simp [this]

theorem HistInv_mono (cfg : dialConfig) (d : dialScheduler) (log : List dialStart) (T T' : Nat)
    (hT : T ≤ T') (h : HistInv cfg d log T) : HistInv cfg d log T' := by
  refine ⟨fun s hs => ?_, h.2⟩
  rcases h.1 s hs with hl | hr
  · exact Or.inl hl
  · exact Or.inr (le_trans hr hT)

theorem HistInv_shrink (cfg : dialConfig) (d d' : dialScheduler) (log : List dialStart) (T : Nat)
    (hsub : ∀ e, e ∈ d.history → e ∈ d'.history ∨ e.exp < T) (h : HistInv cfg d log T) :
    HistInv cfg d' log T := by
  refine ⟨fun s hs => ?_, h.2⟩
  rcases h.1 s hs with ⟨e, he, hid, hexp⟩ | hr
  · rcases hsub e he with h1 | h2
    · exact Or.inl ⟨e, h1, hid, hexp⟩
    · exact Or.inr (by omega)
  · exact Or.inr hr

theorem HistInv_eq (cfg : dialConfig) (d d' : dialScheduler) (log : List dialStart) (T : Nat)
    (hh : d'.history = d.history) (h : HistInv cfg d log T) : HistInv cfg d' log T :=
  HistInv_shrink cfg d d' log T (fun e he => Or.inl (by rw [hh]; exact he)) h

theorem HistInv_start (cfg : dialConfig) (d d' : dialScheduler) (log : List dialStart) (T : Nat)
    (s : dialStart) (hs : s.time = T) (hf : d.history.contains s.id = false)
    (hh : d'.history = d.history.add s.id (T + cfg.dialHistoryExpiration))
    (h : HistInv cfg d log T) : HistInv cfg d' (log ++ [s]) T := by
  constructor
  · intro s' hs'
    rcases List.mem_append.mp hs' with hm | hm
    · rcases h.1 s' hm with ⟨e, he, hid, hexp⟩ | hr
      · refine Or.inl ⟨e, ?_, hid, hexp⟩
        rw [hh]
        unfold expHeap.add
        exact List.mem_append_left _ he
      · exact Or.inr hr
    · simp only [List.mem_singleton] at hm
      subst hm
      refine Or.inl ⟨⟨s'.id, T + cfg.dialHistoryExpiration⟩, ?_, rfl, ?_⟩
      · rw [hh]
        unfold expHeap.add
        simp
      · dsimp only
        omega
  · rw [List.pairwise_append]
    refine ⟨h.2, List.pairwise_singleton _ _, ?_⟩
    intro a ha b hb hab
    simp only [List.mem_singleton] at hb
    subst hb
    rcases h.1 a ha with ⟨e, he, hid, _⟩ | hr
    · have := expHeap.contains_of_mem d.history e he
      rw [hid, hab, hf] at this
      cases this
    · omega

theorem expireHistoryLoop_inv (cfg : dialConfig) (now : Nat) :
    ∀ (fuel : Nat) (d d' : dialScheduler), expireHistoryLoop cfg now fuel d = some d' →
      DialInv d → DialInv d' ∧ ∀ pre, HistInv cfg d pre now → HistInv cfg d' pre now := by
  intro fuel
  induction fuel with
  | zero =>
    intro d d' h hI
    unfold expireHistoryLoop at h
    split at h
    · cases h
      exact ⟨hI, fun _ hH => hH⟩
    · split at h
      · cases h
      · cases h
        exact ⟨hI, fun _ hH => hH⟩
  | succ fuel ih =>
    intro d d' h hI
    unfold expireHistoryLoop at h
    split at h
    · cases h
      exact ⟨hI, fun _ hH => hH⟩
    · rename_i m _
      split at h
      · rename_i hexp
        split at h
        · cases h
        · rename_i d1 h1
          have hI0 : DialInv { d with history := d.history.erase m } := by
            obtain ⟨hI1, hI2, hI3⟩ := hI
            refine ⟨hI1, hI2, ?_⟩
            intro r hr
            obtain ⟨id, hid, hlook, hfresh⟩ := hI3 r hr
            refine ⟨id, hid, hlook, ?_⟩
            show expHeap.contains (List.erase d.history m) id = false
            cases hc : expHeap.contains (List.erase d.history m) id with
            | false => rfl
            | true =>
              have := expHeap.contains_of_erase d.history m id hc
              rw [hfresh] at this
              cases this
          obtain ⟨hI1, hhist1⟩ := updateStaticPool_inv cfg _ d1 m.item h1 hI0
          obtain ⟨hI', hH'⟩ := ih d1 d' h hI1
          refine ⟨hI', fun pre hH => hH' pre ?_⟩
          refine HistInv_shrink cfg d d1 pre now ?_ hH
          intro e he
          rw [hhist1]
          by_cases hem : e = m
          · right
            rw [hem]
            exact hexp
          · left
            exact (List.mem_erase_of_ne hem).mpr he
      · cases h
        exact ⟨hI, fun _ hH => hH⟩

theorem startStaticDialsLoop_inv (cfg : dialConfig) (now : Nat) (n : Int) :
    ∀ (fuel : Nat) (d : dialScheduler) (started : Int) (rnd : List Nat) (acc : List dialStart)
      (d' : dialScheduler) (started' : Int) (log' : List dialStart),
      startStaticDialsLoop cfg now n fuel d started rnd acc = some (d', started', log') →
        DialInv d → ∀ pre, HistInv cfg d (pre ++ acc) now →
          DialInv d' ∧ HistInv cfg d' (pre ++ log') now := by
  intro fuel
  induction fuel with
  | zero =>
    intro d started rnd acc d' started' log' h hI pre hH
    unfold startStaticDialsLoop at h
    split at h
    · cases h
    · simp only [Option.some.injEq, Prod.mk.injEq] at h
      obtain ⟨h1, h2, h3⟩ := h
      subst h1 h2 h3
      exact ⟨hI, hH⟩
  | succ fuel ih =>
    intro d started rnd acc d' started' log' h hI pre hH
    unfold startStaticDialsLoop at h
    split at h
    · dsimp only at h
      split at h
      · cases h
      · rename_i task htask
        split at h
        · cases h
        · rename_i d1 s hs
          split at h
          · cases h
          · rename_i d2 hr
            obtain ⟨hI2, hst, hfresh, hhist⟩ :=
              startDial_remove_inv cfg d d1 d2 now _ task s hI htask hs hr
            have hH2 : HistInv cfg d2 ((pre ++ acc) ++ [s]) now :=
              HistInv_start cfg d d2 (pre ++ acc) now s hst hfresh hhist hH
            rw [List.append_assoc] at hH2
            exact ih d2 (started + 1) rnd.tail (acc ++ [s]) d' started' log' h hI2 pre hH2
    · simp only [Option.some.injEq, Prod.mk.injEq] at h
      obtain ⟨h1, h2, h3⟩ := h
      subst h1 h2 h3
      exact ⟨hI, hH⟩

theorem DialInv_addStatic (d : dialScheduler) (n : Node) (flags : connFlag) (hI : DialInv d)
    (hnc : d.static.contains n.id = false) :
    DialInv { d with tasks := d.tasks ++ [newDialTask n flags],
                     static := d.static.insert n.id d.tasks.length } := by
  obtain ⟨hI1, hI2, hI3⟩ := hI
  have hnone : d.static.lookup n.id = none := by
    unfold GoMap.contains at hnc
    cases hl : GoMap.lookup d.static n.id with
    | none => rfl
    | some v => rw [hl] at hnc; cases hnc
  have hids0 : ∀ dx : dialScheduler, dx.tasks = d.tasks ++ [newDialTask n flags] →
      taskIds dx = taskIds d ++ [n.id] := by
    intro dx hdx
    unfold taskIds
    rw [hdx]
    simp [newDialTask]
  have hlen : (taskIds d).length = d.tasks.length := by
    unfold taskIds
    simp
  have hold : ∀ (r : Nat) (id : NodeID), (taskIds d)[r]? = some id → (taskIds d ++ [n.id])[r]? = some id := by
    intro r id h
    rw [List.getElem?_append_left (List.getElem?_eq_some.mp h).1]
    exact h
  refine ⟨?_, ?_, ?_⟩
  · intro i r hir
    obtain ⟨t, ht, hti⟩ := hI1 i r hir
    refine ⟨t, ?_, hti⟩
    show (d.tasks ++ [newDialTask n flags])[r]? = some t
    rw [List.getElem?_append_left (List.getElem?_eq_some.mp ht).1]
    exact ht
  · intro id r hl
    rw [hids0 _ rfl]
    change GoMap.lookup (GoMap.insert d.static n.id d.tasks.length) id = some r at hl
    rw [GoMap.lookup_insert] at hl
    split at hl
    · rename_i e
      cases hl
      rw [← e, ← hlen]
      exact List.getElem?_concat_length _ _
    · exact hold r id (hI2 id r hl)
  · intro r hr
    obtain ⟨id, hid, hlook, hfresh⟩ := hI3 r hr
    refine ⟨id, ?_, ?_, hfresh⟩
    · rw [hids0 _ rfl]
      exact hold r id hid
    · show GoMap.lookup (GoMap.insert d.static n.id d.tasks.length) id = some r
      rw [GoMap.lookup_insert]
      have : ¬ n.id = id := by
        intro e
        rw [← e, hnone] at hlook
        cases hlook
      rw [if_neg this]
      exact hlook

theorem DialInv_remStatic (d d' : dialScheduler) (id : NodeID) (task : Nat)
    (hI : DialInv d) (hl : d.static.lookup id = some task)
    (htasks : taskIds d' = taskIds d) (hstatic : d'.static = d.static.erase id)
    (hhist : d'.history = d.history) (hP : PoolIndexed d')
    (hmem : ∀ r, r ∈ d'.staticPool → r ∈ d.staticPool ∧ r ≠ task) : DialInv d' := by
  obtain ⟨hI1, hI2, hI3⟩ := hI
  refine ⟨hP, ?_, ?_⟩
  · intro id' r hl'
    rw [hstatic, GoMap.lookup_erase] at hl'
    split at hl'
    · cases hl'
    · rw [htasks]
      exact hI2 id' r hl'
  · intro r hr
    obtain ⟨hrp, hne⟩ := hmem r hr
    obtain ⟨id', hid', hlook', hfresh'⟩ := hI3 r hrp
    refine ⟨id', by rw [htasks]; exact hid', ?_, by rw [hhist]; exact hfresh'⟩
    rw [hstatic, GoMap.lookup_erase]
    have : ¬ id' = id := by
      intro e
      rw [e, hl] at hlook'
      cases hlook'
      exact hne rfl
    rw [if_neg this]
    exact hlook'

theorem handleDialEvent_inv (cfg : dialConfig) (d d' : dialScheduler) (now : Nat)
    (nodesChOpen : Bool) (ev : dialEvent) (log : List dialStart)
    (h : handleDialEvent cfg d now nodesChOpen ev = some (d', log)) (hI : DialInv d)
    (hopen : nodesChOpen = true → d.staticPool = []) :
    DialInv d' ∧ ∀ pre, HistInv cfg d pre now → HistInv cfg d' (pre ++ log) now := by
  have key : ∀ dx : dialScheduler, dx.tasks = d.tasks → dx.staticPool = d.staticPool →
      dx.static = d.static → dx.history = d.history →
      DialInv dx ∧ ∀ pre, HistInv cfg d pre now → HistInv cfg dx (pre ++ []) now := by
    intro dx h1 h2 h3 h4
    refine ⟨DialInv_of_eq d dx h1 h2 h3 h4 hI, fun pre hH => ?_⟩
    rw [List.append_nil]
    exact HistInv_eq cfg d dx pre now h4 hH
  cases ev with
  | node n =>
    simp only [handleDialEvent] at h
    split at h
    · cases h
      exact key d rfl rfl rfl rfl
    · rename_i hopen'
      have ho : nodesChOpen = true := by simpa using hopen'
      split at h
      · cases h
        exact key d rfl rfl rfl rfl
      · rename_i hcheck
        split at h
        · cases h
        · rename_i d2 s hs
          cases h
          obtain ⟨t, ht, hseq, _, _, _, hstatic, hpool, htasks, hhist⟩ :=
            startDial_fields cfg _ _ _ _ _ hs
          dsimp only at ht hstatic hpool htasks hhist
          rw [List.getElem?_concat_length] at ht
          cases ht
          have hsid : s.id = n.id := by rw [hseq]; rfl
          have hst : s.time = now := by rw [hseq]
          have hfresh := checkDial_none_history cfg d n hcheck
          obtain ⟨hI1, hI2, hI3⟩ := hI
          refine ⟨⟨?_, ?_, ?_⟩, ?_⟩
          · intro i r hir
            rw [hpool, hopen ho] at hir
            simp at hir
          · intro id r hl
            rw [hstatic] at hl
            have h2 := hI2 id r hl
            unfold taskIds at h2 ⊢
            rw [htasks, List.map_append, List.getElem?_append_left (List.getElem?_eq_some.mp h2).1]
            exact h2
          · intro r hr
            rw [hpool, hopen ho] at hr
            simp at hr
          · intro pre hH
            refine HistInv_start cfg d d' pre now s hst (by rw [hsid]; exact hfresh) ?_ hH
            rw [hhist, hsid]
            rfl
  | done task =>
    simp only [handleDialEvent] at h
    split at h
    · cases h
    · rename_i t _
      split at h
      · cases h
      · rename_i d2 h2
        cases h
        obtain ⟨hI2, hh2⟩ := updateStaticPool_inv cfg _ d2 _ h2
          (DialInv_of_eq d _ rfl rfl rfl rfl hI)
        refine ⟨DialInv_of_eq d2 _ rfl rfl rfl rfl hI2, fun pre hH => ?_⟩
        rw [List.append_nil]
        exact HistInv_eq cfg d _ pre now hh2 hH
  | addPeer c =>
    simp only [handleDialEvent] at h
    split at h
    · cases h
      exact key _ (by dsimp only; split <;> rfl) (by dsimp only; split <;> rfl)
        (by dsimp only; split <;> rfl) (by dsimp only; split <;> rfl)
    · split at h
      · cases h
      · split at h
        · split at h
          · cases h
          · rename_i d3 h3
            cases h
            obtain ⟨hI3, hh3⟩ := DialInv_remove _ d' _ h3
              (And.left (key _ (by dsimp only; split <;> rfl) (by dsimp only; split <;> rfl)
                (by dsimp only; split <;> rfl) (by dsimp only; split <;> rfl)))
            refine ⟨hI3, fun pre hH => ?_⟩
            rw [List.append_nil]
            exact HistInv_eq cfg d d' pre now (hh3.trans (by dsimp only; split <;> rfl)) hH
        · cases h
          exact key _ (by dsimp only; split <;> rfl) (by dsimp only; split <;> rfl)
            (by dsimp only; split <;> rfl) (by dsimp only; split <;> rfl)
  | remPeer c =>
    simp only [handleDialEvent] at h
    split at h
    · cases h
    · rename_i d3 h3
      cases h
      obtain ⟨hI3, hh3⟩ := updateStaticPool_inv cfg _ d' _ h3
        (And.left (key _ (by dsimp only; split <;> rfl) (by dsimp only; split <;> rfl)
          (by dsimp only; split <;> rfl) (by dsimp only; split <;> rfl)))
      refine ⟨hI3, fun pre hH => ?_⟩
      rw [List.append_nil]
      exact HistInv_eq cfg d d' pre now (hh3.trans (by dsimp only; split <;> rfl)) hH
  | addStatic n =>
    simp only [handleDialEvent] at h
    split at h
    · cases h
      exact key d rfl rfl rfl rfl
    · rename_i hnc
      have hnc' : d.static.contains n.id = false := by simpa using hnc
      have hI1 := DialInv_addStatic d n staticDialedConn hI hnc'
      split at h
      · rename_i hcheck
        split at h
        · cases h
        · rename_i d2 h2
          cases h
          obtain ⟨hI2, hh2⟩ := DialInv_add _ d' d.tasks.length (newDialTask n staticDialedConn) h2 hI1
            (List.getElem?_concat_length _ _) (GoMap.lookup_insert_self _ _ _)
            (checkDial_none_history cfg _ n hcheck)
          refine ⟨hI2, fun pre hH => ?_⟩
          rw [List.append_nil]
          exact HistInv_eq cfg d d' pre now hh2 hH
      · cases h
        refine ⟨hI1, fun pre hH => ?_⟩
        rw [List.append_nil]
        exact HistInv_eq cfg d _ pre now rfl hH
  | remStatic n =>
    simp only [handleDialEvent] at h
    split at h
    · cases h
      exact key d rfl rfl rfl rfl
    · rename_i task hl
      split at h
      · cases h
      · rename_i t ht
        split at h
        · rename_i hge
          split at h
          · cases h
          · rename_i d2 h2
            cases h
            have hP1 : PoolIndexed { d with static := d.static.erase n.id } := hI.1
            obtain ⟨task', _, htask', hP, hmem, hids, hstatic, hhist⟩ :=
              removeFromStaticPool_inv _ d' _ h2 hP1
            refine ⟨DialInv_remStatic d d' n.id task hI hl hids hstatic hhist hP ?_,
              fun pre hH => ?_⟩
            · intro r hr
              obtain ⟨hrp, hne⟩ := hmem r hr
              refine ⟨hrp, ?_⟩
              intro e
              subst e
              obtain ⟨i, hi⟩ := List.getElem?_of_mem hrp
              obtain ⟨t0, ht0, hti⟩ := hI.1 i r hi
              rw [ht] at ht0
              cases ht0
              rw [hti, Int.toNat_ofNat] at htask'
              change d.staticPool[i]? = some task' at htask'
              rw [hi] at htask'
              cases htask'
              exact hne rfl
            · rw [List.append_nil]
              exact HistInv_eq cfg d d' pre now hhist hH
        · rename_i hge
          cases h
          refine ⟨DialInv_remStatic d _ n.id task hI hl rfl rfl rfl hI.1 ?_,
            fun pre hH => ?_⟩
          · intro r hr
            refine ⟨hr, ?_⟩
            intro e
            subst e
            obtain ⟨i, hi⟩ := List.getElem?_of_mem hr
            obtain ⟨t0, ht0, hti⟩ := hI.1 i r hi
            rw [ht] at ht0
            cases ht0
            apply hge
            rw [hti]
            exact Int.ofNat_nonneg i
          · rw [List.append_nil]
            exact HistInv_eq cfg d _ pre now rfl hH
  | historyExp =>
    simp only [handleDialEvent] at h
    split at h
    · cases h
    · rename_i d1 h1
      cases h
      obtain ⟨hI1, hH1⟩ := expireHistoryLoop_inv cfg now _ d d' h1 hI
      refine ⟨hI1, fun pre hH => ?_⟩
      rw [List.append_nil]
      exact hH1 pre hH

theorem dialLoopPass_inv (cfg : dialConfig) (d d' : dialScheduler) (p : dialPass)
    (log : List dialStart) (h : dialLoopPass cfg d p = some (d', log)) (hI : DialInv d)
    (pre : List dialStart) (T : Nat) (hT : T ≤ p.now) (hH : HistInv cfg d pre T) :
    DialInv d' ∧ HistInv cfg d' (pre ++ log) p.now := by
  unfold dialLoopPass at h
  dsimp only at h
  split at h
  · cases h
  · rename_i d1 started log1 hs
    split at h
    · cases h
    · rename_i d2 log2 he
      simp only [Option.some.injEq, Prod.mk.injEq] at h
      obtain ⟨h1, h2⟩ := h
      subst h1 h2
      unfold startStaticDials at hs
      obtain ⟨_, _, _, _, _, _, hpool⟩ :=
        startStaticDialsLoop_facts cfg p.now _ _ _ _ _ _ _ _ _ hs
      obtain ⟨hI1, hH1⟩ := startStaticDialsLoop_inv cfg p.now _ _ _ _ _ _ _ _ _ hs hI pre
        (by rw [List.append_nil]; exact HistInv_mono cfg d pre T p.now hT hH)
      obtain ⟨hI2, hH2⟩ := handleDialEvent_inv cfg _ _ _ _ _ _ he hI1
        (by
          intro ho
          apply hpool
          have := of_decide_eq_true ho
          omega)
      refine ⟨hI2, ?_⟩
      rw [← List.append_assoc]
      exact hH2 _ hH1

theorem dialRun_inv (cfg : dialConfig) :
    ∀ (passes : List dialPass) (d d' : dialScheduler) (log pre : List dialStart) (T : Nat),
      dialRun cfg d passes = some (d', log) → DialInv d → HistInv cfg d pre T →
      (∀ p, p ∈ passes → T ≤ p.now) →
      (passes.map (fun p => p.now)).Pairwise (fun a b => a ≤ b) →
      DialInv d' ∧ ∃ T', HistInv cfg d' (pre ++ log) T' := by
  intro passes
  induction passes with
  | nil =>
    intro d d' log pre T h hI hH _ _
    simp only [dialRun, Option.some.injEq, Prod.mk.injEq] at h
    obtain ⟨h1, h2⟩ := h
    subst h1 h2
    exact ⟨hI, T, by rw [List.append_nil]; exact hH⟩
  | cons p rest ih =>
    intro d d' log pre T h hI hH hT hsorted
    unfold dialRun at h
    split at h
    · cases h
    · rename_i d1 log1 h1
      split at h
      · cases h
      · rename_i d2 log2 h2
        simp only [Option.some.injEq, Prod.mk.injEq] at h
        obtain ⟨e1, e2⟩ := h
        subst e1 e2
        obtain ⟨hI1, hH1⟩ := dialLoopPass_inv cfg d d1 p log1 h1 hI pre T
          (hT p (List.mem_cons_self _ _)) hH
        rw [List.map_cons, List.pairwise_cons] at hsorted
        obtain ⟨hI2, T', hH2⟩ := ih d1 d2 log2 (pre ++ log1) p.now h2 hI1 hH1
          (fun q hq => hsorted.1 q.now (List.mem_map.mpr ⟨q, hq, rfl⟩)) hsorted.2
        exact ⟨hI2, T', by rw [← List.append_assoc]; exact hH2⟩

theorem DialInv_new : DialInv newDialScheduler := by
  refine ⟨?_, ?_, ?_⟩
  · intro i r h
    simp [newDialScheduler] at h
  · intro id r h
    simp [newDialScheduler, GoMap.lookup] at h
  · intro r h
    simp [newDialScheduler] at h

theorem HistInv_nil (cfg : dialConfig) (d : dialScheduler) : HistInv cfg d [] 0 :=
  ⟨fun _ hs => absurd hs (List.not_mem_nil _), List.Pairwise.nil⟩

/-! ## The proposal path of the worker -/

theorem proposeHeader_gasLimit (env : MinerEnv) (w : worker) :
    (proposeHeader env w).GasLimit = proposeGasLimit env w := by
  unfold proposeHeader proposeGasLimit
  dsimp only
  split <;> split <;> rfl

theorem proposePhase_unfold (env : MinerEnv) (w : worker) (interrupt : Nat → Int)
    (exited : Bool) :
    proposePhase env w interrupt exited =
      (
      if w.running && decide (w.coinbase = 0) then
        some { w := w, tasks := [], shifts := [], pendingLogs := [], err := none }
      else
        match env.prepare (proposeHeader env w) with
        | Except.error err =>
          some { w := w, tasks := [], shifts := [], pendingLogs := [], err := some err }
        | Except.ok header =>
          match makeCurrent env w env.currentBlock header with
          | Except.error err =>
            some { w := w, tasks := [], shifts := [], pendingLogs := [], err := some err }
          | Except.ok w =>
            match w.current with
            | none => none
            | some current =>
              match env.pending with
              | Except.error err =>
                some { w := w, tasks := [], shifts := [], pendingLogs := [], err := some err }
              | Except.ok pendingTxns =>
                let pendingTxns : GoMap Address (List Transaction) :=
                  pendingTxns.map (fun e =>
                    (e.1, e.2.filter (fun txn => env.doesTransactionExist txn.hash == false)))
                let txnFilteredMap := env.getMap current.header.ParentHash pendingTxns
                match env.handleTransactions current.header current.state txnFilteredMap with
                | (_, Except.error err) =>
                  some { w := w, tasks := [], shifts := [], pendingLogs := [], err := some err }
                | (s, Except.ok selectedTxns) =>
                  if env.isBlockReadyToSeal current.header s == false then
                    some { w := w, tasks := [], shifts := [], pendingLogs := [],
                           err := some "block not ready to be sealed" }
                  else
                    let selectedTxns : GoMap Address (List Transaction) :=
                      match selectedTxns with
                      | none => []
                      | some m => m
                    let txsByNonce :=
                      env.newTransactionsByNonce current.header.ParentHash selectedTxns
                    let w : worker := { w with selectedTransactions := txsByNonce }
                    let r := commitTransactions env w w.selectedTransactions w.coinbase interrupt
                    match commit env r.w true exited with
                    | none => none
                    | some c =>
                      some { c with pendingLogs := r.pendingLogs.toList ++ c.pendingLogs }
      ) := by
  rfl

theorem commitTransaction_gasLimit (env : MinerEnv) (cur : environment) (gp : Nat)
    (tx : Transaction) (coinbase : Address) :
    (commitTransaction env cur gp tx coinbase).1.header.GasLimit = cur.header.GasLimit := by
  unfold commitTransaction
  dsimp only
  split <;> rfl

theorem commitTransactionsLoop_gasLimit (env : MinerEnv) (coinbase : Address) :
    ∀ (txs : List Transaction) (cur : environment) (gp : Nat) (logs : List Log),
      (commitTransactionsLoop env coinbase txs cur gp logs).cur.header.GasLimit =
        cur.header.GasLimit := by
  intro txs
  induction txs with
  | nil =>
    intro cur gp logs
    rfl
  | cons tx rest ih =>
    intro cur gp logs
    unfold commitTransactionsLoop
    split
    · rfl
    · split
      · rfl
      · split
        · exact ih cur gp logs
        · dsimp only
          have hstep := commitTransaction_gasLimit env
            { cur with state := cur.state.Prepare tx.hash cur.tcount } gp tx coinbase
          revert hstep
          generalize commitTransaction env
            { cur with state := cur.state.Prepare tx.hash cur.tcount } gp tx coinbase = res
          intro hstep
          obtain ⟨cur2, gp2, ret⟩ := res
          cases ret with
          | error e =>
            cases e <;> (dsimp only; rw [ih]; exact hstep)
          | ok l =>
            dsimp only
            rw [ih]
            exact hstep

theorem commitTransactions_gasLimit (env : MinerEnv) (w : worker) (txs : List Transaction)
    (coinbase : Address) (interrupt : Nat → Int) (cur : environment)
    (hcur : w.current = some cur) :
    ∃ cur', (commitTransactions env w txs coinbase interrupt).w.current = some cur' ∧
      cur'.header.GasLimit = 300000000 := by
  unfold commitTransactions
  rw [hcur]
  dsimp only
  split
  · exact ⟨_, rfl, by rw [commitTransactionsLoop_gasLimit]⟩
  · split
    · exact ⟨_, rfl, by rw [commitTransactionsLoop_gasLimit]⟩
    · exact ⟨_, rfl, by rw [commitTransactionsLoop_gasLimit]⟩

theorem commit_task (env : MinerEnv) (w : worker) (update exited : Bool) (r : ProposeResult)
    (t : task) (h : commit env w update exited = some r) (ht : t ∈ r.tasks) :
    ∃ cur s, w.current = some cur ∧ r.w.current = some cur ∧
      env.finalizeAndAssemble cur.header cur.state cur.txs cur.receipts = (s, Except.ok t.block) ∧
      t = { receipts := cur.receipts, state := s, block := t.block } ∧ r.tasks = [t] ∧
      w.running = true ∧ exited = false ∧ r.err = none := by
  unfold commit at h
  split at h
  · cases h
  · rename_i cur hcur
    dsimp only at h
    split at h
    · cases h
      simp at ht
    · rename_i s block hfin
      have key : ∀ w1 : worker, w1.current = some cur →
          r = { w := w1,
                tasks := if (w.running && !exited) = true then
                  [{ receipts := cur.receipts, state := s, block := block }] else [],
                shifts := if (w.running && !exited) = true then
                  [(block.header.Number + 2 ^ 64 - 1) % 2 ^ 64] else [],
                pendingLogs := [], err := none } →
          ∃ cur s, w.current = some cur ∧ r.w.current = some cur ∧
            env.finalizeAndAssemble cur.header cur.state cur.txs cur.receipts =
              (s, Except.ok t.block) ∧
            t = { receipts := cur.receipts, state := s, block := t.block } ∧ r.tasks = [t] ∧
            w.running = true ∧ exited = false ∧ r.err = none := by
        intro w1 hw1 hr
        subst hr
        dsimp only at ht ⊢
        by_cases hsent : (w.running && !exited) = true
        · rw [if_pos hsent] at ht ⊢
          simp only [List.mem_singleton] at ht
          subst ht
          simp only [Bool.and_eq_true, Bool.not_eq_true'] at hsent
          exact ⟨cur, s, hcur, hw1, hfin, rfl, rfl, hsent.1, hsent.2, rfl⟩
        · rw [if_neg hsent] at ht
          simp at ht
      split at h
      · split at h
        · cases h
        · rename_i w1 hw1
          simp only [Option.some.injEq] at h
          refine key w1 ?_ h.symm
          unfold updateSnapshot at hw1
          rw [hcur] at hw1
          simp only [Option.some.injEq] at hw1
          rw [← hw1]
      · simp only [Option.some.injEq] at h
        exact key w hcur h.symm

theorem commitTransactions_gasLimit_of_some (env : MinerEnv) (w : worker)
    (txs : List Transaction) (coinbase : Address) (interrupt : Nat → Int) (cur cur' : environment)
    (h : (commitTransactions env w txs coinbase interrupt).w.current = some cur')
    (hcur : w.current = some cur) :
    cur'.header.GasLimit = 300000000 := by
  obtain ⟨c, hc, hg⟩ := commitTransactions_gasLimit env w txs coinbase interrupt cur hcur
  rw [h] at hc
  cases hc
  exact hg

/-! ## The state processor -/

theorem setStaticPoolIndex_some (d : dialScheduler) (task : Nat) (i : Int) (t : dialTask)
    (h : d.tasks[task]? = some t) :
    setStaticPoolIndex d task i =
      some { d with tasks := d.tasks.set task { t with staticPoolIndex := i } } := by
  unfold setStaticPoolIndex
  rw [h]

theorem PoolIndexed_nodup (d : dialScheduler) (hI : PoolIndexed d) : d.staticPool.Nodup := by
  rw [List.nodup_iff_getElem?_ne_getElem?]
  intro i j hij hj e
  have hi : i < d.staticPool.length := by omega
  rw [List.getElem?_eq_getElem hi] at e
  have := PoolIndexed_inj d hI i j _ (List.getElem?_eq_getElem hi) e.symm
  omega

theorem PoolInv_add (d d' : dialScheduler) (task : Nat) (hI : PoolInv d)
    (h : addToStaticPool d task = some d') :
    PoolInv d' ∧ d'.staticPool = d.staticPool ++ [task] := by
  obtain ⟨hP, hpool, _, hst, _⟩ := addToStaticPool_inv d d' task h hI.1
  refine ⟨⟨hP, ?_, PoolIndexed_nodup d' hP⟩, hpool⟩
  intro id r t' hlook hr hnot
  rw [hst] at hlook
  rw [hpool] at hnot
  have hne : r ≠ task := by
    intro e
    apply hnot
    rw [e]
    simp
  have hnot' : r ∉ d.staticPool := fun hm => hnot (List.mem_append_left _ hm)
  unfold addToStaticPool at h
  split at h
  · cases h
  · split at h
    · cases h
    · obtain ⟨_, _, _, _, hother, _⟩ := setStaticPoolIndex_tasks _ _ _ _ h
      rw [hother r hne] at hr
      exact hI.2.1 id r t' hlook hr hnot'

theorem addToStaticPool_total (d : dialScheduler) (task : Nat) (t : dialTask)
    (ht : d.tasks[task]? = some t) (hneg : t.staticPoolIndex < 0) :
    ∃ d', addToStaticPool d task = some d' := by
  unfold addToStaticPool
  rw [ht]
  dsimp only
  rw [if_neg (not_le.mpr hneg)]
  exact ⟨_, setStaticPoolIndex_some _ task _ t ht⟩

theorem removeFromStaticPool_total (d : dialScheduler) (idx : Int) (hI : PoolIndexed d)
    (h0 : 0 ≤ idx) (hlt : idx < d.staticPool.length) :
    ∃ d', removeFromStaticPool d idx = some d' := by
  have hklt : idx.toNat < d.staticPool.length := by omega
  have hlast : d.staticPool.length - 1 < d.staticPool.length := by omega
  obtain ⟨tt, htt, _⟩ := hI _ _ (List.getElem?_eq_getElem hklt)
  obtain ⟨tl, htl, _⟩ := hI _ _ (List.getElem?_eq_getElem hlast)
  unfold removeFromStaticPool
  rw [if_neg (not_lt.mpr h0), List.getElem?_eq_getElem hklt]
  dsimp only
  rw [List.getElem?_eq_getElem hlast]
  dsimp only
  rw [setStaticPoolIndex_some _ _ _ tl (by exact htl)]
  dsimp only
  have hex : ∃ t3, (d.tasks.set d.staticPool[d.staticPool.length - 1]
      { tl with staticPoolIndex := idx })[d.staticPool[idx.toNat]]? = some t3 := by
    have hl : d.staticPool[idx.toNat] < (d.tasks.set d.staticPool[d.staticPool.length - 1]
        { tl with staticPoolIndex := idx }).length := by
      rw [List.length_set]
      exact (List.getElem?_eq_some.mp htt).1
    exact ⟨_, List.getElem?_eq_getElem hl⟩
  obtain ⟨t3, ht3⟩ := hex
  exact ⟨_, setStaticPoolIndex_some _ _ _ t3 ht3⟩

theorem removeFromStaticPool_full (d d' : dialScheduler) (idx : Int) (hI : PoolInv d)
    (h : removeFromStaticPool d idx = some d') :
    ∃ task, d.staticPool[idx.toNat]? = some task ∧ PoolInv d' ∧
      d'.staticPool.length + 1 = d.staticPool.length ∧
      (∀ r, r ∈ d'.staticPool ↔ r ∈ d.staticPool ∧ r ≠ task) ∧
      (∃ t, d'.tasks[task]? = some t ∧ t.staticPoolIndex = -1) ∧
      (∀ r, r ∈ d'.staticPool → ∃ t t', d.tasks[r]? = some t ∧ d'.tasks[r]? = some t' ∧
        t'.dest = t.dest ∧ t'.flags = t.flags) := by
  obtain ⟨hP0, hI6, _⟩ := hI
  obtain ⟨task, hidx, htask, hP, hmem, _, hst, _⟩ := removeFromStaticPool_inv d d' idx h hP0
  obtain ⟨_, task', last, d2, htask', hlast, h2, h3⟩ := removeFromStaticPool_spec d d' idx h
  rw [htask] at htask'
  cases htask'
  obtain ⟨_, hpool2, _, _, hother2, tl, htl, hlast2⟩ := setStaticPoolIndex_tasks _ _ _ _ h2
  obtain ⟨_, hpool3, _, _, hother3, tt, htt, htask3⟩ := setStaticPoolIndex_tasks _ _ _ _ h3
  dsimp only at hpool2 hother2 htl hlast2 hpool3 hother3 htt htask3
  have hklt : idx.toNat < d.staticPool.length := (List.getElem?_eq_some.mp htask).1
  have hpool : d'.staticPool = (d.staticPool.set idx.toNat last).take (d.staticPool.length - 1) := by
    rw [hpool3, hpool2]
  have hlen : d'.staticPool.length + 1 = d.staticPool.length := by
    rw [hpool, List.length_take, List.length_set]
    omega
  have hrev : ∀ r, r ∈ d.staticPool → r ≠ task → r ∈ d'.staticPool := by
    intro r hr hne
    obtain ⟨i, hi⟩ := List.getElem?_of_mem hr
    have hilt : i < d.staticPool.length := (List.getElem?_eq_some.mp hi).1
    have hik : i ≠ idx.toNat := by
      intro e
      rw [e, htask] at hi
      cases hi
      exact hne rfl
    by_cases hend : i < d.staticPool.length - 1
    · apply List.getElem?_mem (n := i)
      rw [hpool, List.getElem?_take, if_pos hend, List.getElem?_set, if_neg (Ne.symm hik)]
      exact hi
    · have hie : i = d.staticPool.length - 1 := by omega
      rw [hie, hlast] at hi
      cases hi
      have hkend : idx.toNat < d.staticPool.length - 1 := by
        by_contra hc
        have : idx.toNat = d.staticPool.length - 1 := by omega
        rw [this, hlast] at htask
        cases htask
        exact hne rfl
      apply List.getElem?_mem (n := idx.toNat)
      rw [hpool, List.getElem?_take, if_pos hkend, List.getElem?_set, if_pos rfl, if_pos hklt]
  refine ⟨task, htask, ⟨hP, ?_, PoolIndexed_nodup d' hP⟩, hlen,
    fun r => ⟨hmem r, fun hr => hrev r hr.1 hr.2⟩, ⟨_, htask3, rfl⟩, ?_⟩
  · intro id r t' hlook hr hnot
    rw [hst] at hlook
    by_cases hrt : r = task
    · rw [hrt, htask3] at hr
      cases hr
      rfl
    · have hnot0 : r ∉ d.staticPool := fun hm => hnot (hrev r hm hrt)
      have hrl : r ≠ last := by
        intro e
        apply hnot0
        rw [e]
        exact List.getElem?_mem hlast
      rw [hother3 r hrt, hother2 r hrl] at hr
      exact hI6 id r t' hlook hr hnot0
  · intro r hr
    obtain ⟨hr0, hrt⟩ := hmem r hr
    obtain ⟨i, hi⟩ := List.getElem?_of_mem hr0
    obtain ⟨t, ht, _⟩ := hP0 i r hi
    by_cases hrl : r = last
    · have ht2 : d.tasks[last]? = some t := by rw [← hrl]; exact ht
      rw [htl] at ht2
      cases ht2
      exact ⟨tl, { tl with staticPoolIndex := idx }, ht,
        by rw [hother3 r hrt, hrl]; exact hlast2, rfl, rfl⟩
    · exact ⟨t, t, ht, by rw [hother3 r hrt, hother2 r hrl]; exact ht, rfl, rfl⟩

theorem PoolInv_of_eq (d d1 : dialScheduler) (h1 : d1.tasks = d.tasks)
    (h2 : d1.staticPool = d.staticPool) (h3 : d1.static = d.static) (hI : PoolInv d) :
    PoolInv d1 := by
  unfold PoolInv PoolIndexed
  rw [h1, h2, h3]
  exact hI

theorem startStaticDialsLoop_total (cfg : dialConfig) (now : Nat) (n : Int) :
    ∀ (fuel : Nat) (d : dialScheduler) (started : Int) (rnd : List Nat) (log : List dialStart),
      PoolInv d → d.staticPool.length ≤ fuel →
        ∃ d' started' log',
          startStaticDialsLoop cfg now n fuel d started rnd log = some (d', started', log') ∧
            PoolInv d' := by
  intro fuel
  induction fuel with
  | zero =>
    intro d started rnd log hI hf
    unfold startStaticDialsLoop
    rw [if_neg (by omega)]
    exact ⟨_, _, _, rfl, hI⟩
  | succ fuel ih =>
    intro d started rnd log hI hf
    unfold startStaticDialsLoop
    by_cases hc : started < n ∧ d.staticPool.length > 0
    · rw [if_pos hc]
      dsimp only
      have hidx : rnd.headD 0 % d.staticPool.length < d.staticPool.length :=
        Nat.mod_lt _ hc.2
      rw [List.getElem?_eq_getElem hidx]
      dsimp only
      obtain ⟨t, ht, _⟩ := hI.1 _ _ (List.getElem?_eq_getElem hidx)
      have hs : startDial cfg d now d.staticPool[rnd.headD 0 % d.staticPool.length] =
          some ({ d with history := d.history.add t.dest.id (now + cfg.dialHistoryExpiration),
                         dialing := d.dialing.insert t.dest.id
                           d.staticPool[rnd.headD 0 % d.staticPool.length] },
            { time := now, id := t.dest.id,
              task := d.staticPool[rnd.headD 0 % d.staticPool.length] }) := by
        unfold startDial
        rw [ht]
      rw [hs]
      dsimp only
      have hI1 := PoolInv_of_eq d
        { d with history := d.history.add t.dest.id (now + cfg.dialHistoryExpiration),
                 dialing := d.dialing.insert t.dest.id
                   d.staticPool[rnd.headD 0 % d.staticPool.length] } rfl rfl rfl hI
      obtain ⟨d2, h2⟩ := removeFromStaticPool_total _
        ((rnd.headD 0 % d.staticPool.length : Nat) : Int) hI1.1 (by omega)
        (by dsimp only; omega)
      obtain ⟨_, _, hI2, hlen, _⟩ := removeFromStaticPool_full _ d2 _ hI1 h2
      rw [h2]
      dsimp only
      dsimp only at hlen
      exact ih d2 _ _ _ hI2 (by omega)
    · rw [if_neg hc]
      exact ⟨_, _, _, rfl, hI⟩

theorem updateStaticPool_total (cfg : dialConfig) (d : dialScheduler) (id : NodeID)
    (hI : PoolInv d) (hS : ∀ r, d.static.lookup id = some r → r < d.tasks.length) :
    ∃ d', updateStaticPool cfg d id = some d' ∧ PoolInv d' := by
  unfold updateStaticPool
  cases hlook : d.static.lookup id with
  | none => exact ⟨d, rfl, hI⟩
  | some task =>
    dsimp only
    have hlt := hS task hlook
    rw [List.getElem?_eq_getElem hlt]
    dsimp only
    by_cases hc : d.tasks[task].staticPoolIndex < 0 ∧ checkDial cfg d d.tasks[task].dest = none
    · rw [if_pos hc]
      obtain ⟨d', h⟩ := addToStaticPool_total d task _ (List.getElem?_eq_getElem hlt) hc.1
      exact ⟨d', h, (PoolInv_add d d' task hI h).1⟩
    · rw [if_neg hc]
      exact ⟨d, rfl, hI⟩

theorem PoolInv_scenarioPooled : PoolInv scenarioPooled := by
  refine ⟨?_, ?_, by decide⟩
  · intro i r h
    match i, h with
    | 0, h => cases h; exact ⟨_, rfl, rfl⟩
    | 1, h => cases h; exact ⟨_, rfl, rfl⟩
    | 2, h => cases h; exact ⟨_, rfl, rfl⟩
    | k + 3, h => cases h
  · intro id r t _ ht hnot
    have hlt : r < 3 := (List.getElem?_eq_some.mp ht).1
    exfalso
    apply hnot
    match r, hlt with
    | 0, _ => decide
    | 1, _ => decide
    | 2, _ => decide

theorem SendCapabilityPacket_ok (env : Env) (sign : Bytes → Except GoError Bytes)
    (hsign : env.signFn = some sign) (p : PeerHandler) (peerList : List String)
    (b sig : Bytes)
    (h1 : env.p2pHandlerSet = true) (h2 : p.isConsensusRelay = true)
    (h3 : ¬ env.latestBlockNumber < env.PACKET_PROTOCOL_START_BLOCK)
    (henc : env.encodeCapability { IsConsensusRelay := true, PeerId := p.localPeerId } =
      Except.ok b)
    (hs : sign (ZERO_HASH ++ ([ConsensusNetworkProtocolVersion] ++
      ([env.types.CONSENSUS_PACKET_TYPE_CAPABILITY] ++ b))) = Except.ok sig) :
    SendCapabilityPacket env p peerList =
      { state := p,
        sent := [(peerList, { ParentHash := ZERO_HASH,
                              ConsensusData := [ConsensusNetworkProtocolVersion] ++
                                ([env.types.CONSENSUS_PACKET_TYPE_CAPABILITY] ++ b),
                              Signature := sig })],
        err := env.transportSend peerList
          { ParentHash := ZERO_HASH,
            ConsensusData := [ConsensusNetworkProtocolVersion] ++
              ([env.types.CONSENSUS_PACKET_TYPE_CAPABILITY] ++ b),
            Signature := sig } } := by
  unfold SendCapabilityPacket
  rw [if_neg (by simp [h1, h2, h3])]
  dsimp only
  rw [henc]
  dsimp only
  rw [CreateConsensusPacket_ok env sign hsign _ sig hs]
  dsimp only
  cases env.transportSend peerList
    { ParentHash := ZERO_HASH,
      ConsensusData := [ConsensusNetworkProtocolVersion] ++
        ([env.types.CONSENSUS_PACKET_TYPE_CAPABILITY] ++ b),
      Signature := sig } <;> rfl

theorem SendRequestConsensusSyncPacket_ok (env : Env) (sign : Bytes → Except GoError Bytes)
    (hsign : env.signFn = some sign) (p : PeerHandler) (peerId : String)
    (b sig : Bytes)
    (h1 : env.p2pHandlerSet = true)
    (h3 : ¬ env.latestBlockNumber < env.PACKET_PROTOCOL_START_BLOCK)
    (henc : env.encodeSync { IsConsensusRelay := p.isConsensusRelay, PeerId := p.localPeerId } =
      Except.ok b)
    (hs : sign (ZERO_HASH ++ ([ConsensusNetworkProtocolVersion] ++
      ([env.types.CONSENSUS_PACKET_TYPE_SYNC] ++ b))) = Except.ok sig) :
    (SendRequestConsensusSyncPacket env p peerId).sent =
        [([peerId], { ParentHash := ZERO_HASH,
                      ConsensusData := [ConsensusNetworkProtocolVersion] ++
                        ([env.types.CONSENSUS_PACKET_TYPE_SYNC] ++ b),
                      Signature := sig })] ∧
      (SendRequestConsensusSyncPacket env p peerId).err =
        env.transportSend [peerId]
          { ParentHash := ZERO_HASH,
            ConsensusData := [ConsensusNetworkProtocolVersion] ++
              ([env.types.CONSENSUS_PACKET_TYPE_SYNC] ++ b),
            Signature := sig } := by
  unfold SendRequestConsensusSyncPacket
  rw [if_neg (by simp [h1, h3])]
  dsimp only
  rw [henc]
  dsimp only
  rw [CreateConsensusPacket_ok env sign hsign _ sig hs]
  dsimp only
  cases env.transportSend [peerId]
    { ParentHash := ZERO_HASH,
      ConsensusData := [ConsensusNetworkProtocolVersion] ++
        ([env.types.CONSENSUS_PACKET_TYPE_SYNC] ++ b),
      Signature := sig } <;> exact ⟨rfl, rfl⟩

/-- C1. One call of `BroadcastToConsensusRelays`, and one call of `BroadcastToSyncPeers`
for a packet whose parent hash is the current parent hash, hands one duplicate-free
send list to the transport and returns its length; a peer is in the list exactly when
it is in the target set (the relay peers, resp. the sync subscribers), not yet in
`sent_to` of the packet, not in `seen_from` of the packet and not the sender; after
the call `seen_from` has gained the sender, `sent_to` has gained exactly the send list
and the three peer sets are unchanged. -/
theorem C1_broadcast_routing (env : Env) (p : PeerHandler) (packet : ConsensusPacket)
    (fromPeerId : String) :
    RoutingContract env p.consensusRelayMap.keys p packet fromPeerId
        (BroadcastToConsensusRelays env p packet fromPeerId) ∧
      (packet.ParentHash = p.currentParentHash →
        RoutingContract env p.syncPeerMap.keys p packet fromPeerId
          (BroadcastToSyncPeers env p packet fromPeerId)) :=
  ⟨BroadcastToConsensusRelays_contract env p packet fromPeerId,
    BroadcastToSyncPeers_contract env p packet fromPeerId⟩

/-- C1, at a concrete call: the relay with the sync subscribers A, B and C forwards a
packet of the current round that arrived from A. -/
theorem C1_broadcast_routing_witness :
    scenarioPacket.ParentHash = scenarioRelay.currentParentHash ∧
      RoutingContract scenarioEnv scenarioRelay.syncPeerMap.keys scenarioRelay scenarioPacket "A"
        (BroadcastToSyncPeers scenarioEnv scenarioRelay scenarioPacket "A") :=
  ⟨by decide, (C1_broadcast_routing scenarioEnv scenarioRelay scenarioPacket "A").2 (by decide)⟩

/-- C2. In every run of the handler (broadcasts of any packets from any senders,
interleaved with peers connecting, disconnecting, announcing, subscribing and being
registered as relays - no purge), no peer is written the same packet twice: the
(packet hash, peer) pairs of all send lists of the run are pairwise distinct.
Repeating a broadcast call with the same arguments in the state the call produced
sends to nobody, returns 0 and leaves the state unchanged.  In the scenario with the
sync subscribers A, B, C and the sender A, the first call sends to B and C and the
second to nobody. -/
theorem C2_at_most_once_send (env : Env) (p : PeerHandler) (es : List Event)
    (packet : ConsensusPacket) (fromPeerId : String) :
    ((sendLog env p es).map (fun x => (env.hash x.1, x.2))).Nodup ∧
    ((BroadcastToSyncPeers env (BroadcastToSyncPeers env p packet fromPeerId).state
          packet fromPeerId).state = (BroadcastToSyncPeers env p packet fromPeerId).state ∧
      (BroadcastToSyncPeers env (BroadcastToSyncPeers env p packet fromPeerId).state
          packet fromPeerId).count = 0 ∧
      flattenSends (BroadcastToSyncPeers env (BroadcastToSyncPeers env p packet fromPeerId).state
          packet fromPeerId).sends = []) ∧
    ((BroadcastToConsensusRelays env (BroadcastToConsensusRelays env p packet fromPeerId).state
          packet fromPeerId).state = (BroadcastToConsensusRelays env p packet fromPeerId).state ∧
      (BroadcastToConsensusRelays env (BroadcastToConsensusRelays env p packet fromPeerId).state
          packet fromPeerId).count = 0 ∧
      flattenSends (BroadcastToConsensusRelays env
          (BroadcastToConsensusRelays env p packet fromPeerId).state
          packet fromPeerId).sends = []) ∧
    ((BroadcastToSyncPeers scenarioEnv scenarioRelay scenarioPacket "A").sends =
        [(["B", "C"], scenarioPacket)] ∧
      (BroadcastToSyncPeers scenarioEnv
          (BroadcastToSyncPeers scenarioEnv scenarioRelay scenarioPacket "A").state
          scenarioPacket "A").sends = [([], scenarioPacket)] ∧
      sendLog scenarioEnv scenarioRelay
          [Event.BroadcastToSyncPeers scenarioPacket "A",
            Event.BroadcastToSyncPeers scenarioPacket "A"] =
        [(scenarioPacket, "B"), (scenarioPacket, "C")]) := by
  refine ⟨(sendLog_facts env es p).1, BroadcastToSyncPeers_repeat env p packet fromPeerId, ?_,
    by decide, by decide, by decide⟩
  rw [BroadcastToConsensusRelays_repeat]
  exact ⟨rfl, rfl, rfl⟩

/-- C4. A call of `BroadcastToSyncPeers` for a packet whose parent hash differs from the
current parent hash returns 0, hands nothing to the transport and leaves the whole
state unchanged (no entry is created, the sender is not recorded); a send list that
is not empty is only produced when the parent hashes are equal. -/
theorem C4_parent_hash_gating (env : Env) (p : PeerHandler) (packet : ConsensusPacket)
    (fromPeerId : String) :
    (packet.ParentHash ≠ p.currentParentHash →
      BroadcastToSyncPeers env p packet fromPeerId = { state := p, sends := [], count := 0 }) ∧
    (∀ s, s ∈ (BroadcastToSyncPeers env p packet fromPeerId).sends → s.1 ≠ [] →
      packet.ParentHash = p.currentParentHash) := by
  refine ⟨BroadcastToSyncPeers_gated env p packet fromPeerId, ?_⟩
  intro s hs _
  by_contra h
  rw [BroadcastToSyncPeers_gated env p packet fromPeerId h] at hs
  simp at hs

/-- C4, at a packet of a stale round arriving at the relay of the scenario. -/
theorem C4_parent_hash_gating_witness :
    scenarioStalePacket.ParentHash ≠ scenarioRelay.currentParentHash ∧
      BroadcastToSyncPeers scenarioEnv scenarioRelay scenarioStalePacket "A" =
        { state := scenarioRelay, sends := [], count := 0 } :=
  ⟨by decide,
    (C4_parent_hash_gating scenarioEnv scenarioRelay scenarioStalePacket "A").1 (by decide)⟩

/-- C5. On a packet map without duplicate keys, `SetCurrentParentHash(h, n)` leaves in
the map exactly the prior entries whose packet has parent hash `h`, each unchanged
(same packet, `seen_from` and `sent_to`); afterwards the current parent hash is `h`,
the current block number is `n`, and the peer map, the relay peers and the sync
subscribers are unchanged. -/
theorem C5_purge_on_head_advance (env : Env) (p : PeerHandler) (parentHash : Hash)
    (currentBlockNumber : Nat) (hwf : p.packetSyncMap.WF) :
    (SetCurrentParentHash env p parentHash currentBlockNumber).state.packetSyncMap =
        p.packetSyncMap.filter (fun e => decide (e.2.packet.ParentHash = parentHash)) ∧
      (SetCurrentParentHash env p parentHash currentBlockNumber).state.currentParentHash =
        parentHash ∧
      (SetCurrentParentHash env p parentHash currentBlockNumber).state.currentBlockNumber =
        currentBlockNumber ∧
      (SetCurrentParentHash env p parentHash currentBlockNumber).state.peerMap = p.peerMap ∧
      (SetCurrentParentHash env p parentHash currentBlockNumber).state.consensusRelayMap =
        p.consensusRelayMap ∧
      (SetCurrentParentHash env p parentHash currentBlockNumber).state.syncPeerMap =
        p.syncPeerMap := by
  refine ⟨?_, rfl, rfl, rfl, rfl, rfl⟩
  simp only [SetCurrentParentHash]
  exact purgeLoop_self parentHash p.packetSyncMap hwf

/-- C5, at one stale and one current entry: exactly the current entry is left. -/
theorem C5_purge_on_head_advance_witness :
    scenarioLedger.packetSyncMap.WF ∧
      (SetCurrentParentHash scenarioEnv scenarioLedger ZERO_HASH 7).state.packetSyncMap =
        [(scenarioEnv.hash scenarioPacket,
          { incomingPeerMap := [("B", true)], packet := scenarioPacket,
            sendPeerMap := [("C", true)] })] :=
  ⟨by unfold GoMap.WF; decide,
    (C5_purge_on_head_advance scenarioEnv scenarioLedger ZERO_HASH 7
      (by unfold GoMap.WF; decide)).1.trans (by decide)⟩

/-- C6 (defect of the code). A packet whose `consensus_data` is the single byte 5 (a
protocol version with no type byte) is not rejected: the handler takes the byte for a
version, reads the type byte at index 1 of a one-byte slice and panics with an index
out of range, whatever the constants, the state and the sender.  These are the only
packets on which the handler does not return: it panics exactly on a packet with a
non-empty signature whose `consensus_data` is one byte that is at least
`MinConsensusNetworkProtocolVersion`. -/
theorem C6_version_byte_only_panics (env : Env) (p : PeerHandler) (fromPeerId : String) :
    HandleConsensusPacket env p
        (some { ParentHash := ZERO_HASH, ConsensusData := [5], Signature := [7, 7] })
        fromPeerId =
      Outcome.panics (Panic.indexOutOfRange 1 1) ∧
    ∀ packet : Option ConsensusPacket,
      (∃ why, HandleConsensusPacket env p packet fromPeerId = Outcome.panics why) ↔
        ∃ pk v, packet = some pk ∧ pk.Signature ≠ [] ∧ pk.ConsensusData = [v] ∧
          v ≥ MinConsensusNetworkProtocolVersion :=
  ⟨rfl, fun packet => HandleConsensusPacket_panics_iff env p packet fromPeerId⟩

/-- C7 fails as stated: the relay of the scenario accepts (returns nil for) an engine
packet whose `consensus_data` is only the version and the type byte: its payload is
empty. -/
theorem C7_counterexample :
    (HandleConsensusPacket scenarioEnv scenarioRelay
        (some { ParentHash := ZERO_HASH, ConsensusData := [5, 0], Signature := [7, 7] })
        "A").accepted = true ∧
      payload [5, 0] = [] := by
  decide

/-- C7, amended. Whenever `HandleConsensusPacket` returns nil, the packet is not nil and
its signature and its `consensus_data` are non-empty (the payload is not checked); a
nil packet and a packet with an empty signature or empty `consensus_data` is rejected
with `InvalidPacketErr`, changes no handler state and starts no task. -/
theorem C7_accepted_packet_fields (env : Env) (p : PeerHandler)
    (packet : Option ConsensusPacket) (fromPeerId : String) :
    ((HandleConsensusPacket env p packet fromPeerId).accepted = true →
      ∃ pk, packet = some pk ∧ pk.Signature ≠ [] ∧ pk.ConsensusData ≠ []) ∧
    ((packet = none ∨ ∃ pk, packet = some pk ∧ (pk.Signature = [] ∨ pk.ConsensusData = [])) →
      HandleConsensusPacket env p packet fromPeerId =
        Outcome.returns p [] (some GoError.InvalidPacketErr)) :=
  ⟨HandleConsensusPacket_accepted env p packet fromPeerId,
    HandleConsensusPacket_reject env p packet fromPeerId⟩

/-- C7 amended, at an accepted engine packet and at a packet without signature. -/
theorem C7_accepted_packet_fields_witness :
    (∃ pk, some scenarioPacket = some pk ∧ pk.Signature ≠ [] ∧ pk.ConsensusData ≠ []) ∧
      HandleConsensusPacket scenarioEnv scenarioRelay
          (some { ParentHash := ZERO_HASH, ConsensusData := [5, 0, 42], Signature := [] }) "A" =
        Outcome.returns scenarioRelay [] (some GoError.InvalidPacketErr) :=
  ⟨(C7_accepted_packet_fields scenarioEnv scenarioRelay (some scenarioPacket) "A").1 (by decide),
    (C7_accepted_packet_fields scenarioEnv scenarioRelay
      (some { ParentHash := ZERO_HASH, ConsensusData := [5, 0, 42], Signature := [] }) "A").2
      (Or.inr ⟨_, rfl, Or.inl rfl⟩)⟩

/-- C8 fails as stated: with the sample constants the type byte 200 is neither
`CAPABILITY`, nor `SYNC`, nor in `PROPOSE..COMMIT`, and the handler returns nil
(success) for a well-formed packet of that type. -/
theorem C8_counterexample :
    typeByte [5, 200, 1] = some 200 ∧
      (200 : Byte) ≠ scenarioEnv.types.CONSENSUS_PACKET_TYPE_CAPABILITY ∧
      (200 : Byte) ≠ scenarioEnv.types.CONSENSUS_PACKET_TYPE_SYNC ∧
      ¬ ((200 : Byte) ≥ scenarioEnv.types.CONSENSUS_PACKET_TYPE_PROPOSE_BLOCK ∧
        (200 : Byte) ≤ scenarioEnv.types.CONSENSUS_PACKET_TYPE_COMMIT_BLOCK) ∧
      HandleConsensusPacket scenarioEnv scenarioRelay
          (some { ParentHash := ZERO_HASH, ConsensusData := [5, 200, 1], Signature := [7, 7] })
          "A" =
        Outcome.returns scenarioRelay [] none := by
  decide

/-- C8, amended. For every packet with non-empty signature whose `consensus_data` has a
type byte that is neither `CAPABILITY`, nor `SYNC`, nor in the range `PROPOSE..COMMIT`,
`HandleConsensusPacket` only logs the packet as unhandled: it returns nil (success),
changes no handler state and starts no task. -/
theorem C8_unknown_type_is_ignored (env : Env) (p : PeerHandler) (pk : ConsensusPacket)
    (fromPeerId : String) (t : Byte)
    (hsig : pk.Signature ≠ [])
    (htype : typeByte pk.ConsensusData = some t)
    (hcap : t ≠ env.types.CONSENSUS_PACKET_TYPE_CAPABILITY)
    (hsync : t ≠ env.types.CONSENSUS_PACKET_TYPE_SYNC)
    (hengine : ¬ (t ≥ env.types.CONSENSUS_PACKET_TYPE_PROPOSE_BLOCK ∧
      t ≤ env.types.CONSENSUS_PACKET_TYPE_COMMIT_BLOCK)) :
    HandleConsensusPacket env p (some pk) fromPeerId = Outcome.returns p [] none := by
  obtain ⟨parent, data, sig⟩ := pk
  cases data with
  | nil => simp [typeByte] at htype
  | cons first rest =>
    simp only [typeByte] at htype
    have hsig' : ¬ sig.length = 0 := fun e => hsig (List.length_eq_zero.mp e)
    by_cases hv : first ≥ MinConsensusNetworkProtocolVersion
    · simp only [hv, if_true] at htype
      have htype' : rest[0]? = some t := by simpa using htype
      simp [HandleConsensusPacket, hsig', hv, htype', hcap, hsync, hengine]
    · simp only [hv, if_false, Option.some.injEq] at htype
      subst htype
      simp [HandleConsensusPacket, hsig', hv, hcap, hsync, hengine]

/-- C8 amended, at the packet of the counterexample. -/
theorem C8_unknown_type_is_ignored_witness :
    HandleConsensusPacket scenarioEnv scenarioRelay
        (some { ParentHash := ZERO_HASH, ConsensusData := [5, 200, 1], Signature := [7, 7] })
        "A" =
      Outcome.returns scenarioRelay [] none :=
  C8_unknown_type_is_ignored scenarioEnv scenarioRelay
    { ParentHash := ZERO_HASH, ConsensusData := [5, 200, 1], Signature := [7, 7] } "A" 200
    (by decide) (by decide) (by decide) (by decide) (by decide)

/-- C9. Control packets survive the round trip.  With a signer set, for every
`CapabilityDetails` (resp. `RequestConsensusSyncDetails`) value `d` that the codec
encodes to `b` and decodes back from `b`, and a signer that returns a non-empty
signature `sig` for `ZERO_HASH ++ data`, where `data` is the version byte 5, the type
byte and `b`: `CreateConsensusPacket` returns the packet with parent hash zero, the
data unchanged and the signature `sig`; the type byte of the data is the tag (index 1)
and its payload is `b` (from index 2); and `HandleConsensusPacket` dispatches that
packet to `HandleCapabilityPacket` (resp. `HandleRequestConsensusSync`) with the same
`d`.  What `SendCapabilityPacket` and `SendRequestConsensusSyncPacket` hand to the
transport is exactly such a packet, built from the details of the local node.  And
they do hand it over: when the transport is set, the chain has reached
`PACKET_PROTOCOL_START_BLOCK` (and, for the capability packet, the node is a relay),
the codec encodes the local details to `b` and the signer returns `sig`, the one call
of the transport is made with the packet of parent hash zero, data `[5, type] ++ b` and
signature `sig`, and the error returned is the transport's; when moreover the codec
decodes `b` back and `sig` is not empty, a receiver of that packet dispatches it with
the details of the sender. -/
theorem C9_control_packet_round_trip (env : Env) (sign : Bytes → Except GoError Bytes)
    (hsign : env.signFn = some sign)
    (hne : env.types.CONSENSUS_PACKET_TYPE_SYNC ≠ env.types.CONSENSUS_PACKET_TYPE_CAPABILITY) :
    (∀ (d : CapabilityDetails) (b sig : Bytes),
      env.encodeCapability d = Except.ok b → env.decodeCapability b = Except.ok d →
      sign (ZERO_HASH ++ ([ConsensusNetworkProtocolVersion] ++
        ([env.types.CONSENSUS_PACKET_TYPE_CAPABILITY] ++ b))) = Except.ok sig →
      sig ≠ [] →
        CreateConsensusPacket env ([ConsensusNetworkProtocolVersion] ++
            ([env.types.CONSENSUS_PACKET_TYPE_CAPABILITY] ++ b)) =
          Except.ok { ParentHash := ZERO_HASH,
                      ConsensusData := [ConsensusNetworkProtocolVersion] ++
                        ([env.types.CONSENSUS_PACKET_TYPE_CAPABILITY] ++ b),
                      Signature := sig } ∧
        ConsensusNetworkProtocolVersion = 5 ∧
        typeByte ([ConsensusNetworkProtocolVersion] ++
            ([env.types.CONSENSUS_PACKET_TYPE_CAPABILITY] ++ b)) =
          some env.types.CONSENSUS_PACKET_TYPE_CAPABILITY ∧
        payload ([ConsensusNetworkProtocolVersion] ++
            ([env.types.CONSENSUS_PACKET_TYPE_CAPABILITY] ++ b)) = b ∧
        ∀ (p : PeerHandler) (fromPeerId : String),
          HandleConsensusPacket env p
              (some { ParentHash := ZERO_HASH,
                      ConsensusData := [ConsensusNetworkProtocolVersion] ++
                        ([env.types.CONSENSUS_PACKET_TYPE_CAPABILITY] ++ b),
                      Signature := sig })
              fromPeerId =
            Outcome.returns p [Task.HandleCapabilityPacket d fromPeerId] none) ∧
    (∀ (d : RequestConsensusSyncDetails) (b sig : Bytes),
      env.encodeSync d = Except.ok b → env.decodeSync b = Except.ok d →
      sign (ZERO_HASH ++ ([ConsensusNetworkProtocolVersion] ++
        ([env.types.CONSENSUS_PACKET_TYPE_SYNC] ++ b))) = Except.ok sig →
      sig ≠ [] →
        CreateConsensusPacket env ([ConsensusNetworkProtocolVersion] ++
            ([env.types.CONSENSUS_PACKET_TYPE_SYNC] ++ b)) =
          Except.ok { ParentHash := ZERO_HASH,
                      ConsensusData := [ConsensusNetworkProtocolVersion] ++
                        ([env.types.CONSENSUS_PACKET_TYPE_SYNC] ++ b),
                      Signature := sig } ∧
        typeByte ([ConsensusNetworkProtocolVersion] ++
            ([env.types.CONSENSUS_PACKET_TYPE_SYNC] ++ b)) =
          some env.types.CONSENSUS_PACKET_TYPE_SYNC ∧
        payload ([ConsensusNetworkProtocolVersion] ++
            ([env.types.CONSENSUS_PACKET_TYPE_SYNC] ++ b)) = b ∧
        ∀ (p : PeerHandler) (fromPeerId : String),
          HandleConsensusPacket env p
              (some { ParentHash := ZERO_HASH,
                      ConsensusData := [ConsensusNetworkProtocolVersion] ++
                        ([env.types.CONSENSUS_PACKET_TYPE_SYNC] ++ b),
                      Signature := sig })
              fromPeerId =
            Outcome.returns p [Task.HandleRequestConsensusSync d fromPeerId] none) ∧
    (∀ (p : PeerHandler) (peerList : List String) (s : List String × ConsensusPacket),
      s ∈ (SendCapabilityPacket env p peerList).sent →
        s.1 = peerList ∧
          ∃ b, env.encodeCapability { IsConsensusRelay := true, PeerId := p.localPeerId } =
              Except.ok b ∧
            CreateConsensusPacket env ([ConsensusNetworkProtocolVersion] ++
              ([env.types.CONSENSUS_PACKET_TYPE_CAPABILITY] ++ b)) = Except.ok s.2) ∧
    (∀ (p : PeerHandler) (peerId : String) (s : List String × ConsensusPacket),
      s ∈ (SendRequestConsensusSyncPacket env p peerId).sent →
        s.1 = [peerId] ∧
          ∃ b, env.encodeSync
                { IsConsensusRelay := p.isConsensusRelay, PeerId := p.localPeerId } =
              Except.ok b ∧
            CreateConsensusPacket env ([ConsensusNetworkProtocolVersion] ++
              ([env.types.CONSENSUS_PACKET_TYPE_SYNC] ++ b)) = Except.ok s.2) ∧
    (∀ (p : PeerHandler) (peerList : List String) (b sig : Bytes),
      env.p2pHandlerSet = true → p.isConsensusRelay = true →
      ¬ env.latestBlockNumber < env.PACKET_PROTOCOL_START_BLOCK →
      env.encodeCapability { IsConsensusRelay := true, PeerId := p.localPeerId } =
        Except.ok b →
      sign (ZERO_HASH ++ ([ConsensusNetworkProtocolVersion] ++
        ([env.types.CONSENSUS_PACKET_TYPE_CAPABILITY] ++ b))) = Except.ok sig →
        SendCapabilityPacket env p peerList =
          { state := p,
            sent := [(peerList, { ParentHash := ZERO_HASH,
                                  ConsensusData := [ConsensusNetworkProtocolVersion] ++
                                    ([env.types.CONSENSUS_PACKET_TYPE_CAPABILITY] ++ b),
                                  Signature := sig })],
            err := env.transportSend peerList
              { ParentHash := ZERO_HASH,
                ConsensusData := [ConsensusNetworkProtocolVersion] ++
                  ([env.types.CONSENSUS_PACKET_TYPE_CAPABILITY] ++ b),
                Signature := sig } } ∧
        (env.decodeCapability b =
            Except.ok { IsConsensusRelay := true, PeerId := p.localPeerId } →
          sig ≠ [] →
          ∀ (q : PeerHandler) (fromPeerId : String),
          HandleConsensusPacket env q
              (some { ParentHash := ZERO_HASH,
                      ConsensusData := [ConsensusNetworkProtocolVersion] ++
                        ([env.types.CONSENSUS_PACKET_TYPE_CAPABILITY] ++ b),
                      Signature := sig })
              fromPeerId =
            Outcome.returns q
              [Task.HandleCapabilityPacket
                { IsConsensusRelay := true, PeerId := p.localPeerId } fromPeerId] none)) ∧
    (∀ (p : PeerHandler) (peerId : String) (b sig : Bytes),
      env.p2pHandlerSet = true →
      ¬ env.latestBlockNumber < env.PACKET_PROTOCOL_START_BLOCK →
      env.encodeSync { IsConsensusRelay := p.isConsensusRelay, PeerId := p.localPeerId } =
        Except.ok b →
      sign (ZERO_HASH ++ ([ConsensusNetworkProtocolVersion] ++
        ([env.types.CONSENSUS_PACKET_TYPE_SYNC] ++ b))) = Except.ok sig →
        (SendRequestConsensusSyncPacket env p peerId).sent =
          [([peerId], { ParentHash := ZERO_HASH,
                        ConsensusData := [ConsensusNetworkProtocolVersion] ++
                          ([env.types.CONSENSUS_PACKET_TYPE_SYNC] ++ b),
                        Signature := sig })] ∧
        (SendRequestConsensusSyncPacket env p peerId).err =
          env.transportSend [peerId]
            { ParentHash := ZERO_HASH,
              ConsensusData := [ConsensusNetworkProtocolVersion] ++
                ([env.types.CONSENSUS_PACKET_TYPE_SYNC] ++ b),
              Signature := sig } ∧
        (env.decodeSync b =
            Except.ok { IsConsensusRelay := p.isConsensusRelay, PeerId := p.localPeerId } →
          sig ≠ [] →
          ∀ (q : PeerHandler) (fromPeerId : String),
          HandleConsensusPacket env q
              (some { ParentHash := ZERO_HASH,
                      ConsensusData := [ConsensusNetworkProtocolVersion] ++
                        ([env.types.CONSENSUS_PACKET_TYPE_SYNC] ++ b),
                      Signature := sig })
              fromPeerId =
            Outcome.returns q
              [Task.HandleRequestConsensusSync
                { IsConsensusRelay := p.isConsensusRelay, PeerId := p.localPeerId }
                fromPeerId] none)) := by
  refine ⟨?_, ?_, SendCapabilityPacket_sent env, SendRequestConsensusSyncPacket_sent env,
    ?_, ?_⟩
  · intro d b sig _ hdec hs hsig
    refine ⟨CreateConsensusPacket_ok env sign hsign _ sig hs, rfl, ?_, ?_, ?_⟩
    · simp [typeByte, ConsensusNetworkProtocolVersion, MinConsensusNetworkProtocolVersion]
    · simp [payload, ConsensusNetworkProtocolVersion, MinConsensusNetworkProtocolVersion]
    · intro p fromPeerId
      exact HandleConsensusPacket_capability env p ZERO_HASH b sig d fromPeerId hsig hdec
  · intro d b sig _ hdec hs hsig
    refine ⟨CreateConsensusPacket_ok env sign hsign _ sig hs, ?_, ?_, ?_⟩
    · simp [typeByte, ConsensusNetworkProtocolVersion, MinConsensusNetworkProtocolVersion]
    · simp [payload, ConsensusNetworkProtocolVersion, MinConsensusNetworkProtocolVersion]
    · intro p fromPeerId
      exact HandleConsensusPacket_sync env p ZERO_HASH b sig d fromPeerId hsig hne hdec
  · intro p peerList b sig h1 h2 h3 henc hs
    refine ⟨SendCapabilityPacket_ok env sign hsign p peerList b sig h1 h2 h3 henc hs, ?_⟩
    intro hdec hsig q fromPeerId
    exact HandleConsensusPacket_capability env q ZERO_HASH b sig _ fromPeerId hsig hdec
  · intro p peerId b sig h1 h3 henc hs
    obtain ⟨e1, e2⟩ :=
      SendRequestConsensusSyncPacket_ok env sign hsign p peerId b sig h1 h3 henc hs
    refine ⟨e1, e2, ?_⟩
    intro hdec hsig q fromPeerId
    exact HandleConsensusPacket_sync env q ZERO_HASH b sig _ fromPeerId hsig hne hdec

/-- C9, under the sample codec and signer: the relay L announces itself to A, the one
call of the transport carries the data `[5, 11, 1, 76]`, and a receiver of that packet
reads back the details of L; the sync request of L to X carries the data
`[5, 10, 1, 76]`; and the announcement `[5, 11, 1, 88]` of the relay X is read back as
the details of X. -/
theorem C9_control_packet_round_trip_witness :
    scenarioEnv.signFn = some scenarioSign ∧
      scenarioEnv.types.CONSENSUS_PACKET_TYPE_SYNC ≠
        scenarioEnv.types.CONSENSUS_PACKET_TYPE_CAPABILITY ∧
      (SendCapabilityPacket scenarioEnv scenarioRelay ["A"] =
          { state := scenarioRelay,
            sent := [(["A"], { ParentHash := ZERO_HASH, ConsensusData := [5, 11, 1, 76],
                               Signature := [7, 7] })],
            err := none } ∧
        ∀ (q : PeerHandler) (fromPeerId : String),
          HandleConsensusPacket scenarioEnv q
              (some { ParentHash := ZERO_HASH, ConsensusData := [5, 11, 1, 76],
                      Signature := [7, 7] })
              fromPeerId =
            Outcome.returns q
              [Task.HandleCapabilityPacket { IsConsensusRelay := true, PeerId := "L" }
                fromPeerId] none) ∧
      (SendRequestConsensusSyncPacket scenarioEnv scenarioRelay "X").sent =
        [(["X"], { ParentHash := ZERO_HASH, ConsensusData := [5, 10, 1, 76],
                   Signature := [7, 7] })] ∧
      HandleConsensusPacket scenarioEnv scenarioRelay
          (some { ParentHash := ZERO_HASH, ConsensusData := [5, 11, 1, 88],
                  Signature := [7, 7] })
          "X" =
        Outcome.returns scenarioRelay
          [Task.HandleCapabilityPacket { IsConsensusRelay := true, PeerId := "X" } "X"] none :=
  ⟨rfl, by decide,
    ⟨((C9_control_packet_round_trip scenarioEnv scenarioSign rfl (by decide)).2.2.2.2.1
        scenarioRelay ["A"] [1, 76] [7, 7] rfl rfl (by decide) rfl rfl).1,
      ((C9_control_packet_round_trip scenarioEnv scenarioSign rfl (by decide)).2.2.2.2.1
        scenarioRelay ["A"] [1, 76] [7, 7] rfl rfl (by decide) rfl rfl).2 rfl (by decide)⟩,
    ((C9_control_packet_round_trip scenarioEnv scenarioSign rfl (by decide)).2.2.2.2.2
      scenarioRelay "X" [1, 76] [7, 7] rfl (by decide) rfl rfl).1,
    ((C9_control_packet_round_trip scenarioEnv scenarioSign rfl (by decide)).1
      { IsConsensusRelay := true, PeerId := "X" } [1, 88] [7, 7] rfl rfl rfl
      (by decide)).2.2.2.2 scenarioRelay "X"⟩

/-- C10. `HandleCapabilityPacket(d, from)`: when `d.IsConsensusRelay` is false or
`d.PeerId` differs from `from`, the state is unchanged and nothing is started;
otherwise the only change of state is that `peerMap[from]` is bound to the peer with
capability `d`, and the call of `SendRequestConsensusSyncPacket(from)` is started
exactly when this node is a relay or has no relay peer (nothing else is started). -/
theorem C10_capability_packet (p : PeerHandler) (d : CapabilityDetails)
    (fromPeerId : String) :
    ((d.IsConsensusRelay = false ∨ d.PeerId ≠ fromPeerId) →
      HandleCapabilityPacket p d fromPeerId = { state := p, spawned := [] }) ∧
    (d.IsConsensusRelay = true → d.PeerId = fromPeerId →
      (HandleCapabilityPacket p d fromPeerId).state =
          { p with peerMap := p.peerMap.insert fromPeerId ⟨some d, fromPeerId⟩ } ∧
        (HandleCapabilityPacket p d fromPeerId).state.peerMap.lookup fromPeerId =
          some ⟨some d, fromPeerId⟩ ∧
        (HandleCapabilityPacket p d fromPeerId).spawned =
          if p.isConsensusRelay = true ∨ p.consensusRelayMap = [] then
            [Task.SendRequestConsensusSyncPacket fromPeerId]
          else []) := by
  constructor
  · intro h
    have h' : d.IsConsensusRelay = false ∨ fromPeerId ≠ d.PeerId :=
      h.imp id (fun a b => a b.symm)
    simp only [HandleCapabilityPacket, h', if_true]
  · intro h1 h2
    subst h2
    have h' : ¬ (d.IsConsensusRelay = false ∨ d.PeerId ≠ d.PeerId) := by simp [h1]
    have hlen : p.consensusRelayMap.len = 0 ↔ p.consensusRelayMap = [] := by
      unfold GoMap.len
      exact List.length_eq_zero
    simp only [HandleCapabilityPacket, h', if_false, GoMap.lookup_insert_self, hlen, and_self]

/-- C10, at the announcement of the relay X arriving from X at the relay of the
scenario: X is bound with its capability and the sync request to X is started; run
with the sample transport, it writes one `SYNC` packet to X. -/
theorem C10_capability_packet_witness :
    (HandleCapabilityPacket scenarioRelay { IsConsensusRelay := true, PeerId := "X" }
          "X").state.peerMap.lookup "X" =
        some ⟨some { IsConsensusRelay := true, PeerId := "X" }, "X"⟩ ∧
      (HandleCapabilityPacket scenarioRelay { IsConsensusRelay := true, PeerId := "X" }
          "X").spawned = [Task.SendRequestConsensusSyncPacket "X"] ∧
      HandleCapabilityPacket scenarioRelay { IsConsensusRelay := true, PeerId := "X" } "Y" =
        { state := scenarioRelay, spawned := [] } ∧
      (SendRequestConsensusSyncPacket scenarioEnv
          (HandleCapabilityPacket scenarioRelay { IsConsensusRelay := true, PeerId := "X" }
            "X").state "X").sent =
        [(["X"], { ParentHash := ZERO_HASH, ConsensusData := [5, 10, 1, 76],
                   Signature := [7, 7] })] :=
  ⟨((C10_capability_packet scenarioRelay { IsConsensusRelay := true, PeerId := "X" } "X").2
      rfl rfl).2.1,
    ((C10_capability_packet scenarioRelay { IsConsensusRelay := true, PeerId := "X" } "X").2
      rfl rfl).2.2.trans (by decide),
    (C10_capability_packet scenarioRelay { IsConsensusRelay := true, PeerId := "X" } "Y").1
      (Or.inr (by decide)),
    by decide⟩

/-- C12 (defect of the code). `ConnectAvailableConsensusRelay` reads
`v.capabilityDetails.IsConsensusRelay` for the entries of `peerMap` it visits, and
`OnPeerConnected` inserts entries whose `capabilityDetails` is nil: on a node with the
connected peer A that has announced nothing, the disconnection of B leaves no relay
peer, starts the resubscription, and the resubscription panics with a nil pointer
dereference.  In general the call panics as soon as it visits an entry without
capability; on a peer map whose entries all have a capability bound it completes
and requests sync from the first visited peer that announced relay capability, and
from nobody when there is none. -/
theorem C12_resubscription_nil_capability :
    (OnPeerDisconnected (OnPeerConnected (NewPeerHandler false) "A").state "B").spawned =
        [Task.ConnectAvailableConsensusRelay] ∧
      ConnectAvailableConsensusRelay
          (OnPeerDisconnected (OnPeerConnected (NewPeerHandler false) "A").state "B").state =
        Outcome.panics Panic.nilPointerDereference ∧
      (∀ (p : PeerHandler) (k : String) (v : PeerDetails) (rest : GoMap String PeerDetails),
        p.peerMap = (k, v) :: rest → v.capabilityDetails = none →
          ConnectAvailableConsensusRelay p = Outcome.panics Panic.nilPointerDereference) ∧
      (∀ p : PeerHandler, (∀ e, e ∈ p.peerMap → e.2.capabilityDetails ≠ none) →
        ∃ tasks : List Task,
          ConnectAvailableConsensusRelay p = Outcome.returns p tasks none ∧
          tasks.length ≤ 1 ∧
          (∀ t, t ∈ tasks → ∃ e c, e ∈ p.peerMap ∧ e.2.capabilityDetails = some c ∧
            c.IsConsensusRelay = true ∧ t = Task.SendRequestConsensusSyncPacket e.1) ∧
          ((∃ e c, e ∈ p.peerMap ∧ e.2.capabilityDetails = some c ∧
            c.IsConsensusRelay = true) → tasks ≠ [])) := by
  refine ⟨by decide, by decide, ?_, ?_⟩
  · intro p k v rest hp hv
    simp [ConnectAvailableConsensusRelay, hp, connectAvailableLoop, hv]
  · intro p
    unfold ConnectAvailableConsensusRelay
    generalize p.peerMap = m
    induction m with
    | nil =>
      intro _
      exact ⟨[], rfl, by simp, by simp, by simp⟩
    | cons e m ih =>
      intro hall
      obtain ⟨k, v⟩ := e
      have hv := hall (k, v) (List.mem_cons_self _ _)
      cases hc : v.capabilityDetails with
      | none => exact absurd hc hv
      | some c =>
        by_cases hr : c.IsConsensusRelay = true
        · refine ⟨[Task.SendRequestConsensusSyncPacket k], by simp [connectAvailableLoop, hc, hr],
            by simp, ?_, by simp⟩
          intro t ht
          simp only [List.mem_singleton] at ht
          exact ⟨(k, v), c, List.mem_cons_self _ _, hc, hr, ht⟩
        · obtain ⟨tasks, h1, h2, h3, h4⟩ := ih (fun e he => hall e (List.mem_cons_of_mem _ he))
          refine ⟨tasks, by simp [connectAvailableLoop, hc, hr, h1], h2, ?_, ?_⟩
          · intro t ht
            obtain ⟨e, c', he, hc', hr', rfl⟩ := h3 t ht
            exact ⟨e, c', List.mem_cons_of_mem _ he, hc', hr', rfl⟩
          · rintro ⟨e, c', he, hc', hr'⟩
            rcases List.mem_cons.mp he with rfl | he
            · rw [hc] at hc'
              cases hc'
              exact absurd hr' hr
            · exact h4 ⟨e, c', he, hc', hr'⟩

/-- C12, at a peer map with one entry without capability (the call panics) and at a
peer map whose entries Y and X both have a capability bound, X with the relay flag
(the call completes and asks one peer). -/
theorem C12_resubscription_nil_capability_witness :
    ConnectAvailableConsensusRelay
        { NewPeerHandler false with peerMap := [("B", ⟨none, "B"⟩)] } =
      Outcome.panics Panic.nilPointerDereference ∧
    ∃ tasks : List Task,
      ConnectAvailableConsensusRelay
          { NewPeerHandler false with
            peerMap :=
              [("Y", ⟨some { IsConsensusRelay := false, PeerId := "Y" }, "Y"⟩),
                ("X", ⟨some { IsConsensusRelay := true, PeerId := "X" }, "X"⟩)] } =
        Outcome.returns
          { NewPeerHandler false with
            peerMap :=
              [("Y", ⟨some { IsConsensusRelay := false, PeerId := "Y" }, "Y"⟩),
                ("X", ⟨some { IsConsensusRelay := true, PeerId := "X" }, "X"⟩)] }
          tasks none ∧
      tasks.length ≤ 1 ∧
      (∀ t, t ∈ tasks → ∃ e c,
        e ∈ ([("Y", ⟨some { IsConsensusRelay := false, PeerId := "Y" }, "Y"⟩),
              ("X", ⟨some { IsConsensusRelay := true, PeerId := "X" }, "X"⟩)] :
              GoMap String PeerDetails) ∧
          e.2.capabilityDetails = some c ∧
          c.IsConsensusRelay = true ∧ t = Task.SendRequestConsensusSyncPacket e.1) ∧
      ((∃ e c,
        e ∈ ([("Y", ⟨some { IsConsensusRelay := false, PeerId := "Y" }, "Y"⟩),
              ("X", ⟨some { IsConsensusRelay := true, PeerId := "X" }, "X"⟩)] :
              GoMap String PeerDetails) ∧
          e.2.capabilityDetails = some c ∧ c.IsConsensusRelay = true) → tasks ≠ []) :=
  ⟨C12_resubscription_nil_capability.2.2.1
      { NewPeerHandler false with peerMap := [("B", ⟨none, "B"⟩)] } "B" ⟨none, "B"⟩ [] rfl rfl,
    C12_resubscription_nil_capability.2.2.2
      { NewPeerHandler false with
        peerMap :=
          [("Y", ⟨some { IsConsensusRelay := false, PeerId := "Y" }, "Y"⟩),
            ("X", ⟨some { IsConsensusRelay := true, PeerId := "X" }, "X"⟩)] }
      (by decide)⟩

/-- C13 fails as stated: the entry was forwarded at second 1 and the call comes at
second 31, exactly `MIN_REBROADCAST_DELAY` later; the call returns false and changes
nothing. -/
theorem C13_counterexample :
    (31000000000 : Nat) - 1000000000 = 30000 * Millisecond ∧
      ShouldRebroadcastIfYesSetFlag 31000000000
          { rebroadcastMap := [(scenarioHash1, 1000000000)], rebroadcastLastCleanupTime := 0 }
          scenarioHash1 =
        ({ rebroadcastMap := [(scenarioHash1, 1000000000)], rebroadcastLastCleanupTime := 0 },
          false) := by
  decide

/-- C13, amended. `ShouldRebroadcastIfYesSetFlag(h)` at the clock reading `now`: when
`h` is absent it returns true and `h` is bound to `now` afterwards.  When `h` is bound
to `last`, it returns false exactly when the age in whole milliseconds,
`now / 1ms - last / 1ms`, is at most 30000 (so also when exactly the minimum delay
has elapsed), and then the cache is unchanged; otherwise it returns true and the only
change is that `h` is bound to `now`. -/
theorem C13_rebroadcast_decision (now : Nat) (h : RebroadcastCache) (packetHash : Hash) :
    (GoMap.lookup h.rebroadcastMap packetHash = none →
      (ShouldRebroadcastIfYesSetFlag now h packetHash).2 = true ∧
        GoMap.lookup (ShouldRebroadcastIfYesSetFlag now h packetHash).1.rebroadcastMap
          packetHash = some now) ∧
    (∀ last, GoMap.lookup h.rebroadcastMap packetHash = some last →
      ((ShouldRebroadcastIfYesSetFlag now h packetHash).2 = false ↔
        ((now / Millisecond : Nat) : Int) - ((last / Millisecond : Nat) : Int) ≤
          REBROADCAST_MIN_DELAY_PACKET_HASH) ∧
      ((ShouldRebroadcastIfYesSetFlag now h packetHash).2 = false →
        (ShouldRebroadcastIfYesSetFlag now h packetHash).1 = h) ∧
      ((ShouldRebroadcastIfYesSetFlag now h packetHash).2 = true →
        (ShouldRebroadcastIfYesSetFlag now h packetHash).1 =
          { h with rebroadcastMap := h.rebroadcastMap.insert packetHash now })) := by
  constructor
  · intro hl
    refine ⟨?_, ShouldRebroadcast_absent_lookup now h packetHash hl⟩
    rw [ShouldRebroadcast_absent now h packetHash hl]
  · intro last hl
    rw [ShouldRebroadcast_present now h packetHash last hl]
    by_cases hs : ageMillis now last > REBROADCAST_MIN_DELAY_PACKET_HASH
    · rw [if_pos hs]
      exact ⟨⟨fun e => by simp at e, fun h' => absurd hs (not_lt.mpr h')⟩,
        fun e => by simp at e, fun _ => rfl⟩
    · rw [if_neg hs]
      exact ⟨⟨fun _ => not_lt.mp hs, fun _ => rfl⟩, fun _ => rfl, fun e => by simp at e⟩

/-- C13 amended, at an absent hash and at an entry that is 30.001 s old. -/
theorem C13_rebroadcast_decision_witness :
    ((ShouldRebroadcastIfYesSetFlag 5000000000
          { rebroadcastMap := [], rebroadcastLastCleanupTime := 0 } scenarioHash1).2 = true ∧
        GoMap.lookup (ShouldRebroadcastIfYesSetFlag 5000000000
          { rebroadcastMap := [], rebroadcastLastCleanupTime := 0 }
          scenarioHash1).1.rebroadcastMap scenarioHash1 = some 5000000000) ∧
      (ShouldRebroadcastIfYesSetFlag 31001000000
          { rebroadcastMap := [(scenarioHash1, 1000000000)], rebroadcastLastCleanupTime := 0 }
          scenarioHash1).1 =
        { rebroadcastMap := [(scenarioHash1, 31001000000)], rebroadcastLastCleanupTime := 0 } :=
  ⟨(C13_rebroadcast_decision 5000000000
      { rebroadcastMap := [], rebroadcastLastCleanupTime := 0 } scenarioHash1).1 rfl,
    ((C13_rebroadcast_decision 31001000000
      { rebroadcastMap := [(scenarioHash1, 1000000000)], rebroadcastLastCleanupTime := 0 }
      scenarioHash1).2 1000000000 rfl).2.2 (by decide)⟩

/-- C14. From a cache without duplicate keys and for calls at non-decreasing clock
readings, two calls of `ShouldRebroadcastIfYesSetFlag` for the same hash that both
return true are more than `MIN_REBROADCAST_DELAY` (30000 ms) apart in nanosecond
time - whatever calls for this and other hashes lie in between, cleanups that evict
the entry included, and although the stamps are compared in whole milliseconds. -/
theorem C14_rebroadcast_throttling (h : RebroadcastCache) (calls : List (Hash × Nat))
    (hwf : GoMap.WF h.rebroadcastMap)
    (hsorted : calls.Pairwise (fun a b => a.2 ≤ b.2))
    (k : Hash) (i j ti tj : Nat) (hij : i < j)
    (hi : calls[i]? = some (k, ti)) (hj : calls[j]? = some (k, tj))
    (ri : (rebroadcastRun h calls)[i]? = some true)
    (rj : (rebroadcastRun h calls)[j]? = some true) :
    ti + 30000 * Millisecond < tj :=
  throttle_pair calls h hwf hsorted k i j ti tj hij hi hj ri rj

/-- C14, at four calls: hash 1 at 0 s (true), again at 1 s (false), hash 2 at 2 s, and
hash 1 at 31.5 s (true). -/
theorem C14_rebroadcast_throttling_witness :
    rebroadcastRun { rebroadcastMap := [], rebroadcastLastCleanupTime := 0 }
        [(scenarioHash1, 0), (scenarioHash1, 1000000000), (scenarioHash2, 2000000000),
          (scenarioHash1, 31500000000)] = [true, false, true, true] ∧
      0 + 30000 * Millisecond < 31500000000 :=
  ⟨by decide,
    C14_rebroadcast_throttling { rebroadcastMap := [], rebroadcastLastCleanupTime := 0 }
      [(scenarioHash1, 0), (scenarioHash1, 1000000000), (scenarioHash2, 2000000000),
        (scenarioHash1, 31500000000)]
      (by unfold GoMap.WF; decide) (by decide) scenarioHash1 0 3 0 31500000000 (by decide)
      rfl rfl (by decide) (by decide)⟩

/-- C15 fails as stated: 1000 s after the last cleanup a call for a hash that is in the
table (forwarded one second ago) returns false and cleans nothing: the entry of hash 1,
1000 s old, is still there and the cleanup time has not moved. -/
theorem C15_counterexample :
    Elapsed 1000000000000 0 ≥ REBROADCAST_CLEANUP_TIMER_MILLI_SECONDS ∧
      ageMillis 1000000000000 0 > REBROADCAST_CLEANUP_MILLI_SECONDS ∧
      ShouldRebroadcastIfYesSetFlag 1000000000000
          { rebroadcastMap := [(scenarioHash1, 0), (scenarioHash2, 999000000000)],
            rebroadcastLastCleanupTime := 0 }
          scenarioHash2 =
        ({ rebroadcastMap := [(scenarioHash1, 0), (scenarioHash2, 999000000000)],
           rebroadcastLastCleanupTime := 0 }, false) := by
  decide

/-- C15, amended. The cleanup runs only in a call for a hash that is not in the table,
and only when more than `CLEANUP_INTERVAL` (900000 ms, in whole milliseconds) has
elapsed since the last cleanup: after such a call every entry of the table is at most
`CLEANUP_AGE` (300000 whole milliseconds) old and the cleanup time is `now`.  A call
for a hash that is in the table evicts no entry and leaves the cleanup time as it
was. -/
theorem C15_lazy_cleanup (now : Nat) (h : RebroadcastCache) (packetHash : Hash) :
    (GoMap.lookup h.rebroadcastMap packetHash = none →
      Elapsed now h.rebroadcastLastCleanupTime > REBROADCAST_CLEANUP_TIMER_MILLI_SECONDS →
        (∀ e, e ∈ (ShouldRebroadcastIfYesSetFlag now h packetHash).1.rebroadcastMap →
          ((now / Millisecond : Nat) : Int) - ((e.2 / Millisecond : Nat) : Int) ≤
            REBROADCAST_CLEANUP_MILLI_SECONDS) ∧
        (ShouldRebroadcastIfYesSetFlag now h packetHash).1.rebroadcastLastCleanupTime = now) ∧
    (∀ last, GoMap.lookup h.rebroadcastMap packetHash = some last →
      (ShouldRebroadcastIfYesSetFlag now h packetHash).1.rebroadcastLastCleanupTime =
          h.rebroadcastLastCleanupTime ∧
        ∀ e, e ∈ h.rebroadcastMap → e.1 ≠ packetHash →
          e ∈ (ShouldRebroadcastIfYesSetFlag now h packetHash).1.rebroadcastMap) := by
  constructor
  · intro hl hel
    rw [ShouldRebroadcast_absent now h packetHash hl]
    simp only [hel, if_true, and_true]
    intro e he
    exact cleanupLoop_mem now _ e he
  · intro last hl
    rw [ShouldRebroadcast_present now h packetHash last hl]
    split
    · exact ⟨rfl, fun e he hk => GoMap.mem_insert_of_ne _ _ _ e he hk⟩
    · exact ⟨rfl, fun e he _ => he⟩

/-- C15 amended, at a call for a new hash 1000 s after the last cleanup: the entry of
hash 1, 1000 s old, is evicted. -/
theorem C15_lazy_cleanup_witness :
    (ShouldRebroadcastIfYesSetFlag 1000000000000
        { rebroadcastMap := [(scenarioHash1, 0)], rebroadcastLastCleanupTime := 0 }
        scenarioHash2).1 =
      { rebroadcastMap := [(scenarioHash2, 1000000000000)],
        rebroadcastLastCleanupTime := 1000000000000 } ∧
    (ShouldRebroadcastIfYesSetFlag 1000000000000
        { rebroadcastMap := [(scenarioHash1, 0)], rebroadcastLastCleanupTime := 0 }
        scenarioHash2).1.rebroadcastLastCleanupTime = (1000000000000 : Nat) :=
  ⟨by decide,
    ((C15_lazy_cleanup 1000000000000
      { rebroadcastMap := [(scenarioHash1, 0)], rebroadcastLastCleanupTime := 0 }
      scenarioHash2).1 rfl (by decide)).2⟩

/-- C16. With a cap `maxActiveDials` that is not negative, every state the loop reaches
from a state with an empty dialing map, by any passes (any events, clock readings and
random draws), has at most `maxActiveDials` tasks in the dialing map. -/
theorem C16_active_dials_bounded (cfg : dialConfig) (d d' : dialScheduler)
    (passes : List dialPass) (log : List dialStart)
    (hcap : 0 ≤ cfg.maxActiveDials) (hempty : d.dialing = [])
    (hrun : dialRun cfg d passes = some (d', log)) :
    (d'.dialing.len : Int) ≤ cfg.maxActiveDials := by
  refine dialRun_dialing_bound cfg passes d d' log ?_ hrun
  rw [hempty]
  exact hcap

/-- C16, at the run in which the candidate nodes 1 and 2 are dialed. -/
theorem C16_active_dials_bounded_witness :
    dialRun scenarioDialConfig newDialScheduler scenarioTwoCandidates =
        some (scenarioDialed,
          [{ time := 1000, id := 1, task := 0 }, { time := 2000, id := 2, task := 1 }]) ∧
      (scenarioDialed.dialing.len : Int) ≤ scenarioDialConfig.maxActiveDials :=
  ⟨by decide,
    C16_active_dials_bounded scenarioDialConfig newDialScheduler scenarioDialed
      scenarioTwoCandidates
      [{ time := 1000, id := 1, task := 0 }, { time := 2000, id := 2, task := 1 }]
      (by decide) rfl (by decide)⟩

/-- C17 fails as stated: with `maxDialPeers = 1` and no dialed peer the loop has two
free slots, dials the candidate nodes 1 and 2, and when both connections are added
`dialPeers` is 2. -/
theorem C17_counterexample :
    scenarioDialConfig.maxDialPeers = 1 ∧
      (dialRun scenarioDialConfig newDialScheduler
          (scenarioTwoCandidates ++
            [{ now := 3000, rnd := [],
               ev := dialEvent.addPeer { flags := dynDialedConn, node := scenarioNode 1 } },
              { now := 4000, rnd := [],
                ev := dialEvent.addPeer { flags := dynDialedConn, node := scenarioNode 2 } }])).map
          (fun r => (r.1.dialPeers, r.2.length)) = some (2, 2) := by
  decide

/-- C17, amended. `dialPeers` is a count, not a capped quantity: one pass of the loop
adds one for an add-peer event of a dialed connection, subtracts one for a remove-peer
event of a dialed connection and changes it in no other way; `maxDialPeers` limits the
launching of dials: in a pass that begins with `dialPeers >= maxDialPeers` no dial is
started. -/
theorem C17_dial_peers_counting (cfg : dialConfig) (d d' : dialScheduler) (p : dialPass)
    (log : List dialStart) (hpass : dialLoopPass cfg d p = some (d', log)) :
    d'.dialPeers = d.dialPeers + dialPeersDelta p.ev ∧
      (cfg.maxDialPeers ≤ d.dialPeers → log = []) :=
  (dialLoopPass_facts cfg d d' p log hpass).2

/-- C17 amended, at the pass in which the dialed connection to node 1 is added. -/
theorem C17_dial_peers_counting_witness :
    dialLoopPass scenarioDialConfig newDialScheduler
        { now := 1000, rnd := [],
          ev := dialEvent.addPeer { flags := dynDialedConn, node := scenarioNode 1 } } =
      some ({ newDialScheduler with peers := [(1, 1)], dialPeers := 1 }, []) ∧
    ({ newDialScheduler with peers := [(1, 1)], dialPeers := 1 } : dialScheduler).dialPeers =
      newDialScheduler.dialPeers +
        dialPeersDelta (dialEvent.addPeer { flags := dynDialedConn, node := scenarioNode 1 }) :=
  ⟨by decide,
    (C17_dial_peers_counting scenarioDialConfig newDialScheduler
      { newDialScheduler with peers := [(1, 1)], dialPeers := 1 }
      { now := 1000, rnd := [],
        ev := dialEvent.addPeer { flags := dynDialedConn, node := scenarioNode 1 } } []
      (by decide)).1⟩

/-- C18. `checkDial(n)` returns nil exactly when `n` is not the local node, does not
have an IP together with TCP port 0, is not in the dialing map, is not a connected
peer, has its IP accepted by the netrestrict list when one is configured, and is not
in the dial history; otherwise it returns the error of the first condition that fails
in this order (self, no port, already dialing, already connected, not whitelisted,
recently dialed); the six errors are pairwise distinct. -/
theorem C18_check_dial (cfg : dialConfig) (d : dialScheduler) (n : Node) :
    (checkDial cfg d n = none ↔
      n.id ≠ cfg.self ∧ ¬ (n.ip ≠ none ∧ n.tcp = 0) ∧ d.dialing.contains n.id = false ∧
        d.peers.contains n.id = false ∧
        (∀ netRestrict, cfg.netRestrict = some netRestrict → netRestrict n.ip = true) ∧
        d.history.contains n.id = false) ∧
    (n.id = cfg.self → checkDial cfg d n = some dialErr.errSelf) ∧
    (n.id ≠ cfg.self → (n.ip ≠ none ∧ n.tcp = 0) →
      checkDial cfg d n = some dialErr.errNoPort) ∧
    (n.id ≠ cfg.self → ¬ (n.ip ≠ none ∧ n.tcp = 0) → d.dialing.contains n.id = true →
      checkDial cfg d n = some dialErr.errAlreadyDialing) ∧
    (n.id ≠ cfg.self → ¬ (n.ip ≠ none ∧ n.tcp = 0) → d.dialing.contains n.id = false →
      d.peers.contains n.id = true →
      checkDial cfg d n = some dialErr.errAlreadyConnected) ∧
    (n.id ≠ cfg.self → ¬ (n.ip ≠ none ∧ n.tcp = 0) → d.dialing.contains n.id = false →
      d.peers.contains n.id = false →
      (∃ netRestrict, cfg.netRestrict = some netRestrict ∧ netRestrict n.ip = false) →
      checkDial cfg d n = some dialErr.errNotWhitelisted) ∧
    (n.id ≠ cfg.self → ¬ (n.ip ≠ none ∧ n.tcp = 0) → d.dialing.contains n.id = false →
      d.peers.contains n.id = false →
      (∀ netRestrict, cfg.netRestrict = some netRestrict → netRestrict n.ip = true) →
      d.history.contains n.id = true →
      checkDial cfg d n = some dialErr.errRecentlyDialed) ∧
    [dialErr.errSelf, dialErr.errNoPort, dialErr.errAlreadyDialing,
      dialErr.errAlreadyConnected, dialErr.errNotWhitelisted,
      dialErr.errRecentlyDialed].Nodup := by
  have hnet : (∀ netRestrict, cfg.netRestrict = some netRestrict → netRestrict n.ip = true) ↔
      (match cfg.netRestrict with
        | none => false
        | some netRestrict => !netRestrict n.ip) = false := by
    cases cfg.netRestrict with
    | none => simp
    | some f => simp
  refine ⟨?_, ?_, ?_, ?_, ?_, ?_, ?_, by decide⟩
  · unfold checkDial
    rw [hnet]
    by_cases h1 : n.id = cfg.self
    · simp [h1]
    · by_cases h2 : n.ip ≠ none ∧ n.tcp = 0
      · simp [h1, h2]
      · by_cases h3 : d.dialing.contains n.id = true
        · simp [h1, h2, h3]
        · by_cases h4 : d.peers.contains n.id = true
          · simp [h1, h2, h3, h4]
          · by_cases h5 : (match cfg.netRestrict with
                | none => false
                | some netRestrict => !netRestrict n.ip) = true
            · simp [h1, h2, h3, h4, h5]
            · by_cases h6 : d.history.contains n.id = true
              · simp [h1, h2, h3, h4, h5, h6]
              · simp [h1, h2, h3, h4, h5, h6]
  · intro h1
    simp [checkDial, h1]
  · intro h1 h2
    simp [checkDial, h1, h2]
  · intro h1 h2 h3
    simp [checkDial, h1, h2, h3]
  · intro h1 h2 h3 h4
    simp [checkDial, h1, h2, h3, h4]
  · rintro h1 h2 h3 h4 ⟨f, hf, hv⟩
    simp [checkDial, h1, h2, h3, h4, hf, hv]
  · intro h1 h2 h3 h4 h5 h6
    rw [hnet] at h5
    simp [checkDial, h1, h2, h3, h4, h5, h6]

/-- C18, at nodes met by the scheduler that is dialing the nodes 1 and 2: node 3
passes, node 0 is the local node, node 1 is being dialed. -/
theorem C18_check_dial_witness :
    checkDial scenarioDialConfig scenarioDialed (scenarioNode 3) = none ∧
      checkDial scenarioDialConfig scenarioDialed (scenarioNode 0) = some dialErr.errSelf ∧
      checkDial scenarioDialConfig scenarioDialed (scenarioNode 1) =
        some dialErr.errAlreadyDialing :=
  ⟨(C18_check_dial scenarioDialConfig scenarioDialed (scenarioNode 3)).1.mpr
      ⟨by decide, by decide, by decide, by decide,
        fun f hf => by simp [scenarioDialConfig] at hf, by decide⟩,
    (C18_check_dial scenarioDialConfig scenarioDialed (scenarioNode 0)).2.1 (by decide),
    (C18_check_dial scenarioDialConfig scenarioDialed (scenarioNode 1)).2.2.2.1
      (by decide) (by decide) (by decide)⟩

/-- C19. In every run of the dial loop from a new scheduler, with clock readings that
do not go back, two dials started for the same node (by delivery of the node or from
the static pool) are at least `dialHistoryExpiration` apart: a node delivered again
within that time of the start of its dial is not dialed a second time.  In the state
reached, `checkDial(n)` fails for every node whose id is in the history, no task in
the static pool is for a node whose id is in the history, and `startDial` puts the id
of the node it dials into the history. -/
theorem C19_one_dial_per_history_window (cfg : dialConfig) (passes : List dialPass)
    (d' : dialScheduler) (log : List dialStart)
    (hclock : (passes.map (fun p => p.now)).Pairwise (fun a b => a ≤ b))
    (hrun : dialRun cfg newDialScheduler passes = some (d', log)) :
    log.Pairwise (fun a b => a.id = b.id → a.time + cfg.dialHistoryExpiration ≤ b.time) ∧
      (∀ n : Node, d'.history.contains n.id = true → checkDial cfg d' n ≠ none) ∧
      (∀ (r : Nat) (t : dialTask), r ∈ d'.staticPool → d'.tasks[r]? = some t →
        d'.history.contains t.dest.id = false) ∧
      (∀ (d d1 : dialScheduler) (now task : Nat) (s : dialStart),
        startDial cfg d now task = some (d1, s) → d1.history.contains s.id = true) := by
  obtain ⟨hI, T', hH⟩ := dialRun_inv cfg passes newDialScheduler d' log [] 0 hrun DialInv_new
    (HistInv_nil cfg newDialScheduler) (fun p _ => Nat.zero_le _) hclock
  rw [List.nil_append] at hH
  refine ⟨hH.2, ?_, ?_, ?_⟩
  · intro n hc hnone
    rw [checkDial_none_history cfg d' n hnone] at hc
    cases hc
  · intro r t hr ht
    obtain ⟨id, hid, _, hfresh⟩ := hI.2.2 r hr
    rw [taskIds_getElem d' r t ht] at hid
    cases hid
    exact hfresh
  · intro d d1 now task s hs
    obtain ⟨t, _, hseq, _, _, _, _, _, _, hhist⟩ := startDial_fields cfg d d1 now task s hs
    rw [hhist, expHeap.contains_add, hseq]
    simp

/-- C19, at the run in which the nodes 1 and 2 are delivered and node 1 is delivered
again 2000 ns after its dial was started: two dials are started, one for each node. -/
theorem C19_one_dial_per_history_window_witness :
    dialRun scenarioDialConfig newDialScheduler scenarioRedelivery =
        some (scenarioDialed,
          [{ time := 1000, id := 1, task := 0 }, { time := 2000, id := 2, task := 1 }]) ∧
      List.Pairwise
        (fun a b : dialStart =>
          a.id = b.id → a.time + scenarioDialConfig.dialHistoryExpiration ≤ b.time)
        [{ time := 1000, id := 1, task := 0 }, { time := 2000, id := 2, task := 1 }] :=
  ⟨by decide,
    (C19_one_dial_per_history_window scenarioDialConfig scenarioRedelivery scenarioDialed
      [{ time := 1000, id := 1, task := 0 }, { time := 2000, id := 2, task := 1 }]
      (by decide) (by decide)).1⟩

/-- C20 fails as stated: with the interrupt word at `commitInterruptNewHead` from the
first load on, `commitTransactions` applies both offered transactions, and
`proposePhase` sends a task whose block holds the two transactions. -/
theorem C20_counterexample :
    (makeCurrent scenarioMinerEnv scenarioWorker scenarioMinerEnv.currentBlock scenarioHeader).toOption
        = some scenarioProposing ∧
      ((commitTransactions scenarioMinerEnv scenarioProposing [scenarioTx 1, scenarioTx 2] 9
          (fun _ => commitInterruptNewHead)).w.current.map
            (fun c => (c.txs, c.tcount, c.receipts.map (fun r => r.TxHash)))) =
        some ([scenarioTx 1, scenarioTx 2], 2, [[1], [2]]) ∧
      (proposePhase scenarioMinerEnv scenarioWorker (fun _ => commitInterruptNewHead) false).map
          (fun r => (r.tasks.map (fun t => (t.block.transactions, t.receipts.length)), r.err)) =
        some ([([scenarioTx 1, scenarioTx 2], 2)], none) := by
  refine ⟨by decide, by decide, by decide⟩

/-- C20, amended. Neither `commitTransactions` nor `proposePhase` reads the interrupt
word: for every two histories of the word the two calls return the same result (the same
worker state, the same applied transactions, the same tasks sent and the same error). -/
theorem C20_interrupt_word_is_not_read (env : MinerEnv) (w : worker)
    (txs : List Transaction) (coinbase : Address) (exited : Bool)
    (interrupt1 interrupt2 : Nat → Int) :
    commitTransactions env w txs coinbase interrupt1 =
        commitTransactions env w txs coinbase interrupt2 ∧
      proposePhase env w interrupt1 exited = proposePhase env w interrupt2 exited :=
  ⟨rfl, rfl⟩

/-- C22 fails as stated: a configured interval of 20 s is handed to the new-work loop
unchanged, above `maxRecommitInterval`. -/
theorem C22_counterexample :
    (newWorker (scenarioConfig 20000000000) true).blockTimerPhaseInterval = 20000000000 ∧
      maxRecommitInterval < 20000000000 := by
  decide

/-- C22, amended. The interval the new-work loop is started with is
`minRecommitInterval` when the configured interval is below it, and the configured
interval otherwise; it is never below `minRecommitInterval`, and there is no upper
clamp. -/
theorem C22_recommit_lower_clamp (config : Config) (init : Bool) :
    (newWorker config init).blockTimerPhaseInterval =
        (if config.Recommit < minRecommitInterval then minRecommitInterval
          else config.Recommit) ∧
      minRecommitInterval ≤ (newWorker config init).blockTimerPhaseInterval ∧
      (minRecommitInterval ≤ config.Recommit →
        (newWorker config init).blockTimerPhaseInterval = config.Recommit) := by
  have h : (newWorker config init).blockTimerPhaseInterval =
      (if config.Recommit < minRecommitInterval then minRecommitInterval
        else config.Recommit) := rfl
  rw [h]
  refine ⟨rfl, ?_, ?_⟩
  · split
    · exact le_refl _
    · rename_i hlt
      exact not_lt.mp hlt
  · intro hle
    rw [if_neg (not_lt.mpr hle)]

/-- C22 amended, at the intervals 100 ms, 3 s and 20 s. -/
theorem C22_recommit_lower_clamp_witness :
    (newWorker (scenarioConfig 100000000) true).blockTimerPhaseInterval = 500000000 ∧
      (newWorker (scenarioConfig 3000000000) true).blockTimerPhaseInterval = 3000000000 ∧
      (newWorker (scenarioConfig 20000000000) true).blockTimerPhaseInterval = 20000000000 :=
  ⟨by decide,
    (C22_recommit_lower_clamp (scenarioConfig 3000000000) true).2.2 (by decide),
    (C22_recommit_lower_clamp (scenarioConfig 20000000000) true).2.2 (by decide)⟩

/-- C26. For a `uint64` block number `n` and constants whose sum
`CONSENSUS_CONTEXT_START_BLOCK + CONSENSUS_CONTEXT_MAX_BLOCK_COUNT` fits 64 bits:
`GetBlockConsensusContextKeyForBlock(n)` fails below `CONTEXT_BASED_START_BLOCK`;
otherwise, above the sum it succeeds with `"bc-"` and the decimal digits of
`n - CONSENSUS_CONTEXT_MAX_BLOCK_COUNT`, and else it is the key for the `uint64`
difference `m = n - CONTEXT_BASED_BLOCK_THRESHOLD`, which is `"bc-"` and the decimal
digits of `m` when `m > CONSENSUS_CONTEXT_START_BLOCK` and an error otherwise. -/
theorem C26_context_key_for_block (c : ContextConstants) (n : Nat) (hn : n < 2 ^ 64)
    (hsum : c.CONSENSUS_CONTEXT_START_BLOCK + c.CONSENSUS_CONTEXT_MAX_BLOCK_COUNT < 2 ^ 64) :
    (n < c.CONTEXT_BASED_START_BLOCK →
      GetBlockConsensusContextKeyForBlock c n =
        Except.error "GetBlockConsensusContextFn blockNumber below CONTEXT_BASED_START_BLOCK") ∧
    (c.CONTEXT_BASED_START_BLOCK ≤ n →
      c.CONSENSUS_CONTEXT_START_BLOCK + c.CONSENSUS_CONTEXT_MAX_BLOCK_COUNT < n →
      GetBlockConsensusContextKeyForBlock c n =
        Except.ok ("bc-" ++ String.mk (Nat.toDigits 10 (n - c.CONSENSUS_CONTEXT_MAX_BLOCK_COUNT)))) ∧
    (c.CONTEXT_BASED_START_BLOCK ≤ n →
      n ≤ c.CONSENSUS_CONTEXT_START_BLOCK + c.CONSENSUS_CONTEXT_MAX_BLOCK_COUNT →
      GetBlockConsensusContextKeyForBlock c n =
        GetConsensusContextKey c (uint64Sub n c.CONTEXT_BASED_BLOCK_THRESHOLD)) ∧
    (∀ m : Nat, c.CONSENSUS_CONTEXT_START_BLOCK < m →
      GetConsensusContextKey c m = Except.ok ("bc-" ++ String.mk (Nat.toDigits 10 m))) ∧
    (∀ m : Nat, m ≤ c.CONSENSUS_CONTEXT_START_BLOCK →
      GetConsensusContextKey c m =
        Except.error "GetBlockConsensusContextFn blockNumber below CONSENSUS_CONTEXT_START_BLOCK") ∧
    (c.CONTEXT_BASED_BLOCK_THRESHOLD ≤ n →
      uint64Sub n c.CONTEXT_BASED_BLOCK_THRESHOLD = n - c.CONTEXT_BASED_BLOCK_THRESHOLD) := by
  have hadd : uint64Add c.CONSENSUS_CONTEXT_START_BLOCK c.CONSENSUS_CONTEXT_MAX_BLOCK_COUNT =
      c.CONSENSUS_CONTEXT_START_BLOCK + c.CONSENSUS_CONTEXT_MAX_BLOCK_COUNT := by
    unfold uint64Add
    exact Nat.mod_eq_of_lt hsum
  have hsub : ∀ b : Nat, b ≤ n → uint64Sub n b = n - b := by
    intro b hb
    unfold uint64Sub
    have : n + 2 ^ 64 - b = (n - b) + 2 ^ 64 := by omega
    rw [this, Nat.add_mod_right]
    exact Nat.mod_eq_of_lt (by omega)
  have hok : ∀ m : Nat, c.CONSENSUS_CONTEXT_START_BLOCK < m →
      GetConsensusContextKey c m = Except.ok ("bc-" ++ String.mk (Nat.toDigits 10 m)) := by
    intro m hm
    unfold GetConsensusContextKey FormatUint10
    rw [if_neg (not_le.mpr hm)]
  refine ⟨?_, ?_, ?_, hok, ?_, hsub _⟩
  · intro h
    unfold GetBlockConsensusContextKeyForBlock
    rw [if_pos h]
  · intro h1 h2
    unfold GetBlockConsensusContextKeyForBlock
    rw [if_neg (not_lt.mpr h1), hadd, if_pos h2, hsub _ (by omega)]
    exact hok _ (by omega)
  · intro h1 h2
    unfold GetBlockConsensusContextKeyForBlock
    rw [if_neg (not_lt.mpr h1), hadd, if_neg (not_lt.mpr h2)]
  · intro m hm
    unfold GetConsensusContextKey
    rw [if_pos hm]

/-- C26, at the block numbers 50, 100 and 2000 with the sample constants. -/
theorem C26_context_key_for_block_witness :
    GetBlockConsensusContextKeyForBlock scenarioContextConstants 50 =
        Except.error "GetBlockConsensusContextFn blockNumber below CONTEXT_BASED_START_BLOCK" ∧
      GetBlockConsensusContextKeyForBlock scenarioContextConstants 2000 = Except.ok "bc-1000" ∧
      GetBlockConsensusContextKeyForBlock scenarioContextConstants 100 = Except.ok "bc-68" :=
  ⟨(C26_context_key_for_block scenarioContextConstants 50 (by decide) (by decide)).1 (by decide),
    (C26_context_key_for_block scenarioContextConstants 2000 (by decide) (by decide)).2.1
      (by decide) (by decide),
    ((C26_context_key_for_block scenarioContextConstants 100 (by decide) (by decide)).2.2.1
      (by decide) (by decide)).trans rfl⟩

/-- C27. The gas price of a default-fee transaction is its `MaxGasTier` times the base
default price 47619047619047600 wei when the tier is 1, 2, 5 or 10, and the base
default price for every other tier value. -/
theorem C27_gas_price (tx : DefaultFeeTx) :
    ((tx.MaxGasTier = 1 ∨ tx.MaxGasTier = 2 ∨ tx.MaxGasTier = 5 ∨ tx.MaxGasTier = 10) →
      tx.gasPrice = (tx.MaxGasTier : Int) * 47619047619047600) ∧
    (¬ (tx.MaxGasTier = 1 ∨ tx.MaxGasTier = 2 ∨ tx.MaxGasTier = 5 ∨ tx.MaxGasTier = 10) →
      tx.gasPrice = 47619047619047600) := by
  constructor
  · intro h
    rcases h with h | h | h | h <;>
      simp [DefaultFeeTx.gasPrice, h, GAS_TIER_DEFAULT, GAS_TIER_2X, GAS_TIER_5X, GAS_TIER_10X,
        GAS_TIER_DEFAULT_PRICE, GAS_TIER_2x_PRICE, GAS_TIER_5x_PRICE, GAS_TIER_10x_PRICE,
        SafeMulBigInt]
  · intro h
    have h1 : ¬ tx.MaxGasTier = 1 := fun e => h (Or.inl e)
    have h2 : ¬ tx.MaxGasTier = 2 := fun e => h (Or.inr (Or.inl e))
    have h5 : ¬ tx.MaxGasTier = 5 := fun e => h (Or.inr (Or.inr (Or.inl e)))
    have h10 : ¬ tx.MaxGasTier = 10 := fun e => h (Or.inr (Or.inr (Or.inr e)))
    simp [DefaultFeeTx.gasPrice, h1, h2, h5, h10, GAS_TIER_DEFAULT, GAS_TIER_2X, GAS_TIER_5X,
      GAS_TIER_10X, GAS_TIER_DEFAULT_PRICE]

/-- C27, at the tiers 5 and 3. -/
theorem C27_gas_price_witness :
    (scenarioFeeTx 5).gasPrice = 238095238095238000 ∧
      (scenarioFeeTx 3).gasPrice = 47619047619047600 :=
  ⟨((C27_gas_price (scenarioFeeTx 5)).1 (Or.inr (Or.inr (Or.inl rfl)))).trans (by decide),
    (C27_gas_price (scenarioFeeTx 3)).2 (by decide)⟩

/-- C21 fails as stated: tasks with the seal-hashes of the blocks 1, 2 and 1 again are
all handed to the engine, so the seal-hash of block 1 is sealed twice. -/
theorem C21_counterexample :
    sealedHashes scenarioSealEnv
        (taskLoopRun scenarioSealEnv (taskLoopStart [])
          [scenarioTask 1, scenarioTask 2, scenarioTask 1]).2 = [[1], [2], [1]] := by
  decide

/-- C21, amended. The task loop compares the seal-hash of a task with `prev` only, and
after every task received `prev` is the seal-hash of that task: a task whose seal-hash
is that of the task received immediately before it changes nothing and calls nothing;
and without a skip hook, in every run the seal-hash of each block handed to
`engine.Seal` differs from the seal-hash handed over before it (the first one from the
initial `prev`). -/
theorem C21_adjacent_duplicates_skipped (env : SealEnv) (s : taskLoopState)
    (tasks : List task) :
    (∀ t : task, (taskLoopStep env s t).1.prev = env.SealHash t.block.header) ∧
    (∀ t : task, env.SealHash t.block.header = s.prev → taskLoopStep env s t = (s, [])) ∧
    (∀ t t' : task, env.SealHash t'.block.header = env.SealHash t.block.header →
      taskLoopStep env (taskLoopStep env s t).1 t' = ((taskLoopStep env s t).1, [])) ∧
    (env.skipSealHook = none →
      List.Chain (fun a b => a ≠ b) s.prev (sealedHashes env (taskLoopRun env s tasks).2)) := by
  have hprev : ∀ (s : taskLoopState) (t : task),
      (taskLoopStep env s t).1.prev = env.SealHash t.block.header := by
    intro s t
    unfold taskLoopStep
    dsimp only
    split
    · rename_i h
      exact h.symm
    · split <;> rfl
  have hdup : ∀ (s : taskLoopState) (t : task), env.SealHash t.block.header = s.prev →
      taskLoopStep env s t = (s, []) := by
    intro s t h
    unfold taskLoopStep
    dsimp only
    rw [if_pos h]
  refine ⟨hprev s, hdup s, fun t t' h => hdup _ t' (by rw [hprev s t]; exact h), ?_⟩
  intro hhook
  induction tasks generalizing s with
  | nil => exact List.Chain.nil
  | cons t rest ih =>
    unfold taskLoopRun
    dsimp only
    by_cases hd : env.SealHash t.block.header = s.prev
    · rw [hdup s t hd]
      simpa [sealedHashes] using ih s
    · have hstep : sealedHashes env (taskLoopStep env s t).2 = [env.SealHash t.block.header] := by
        unfold taskLoopStep taskLoopInterrupt
        dsimp only
        rw [if_neg hd, hhook]
        cases s.stopCh <;> cases env.backupManager <;> simp [sealedHashes]
      have := ih (taskLoopStep env s t).1
      rw [hprev s t] at this
      unfold sealedHashes at hstep this ⊢
      rw [List.filterMap_append, hstep]
      exact List.Chain.cons (fun e => hd e.symm) this

/-- C21 amended, at the tasks for the blocks 1, 1 and 2: the second task is skipped. -/
theorem C21_adjacent_duplicates_skipped_witness :
    sealedHashes scenarioSealEnv
        (taskLoopRun scenarioSealEnv (taskLoopStart [])
          [scenarioTask 1, scenarioTask 1, scenarioTask 2]).2 = [[1], [2]] ∧
      List.Chain (fun a b => a ≠ b) (taskLoopStart []).prev
        (sealedHashes scenarioSealEnv
          (taskLoopRun scenarioSealEnv (taskLoopStart [])
            [scenarioTask 1, scenarioTask 1, scenarioTask 2]).2) :=
  ⟨by decide,
    (C21_adjacent_duplicates_skipped scenarioSealEnv (taskLoopStart [])
      [scenarioTask 1, scenarioTask 1, scenarioTask 2]).2.2.2 rfl⟩

/-- C24. One pass of the result loop makes no call at all for a nil block, a block
already in the chain and a block without pending task under its seal-hash; for a failed
write its only call is the write; and otherwise it calls `WriteBlockWithState`, which
returns success, then posts the `NewMinedBlock` event for the block and then inserts
the block into the unconfirmed set: an event posted or a block inserted is preceded by
the successful write of that block. -/
theorem C24_mined_event_after_write (env : SealEnv) (pendingTasks : GoMap Hash task)
    (block : Option Block) :
    (block = none → (resultLoopStep env pendingTasks block).2 = []) ∧
    (∀ b, block = some b → env.HasBlock (env.blockHash b) b.header.Number = true →
      (resultLoopStep env pendingTasks block).2 = []) ∧
    (∀ b, block = some b → pendingTasks.lookup (env.SealHash b.header) = none →
      (resultLoopStep env pendingTasks block).2 = []) ∧
    (∀ b t, block = some b → env.HasBlock (env.blockHash b) b.header.Number = false →
      pendingTasks.lookup (env.SealHash b.header) = some t →
      ∃ receipts logs status err,
        env.WriteBlockWithState b receipts logs t.state = (status, err) ∧
        receipts = stampReceipts (env.blockHash b) b.header.Number 0 t.receipts ∧
        logs = (receipts.map (fun r => r.Logs)).flatten ∧
        (err ≠ none → (resultLoopStep env pendingTasks block).2 =
          [ResultLoopCall.WriteBlockWithState b receipts logs t.state status err]) ∧
        (err = none → (resultLoopStep env pendingTasks block).2 =
          [ResultLoopCall.WriteBlockWithState b receipts logs t.state status none,
            ResultLoopCall.Post b,
            ResultLoopCall.Insert b.header.Number (env.blockHash b)])) ∧
    (∀ c, c ∈ (resultLoopStep env pendingTasks block).2 →
      (∃ b, c = ResultLoopCall.Post b) ∨ (∃ n h, c = ResultLoopCall.Insert n h) →
      ∃ b receipts logs state status,
        block = some b ∧
        env.WriteBlockWithState b receipts logs state = (status, none) ∧
        (resultLoopStep env pendingTasks block).2 =
          [ResultLoopCall.WriteBlockWithState b receipts logs state status none,
            ResultLoopCall.Post b,
            ResultLoopCall.Insert b.header.Number (env.blockHash b)]) := by
  refine ⟨?_, ?_, ?_, ?_, ?_⟩
  · intro h
    subst h
    rfl
  · intro b h hb
    subst h
    simp [resultLoopStep, hb]
  · intro b h hl
    subst h
    unfold resultLoopStep
    dsimp only
    split
    · rfl
    · rw [hl]
  · intro b t h hb hl
    subst h
    cases hw : env.WriteBlockWithState b
        (stampReceipts (env.blockHash b) b.header.Number 0 t.receipts)
        ((stampReceipts (env.blockHash b) b.header.Number 0 t.receipts).map
          (fun r => r.Logs)).flatten t.state with
    | mk status err =>
      refine ⟨_, _, status, err, hw, rfl, rfl, ?_, ?_⟩
      · intro herr
        cases err with
        | none => exact absurd rfl herr
        | some e =>
          unfold resultLoopStep
          dsimp only
          rw [hb, hl]
          simp only [Bool.false_eq_true, if_false]
          rw [hw]
      · intro herr
        subst herr
        unfold resultLoopStep
        dsimp only
        rw [hb, hl]
        simp only [Bool.false_eq_true, if_false]
        rw [hw]
  · intro c hc hkind
    cases block with
    | none => simp [resultLoopStep] at hc
    | some b =>
      unfold resultLoopStep at hc ⊢
      dsimp only at hc ⊢
      split at hc
      · simp at hc
      · rename_i hb
        split at hc
        · simp at hc
        · rename_i t hl
          split at hc
          · rename_i status err hw
            simp only [List.mem_singleton] at hc
            subst hc
            rcases hkind with ⟨b', h'⟩ | ⟨n, h, h'⟩ <;> cases h'
          · rename_i status hw
            refine ⟨b, _, _, t.state, status, rfl, hw, ?_⟩
            rw [if_neg hb]

/-- C24, at the sample block 7 with a pending task (written, posted, inserted) and at
the sample block 13, whose write fails. -/
theorem C24_mined_event_after_write_witness :
    (resultLoopStep scenarioSealEnv [([7], scenarioTask 7)] (some (scenarioBlock 7))).2 =
        [ResultLoopCall.WriteBlockWithState (scenarioBlock 7) [] []
            { content := 0, thash := [], txIndex := 0 } 1 none,
          ResultLoopCall.Post (scenarioBlock 7),
          ResultLoopCall.Insert 7 [7, 1]] ∧
      (resultLoopStep scenarioSealEnv [([13], scenarioTask 13)] (some (scenarioBlock 13))).2 =
        [ResultLoopCall.WriteBlockWithState (scenarioBlock 13) [] []
            { content := 0, thash := [], txIndex := 0 } 0 (some "write failed")] ∧
      (resultLoopStep scenarioSealEnv [([7], scenarioTask 7)] (some (scenarioBlock 8))).2 = [] :=
  ⟨by decide, by decide,
    (C24_mined_event_after_write scenarioSealEnv [([7], scenarioTask 7)]
      (some (scenarioBlock 8))).2.2.1 (scenarioBlock 8) rfl (by decide)⟩

/-- C23 fails as stated: outside the fee-market phase, with `GasFloor` 8000000 and an
engine whose prepare step leaves the header alone, the header handed to `engine.Prepare`
has gas limit 8000000, and the block of the task is assembled from a header with gas
limit 300000000. -/
theorem C23_counterexample :
    scenarioWorker.config.GasFloor = 8000000 ∧
      scenarioMinerEnv.isLondon (scenarioMinerEnv.currentBlock.header.Number + 1) = false ∧
      (proposeHeader scenarioMinerEnv scenarioWorker).GasLimit = 8000000 ∧
      (scenarioMinerEnv.prepare (proposeHeader scenarioMinerEnv scenarioWorker)).toOption =
        some (proposeHeader scenarioMinerEnv scenarioWorker) ∧
      (proposePhase scenarioMinerEnv scenarioWorker (fun _ => commitInterruptNone) false).map
          (fun r => r.tasks.map (fun t => t.block.header.GasLimit)) = some [300000000] := by
  refine ⟨by decide, by decide, by decide, by decide, by decide⟩

/-- C23, amended. The header `proposePhase` builds and hands to `engine.Prepare` has
the gas limit the claim describes (`GasFloor`, or the limit computed from the parent's
gas limit and `GasCeil` in the fee-market phase); `commitTransactions` then overwrites
the gas limit of the header of the current environment with 300000000, and every task
`proposePhase` sends carries the block assembled from that header: the header passed on
to `FinalizeAndAssembleWithConsensus` has gas limit 300000000. -/
theorem C23_assembled_gas_limit (env : MinerEnv) (w : worker) (interrupt : Nat → Int)
    (exited : Bool) :
    (proposeHeader env w).GasLimit = proposeGasLimit env w ∧
    (∀ (txs : List Transaction) (coinbase : Address) (cur : environment),
      w.current = some cur →
      ∃ cur', (commitTransactions env w txs coinbase interrupt).w.current = some cur' ∧
        cur'.header.GasLimit = 300000000) ∧
    (∀ (r : ProposeResult) (t : task), proposePhase env w interrupt exited = some r →
      t ∈ r.tasks →
      ∃ header1 cur s, env.prepare (proposeHeader env w) = Except.ok header1 ∧
        r.w.current = some cur ∧ cur.header.GasLimit = 300000000 ∧
        env.finalizeAndAssemble cur.header cur.state cur.txs cur.receipts =
          (s, Except.ok t.block)) := by
  refine ⟨proposeHeader_gasLimit env w,
    fun txs coinbase cur hcur => commitTransactions_gasLimit env w txs coinbase interrupt cur hcur,
    ?_⟩
  intro r t h ht
  have hp : ∃ header1, env.prepare (proposeHeader env w) = Except.ok header1 := by
    cases hprep : env.prepare (proposeHeader env w) with
    | ok h1 => exact ⟨h1, rfl⟩
    | error e =>
      rw [proposePhase_unfold, hprep] at h
      dsimp only at h
      split at h <;> (cases h; simp at ht)
  obtain ⟨header1, hprep⟩ := hp
  have key : ∃ cur s, r.w.current = some cur ∧ cur.header.GasLimit = 300000000 ∧
      env.finalizeAndAssemble cur.header cur.state cur.txs cur.receipts =
        (s, Except.ok t.block) := by
    rw [proposePhase_unfold] at h
    split at h
    · cases h
      simp at ht
    · split at h
      · cases h
        simp at ht
      · split at h
        · cases h
          simp at ht
        · rename_i w1 hw1
          split at h
          · cases h
          · rename_i current hcurrent
            split at h
            · cases h
              simp at ht
            · dsimp only at h
              split at h
              · cases h
                simp at ht
              · split at h
                · cases h
                  simp at ht
                · split at h
                  · cases h
                  · rename_i c hc
                    simp only [Option.some.injEq] at h
                    subst h
                    dsimp only at ht ⊢
                    obtain ⟨cur, s, hcur1, hcur2, hfin, _, _, _, _, _⟩ :=
                      commit_task env _ true exited c t hc ht
                    exact ⟨cur, s, hcur2,
                      commitTransactions_gasLimit_of_some env _ _ _ interrupt current cur
                        hcur1 hcurrent, hfin⟩
  obtain ⟨cur, s, h1, h2, h3⟩ := key
  exact ⟨header1, cur, s, hprep, h1, h2, h3⟩

/-- C23 amended, at the sample worker with the empty pool: the task's block is
assembled from a header with gas limit 300000000. -/
theorem C23_assembled_gas_limit_witness :
    proposePhase scenarioEmptyPoolEnv scenarioWorker (fun _ => commitInterruptNone) false =
        some scenarioEmptyProposal ∧
      ∃ header1 cur s,
        scenarioEmptyPoolEnv.prepare (proposeHeader scenarioEmptyPoolEnv scenarioWorker) =
          Except.ok header1 ∧
        scenarioEmptyProposal.w.current = some cur ∧ cur.header.GasLimit = 300000000 ∧
        scenarioEmptyPoolEnv.finalizeAndAssemble cur.header cur.state cur.txs cur.receipts =
          (s, Except.ok scenarioEmptyTask.block) :=
  ⟨by decide,
    (C23_assembled_gas_limit scenarioEmptyPoolEnv scenarioWorker (fun _ => commitInterruptNone)
      false).2.2 scenarioEmptyProposal scenarioEmptyTask (by decide) (by decide)⟩

/-- C29 fails on the code: `BroadcastToSyncPeers` (and with it `BroadcastLocalPacket` on
a relay) locks `parentHashLock`, inside `GetCurrentParentHash`, while it holds
`peerLock`, and `SetCurrentParentHash` locks `peerLock` while it holds
`parentHashLock`; every other method takes `peerLock` alone.  When a goroutine in
`SetCurrentParentHash` has taken `parentHashLock` and a goroutine in
`BroadcastToSyncPeers` has taken `peerLock`, neither can go on. -/
theorem C29_lock_order_inversion :
    acquiresWhileHolding LockName.parentHashLock LockName.peerLock []
        (lockOps PeerHandlerMethod.BroadcastToSyncPeers) = true ∧
      acquiresWhileHolding LockName.parentHashLock LockName.peerLock []
        (lockOps (PeerHandlerMethod.BroadcastLocalPacket true)) = true ∧
      acquiresWhileHolding LockName.peerLock LockName.parentHashLock []
        (lockOps PeerHandlerMethod.SetCurrentParentHash) = true ∧
      (∀ m : PeerHandlerMethod,
        acquiresWhileHolding LockName.parentHashLock LockName.peerLock [] (lockOps m) = true →
          m = PeerHandlerMethod.BroadcastToSyncPeers ∨
            m = PeerHandlerMethod.BroadcastLocalPacket true) ∧
      (scenarioLocks.run [0, 1]).map (fun s => (s.peerLock, s.parentHashLock, s.deadlocked)) =
        some (some 1, some 0, true) := by
  refine ⟨by decide, by decide, by decide, ?_, by decide⟩
  intro m hm
  cases m with
  | HandleCapabilityPacket b => cases b <;> simp [lockOps, acquiresWhileHolding] at hm
  | HandleRequestConsensusSync b => cases b <;> simp [lockOps, acquiresWhileHolding] at hm
  | HandleConsensusPacket b => cases b <;> simp [lockOps, acquiresWhileHolding, lockOpsBroadcastToConsensusRelays,
      lockOpsGetCurrentParentHash] at hm
  | SendRequestConsensusSyncPacket b => cases b <;> simp [lockOps, acquiresWhileHolding, lockOpsBroadcastToConsensusRelays,
      lockOpsGetCurrentParentHash] at hm
  | BroadcastLocalPacket b =>
    cases b
    · simp [lockOps, acquiresWhileHolding, lockOpsBroadcastToConsensusRelays,
      lockOpsGetCurrentParentHash] at hm
    · exact Or.inr rfl
  | BroadcastToSyncPeers => exact Or.inl rfl
  | _ => simp [lockOps, acquiresWhileHolding, lockOpsBroadcastToConsensusRelays,
      lockOpsGetCurrentParentHash] at hm

/-- C30. From a scheduler in which the index invariant holds (the task at
`staticPool[i]` has `staticPoolIndex = i`, every static task outside the pool has
`staticPoolIndex = -1`, no task occurs twice in the pool), each static-pool operation
returns and the invariant holds again: `addToStaticPool` of a task whose index is
negative appends it; `removeFromStaticPool(idx)` with `0 ≤ idx < len(staticPool)`
makes the pool one shorter, its tasks are exactly the former ones other than the task
at `idx`, that task gets the index `-1`, and the tasks kept have their node and flags
unchanged; `startStaticDials(n)` for any `n` and any random draws; and
`updateStaticPool(id)` when the entry of `id` in `static`, if any, is a task of the
scheduler. -/
theorem C30_static_pool_index_invariant (cfg : dialConfig) (d : dialScheduler)
    (hI : PoolInv d) :
    (∀ (task : Nat) (t : dialTask), d.tasks[task]? = some t → t.staticPoolIndex < 0 →
      ∃ d', addToStaticPool d task = some d' ∧ PoolInv d' ∧
        d'.staticPool = d.staticPool ++ [task]) ∧
    (∀ idx : Int, 0 ≤ idx → idx < d.staticPool.length →
      ∃ d' task, d.staticPool[idx.toNat]? = some task ∧
        removeFromStaticPool d idx = some d' ∧ PoolInv d' ∧
        d'.staticPool.length + 1 = d.staticPool.length ∧
        (∀ r, r ∈ d'.staticPool ↔ r ∈ d.staticPool ∧ r ≠ task) ∧
        (∃ t, d'.tasks[task]? = some t ∧ t.staticPoolIndex = -1) ∧
        (∀ r, r ∈ d'.staticPool → ∃ t t', d.tasks[r]? = some t ∧ d'.tasks[r]? = some t' ∧
          t'.dest = t.dest ∧ t'.flags = t.flags)) ∧
    (∀ (now : Nat) (n : Int) (rnd : List Nat),
      ∃ d' started log, startStaticDials cfg d now n rnd = some (d', started, log) ∧
        PoolInv d') ∧
    (∀ id : NodeID, (∀ r, d.static.lookup id = some r → r < d.tasks.length) →
      ∃ d', updateStaticPool cfg d id = some d' ∧ PoolInv d') := by
  refine ⟨?_, ?_, ?_, ?_⟩
  · intro task t ht hneg
    obtain ⟨d', h⟩ := addToStaticPool_total d task t ht hneg
    exact ⟨d', h, PoolInv_add d d' task hI h⟩
  · intro idx h0 hlt
    obtain ⟨d', h⟩ := removeFromStaticPool_total d idx hI.1 h0 hlt
    obtain ⟨task, htask, hrest⟩ := removeFromStaticPool_full d d' idx hI h
    exact ⟨d', task, htask, h, hrest⟩
  · intro now n rnd
    exact startStaticDialsLoop_total cfg now n _ d 0 rnd [] hI (Nat.le_refl _)
  · intro id hS
    exact updateStaticPool_total cfg d id hI hS

/-- C30, at the scheduler with the static tasks 0, 1 and 2 in the pool:
`removeFromStaticPool(0)` moves the last task to the front and leaves the pool
`[2, 1]`, in which the invariant holds. -/
theorem C30_static_pool_index_invariant_witness :
    PoolInv scenarioPooled ∧
      (removeFromStaticPool scenarioPooled 0).map (fun d => d.staticPool) = some [2, 1] ∧
      ∃ d' task, scenarioPooled.staticPool[(0 : Int).toNat]? = some task ∧
        removeFromStaticPool scenarioPooled 0 = some d' ∧ PoolInv d' ∧
        d'.staticPool.length + 1 = scenarioPooled.staticPool.length ∧
        (∀ r, r ∈ d'.staticPool ↔ r ∈ scenarioPooled.staticPool ∧ r ≠ task) ∧
        (∃ t, d'.tasks[task]? = some t ∧ t.staticPoolIndex = -1) ∧
        (∀ r, r ∈ d'.staticPool → ∃ t t', scenarioPooled.tasks[r]? = some t ∧
          d'.tasks[r]? = some t' ∧ t'.dest = t.dest ∧ t'.flags = t.flags) :=
  ⟨PoolInv_scenarioPooled, by decide,
    (C30_static_pool_index_invariant scenarioDialConfig scenarioPooled
      PoolInv_scenarioPooled).2.1 0 (by decide) (by decide)⟩

end QuantumCoin
